import Mathlib

/-!
# FAT16 file reader: a shallow embedding of `file_reader.c`

Conventions of the embedding:

* a byte buffer is a `List Nat`; every reader reduces the cell it reads modulo 256, and
  `disk_read` delivers bytes already reduced;
* the backing file of a disk is its content together with the position of its stream; a
  function that reads from the disk is given the disk as it is when the call starts, and
  the volume of the handle or cursor it returns holds the disk as the call leaves it.  In C
  the handles and cursors of one disk share the stream; here each carries the disk as its
  own last call has left it, and a statement about a call holds for every position the
  stream can have when the call starts;
* machine integers are `Nat`/`Int` with the wrap of their width written out where it can
  occur (`to_uint32`, `to_int32`, `% 2^32`, `% 2^64`); `size_t` is 64 bits wide, the host is
  little-endian, and signed arithmetic that leaves the `int` range (undefined in C) wraps
  in two's complement;
* a C function that can fail returns an `Except`; allocation (`malloc`) is taken to succeed
  and pointer arguments are taken to be non-null, so the `EFAULT`/`ENOMEM` paths for null
  pointers are not part of the embedding;
* a loop without a bound in the source (`get_chain_fat16`) is run on a `fuel` argument and
  reports when the fuel is used up; the bounded loops (`file_read`, `dir_read`) are run for
  the number of passes they can make at most.
-/

namespace Fat16

/-! ## Constants of `file_reader.h` -/

def SECTOR_SIZE : Nat := 512
def FAT16_EOC_MIN : Nat := 0xFFF8
def FAT16_BAD_CLUSTER : Nat := 0xFFF7
def FAT16_FREE_CLUSTER : Nat := 0x0000

/-! ## Raw memory access -/

/-- The byte stored at index `i` of a buffer (cells outside the buffer read as 0). -/
def byteAt (buf : List Nat) (i : Nat) : Nat := buf.getD i 0 % 256

/-- A little-endian `uint16_t` load, `*(uint16_t*)((uint8_t*)buf + off)`. -/
def read_u16 (buf : List Nat) (off : Nat) : Nat :=
  byteAt buf off + 256 * byteAt buf (off + 1)

/-- A little-endian `uint32_t` load. -/
def read_u32 (buf : List Nat) (off : Nat) : Nat :=
  read_u16 buf off + 65536 * read_u16 buf (off + 2)

/-! ## `get_chain_fat16` -/

structure clusters_chain_t where
  clusters : List Nat
  size : Nat
deriving DecidableEq

/-- The counting loop of `get_chain_fat16` (the `while(1)` of lines 460-473), run for at
most `fuel` iterations.  `none`: the loop is still running when the fuel is used up;
`some none`: the function returns `NULL`; `some (some count)`: the loop left by `break`
with this value of the `uint16_t` counter. -/
def chain_count (buffer : List Nat) (size : Nat) :
    Nat → Nat → Nat → Nat → Option (Option Nat)
  | 0, _, _, _ => none
  | fuel + 1, offset, current, count =>
    if offset + 2 > size then some none
    else if current = FAT16_BAD_CLUSTER ∨ current = FAT16_FREE_CLUSTER ∨ current = 0x0001 then
      some none
    else if current ≥ FAT16_EOC_MIN then some (some count)
    else
      chain_count buffer size fuel (current * 2) (read_u16 buffer (current * 2))
        ((count + 1) % 65536)

/-- The filling loop (lines 485-491): `n` iterations are left, the loop variable is `i`,
`curr` is the cluster about to be stored.  `i < count - 1` is evaluated in `int`; it is
`i + 1 < count`. -/
def chain_fill (buffer : List Nat) (count : Nat) : Nat → Nat → Nat → List Nat
  | 0, _, _ => []
  | n + 1, i, curr =>
    curr :: chain_fill buffer count n (i + 1)
      (if i + 1 < count then read_u16 buffer (curr * 2) else curr)

/-- The function `get_chain_fat16(buffer, size, first_cluster)`; `fuel` bounds the number of
iterations of its unbounded counting loop (`none` when that bound is reached). -/
def get_chain_fat16 (fuel : Nat) (buffer : List Nat) (size : Nat) (first_cluster : Nat) :
    Option (Option clusters_chain_t) :=
  if first_cluster < 2 ∨ size % 2 ≠ 0 ∨ size < 4 then some none
  else
    let offset := first_cluster * 2
    if offset + 2 > size then some none
    else
      match chain_count buffer size fuel offset (read_u16 buffer offset) 1 with
      | none => none
      | some none => some none
      | some (some count) =>
        some (some { clusters := chain_fill buffer count count 0 first_cluster, size := count })

/-- A table of 16-bit entries laid out as bytes, little-endian. -/
def fat_bytes : List Nat → List Nat
  | [] => []
  | e :: es => (e % 256) :: (e / 256 % 256) :: fat_bytes es

/-- The FAT entry of cluster `c`: the link the walk follows from `c`. -/
def fat_entry (buffer : List Nat) (c : Nat) : Nat := read_u16 buffer (c * 2)

/-- The cluster reached from `c` after `k` links. -/
def walk (buffer : List Nat) (c : Nat) : Nat → Nat
  | 0 => c
  | k + 1 => walk buffer (fat_entry buffer c) k

/-- The entry `e` is a link to a next cluster: neither a marker nor an end of chain. -/
def is_link (e : Nat) : Prop :=
  ¬ (e = FAT16_BAD_CLUSTER ∨ e = FAT16_FREE_CLUSTER ∨ e = 0x0001) ∧ ¬ e ≥ FAT16_EOC_MIN

/-- From `c`, `k` links can be followed inside the table and the `k`-th cluster reached
holds an end-of-chain entry. -/
def ends_after (buffer : List Nat) (size : Nat) (c k : Nat) : Prop :=
  (∀ j, j < k → walk buffer c j * 2 + 2 ≤ size ∧ is_link (fat_entry buffer (walk buffer c j)))
  ∧ walk buffer c k * 2 + 2 ≤ size ∧ FAT16_EOC_MIN ≤ fat_entry buffer (walk buffer c k)

/-! ## Errors and machine integers -/

/-- The `errno` values the reader sets. -/
inductive Errno where
  | EFAULT | ENOMEM | ENOENT | ERANGE | EINVAL | EISDIR | ENXIO | EIO
deriving DecidableEq

deriving instance DecidableEq for Except

/-- The value of an integer converted to `uint32_t`: its residue modulo `2^32`. -/
def to_uint32 (x : Int) : Nat := (x % 4294967296).toNat

/-- The value of an integer converted to `int32_t`: the residue modulo `2^32` that lies in
`[-2^31, 2^31)` (two's complement wrap; the same wrap stands for `int` arithmetic that
leaves the `int` range). -/
def to_int32 (x : Int) : Int :=
  if to_uint32 x < 2147483648 then (to_uint32 x : Int) else (to_uint32 x : Int) - 4294967296

/-! ## `disk_t`, `disk_read` -/

structure disk_t where
  /-- The content of the backing file (`FILE *file`). -/
  file : List Nat
  /-- The recorded size in bytes (`size_t size`). -/
  size : Nat
  /-- The position of the stream `file`: the offset of the next byte an `fread` delivers. -/
  pos : Nat
deriving DecidableEq

/-- The function `disk_open_from_file` on an existing file with the given content: the size is
the `ftell` at the end of the file, and `rewind` leaves the stream at position 0. -/
def disk_open_from_file (content : List Nat) : disk_t :=
  { file := content, size := content.length, pos := 0 }

/-- The disk with its stream at position `p`. -/
def disk_at (pdisk : disk_t) (p : Nat) : disk_t := { pdisk with pos := p }

/-- The disk `d` is the disk `pdisk` with its stream at some position. -/
def same_medium (d pdisk : disk_t) : Prop := d.file = pdisk.file ∧ d.size = pdisk.size

/-- The position of a stream that stands at `cur` after `fseek(file, offset, SEEK_SET)`.  A
negative `offset` (it arises after `first_sector * SECTOR_SIZE` has left the `int` range) is
refused by `fseek` and the stream stays where it is; `disk_read` does not test the result of
the call. -/
def seek_set (cur : Nat) (offset : Int) : Nat :=
  if offset < 0 then cur else offset.toNat

/-- The call `fread(buffer, SECTOR_SIZE, n, file)` on a stream at position `start`: the number
of complete 512-byte items delivered and the bytes of these items. -/
def fread_at (file : List Nat) (start : Nat) (n : Nat) : Nat × List Nat :=
  let items := min n ((file.length - start) / SECTOR_SIZE)
  (items, ((file.drop start).take (items * SECTOR_SIZE)).map (· % 256))

/-- The position the `fread` of `fread_at` leaves: `start` advanced by the bytes read, those
of a last incomplete item included. -/
def fread_end (file : List Nat) (start : Nat) (n : Nat) : Nat :=
  start + min (n * SECTOR_SIZE) (file.length - start)

/-- The function `disk_read(pdisk, first_sector, buffer, sectors_to_read)` on a disk whose
stream stands at `pdisk.pos`; the result is the filled buffer (the C function then returns
`sectors_to_read`), or the error (it returns -1).  The arguments are `int32_t` values. -/
def disk_read (pdisk : disk_t) (first_sector : Int) (sectors_to_read : Int) :
    Except Errno (List Nat) :=
  if first_sector < 0 ∨ sectors_to_read ≤ 0 then .error Errno.EFAULT
  else if to_int32 (to_int32 (first_sector + sectors_to_read) * SECTOR_SIZE)
      > to_int32 pdisk.size then .error Errno.ERANGE
  else
    let r := fread_at pdisk.file
      (seek_set pdisk.pos (to_int32 (first_sector * SECTOR_SIZE))) sectors_to_read.toNat
    if (r.1 : Int) ≠ sectors_to_read then .error Errno.ERANGE
    else .ok r.2

/-- The disk as the call `disk_read(pdisk, first_sector, buffer, sectors_to_read)` leaves it:
unchanged when the call returns before its `fseek`, otherwise with the stream where the
`fseek` and the `fread` have moved it, whether the call succeeds or not. -/
def disk_after (pdisk : disk_t) (first_sector : Int) (sectors_to_read : Int) : disk_t :=
  if first_sector < 0 ∨ sectors_to_read ≤ 0 then pdisk
  else if to_int32 (to_int32 (first_sector + sectors_to_read) * SECTOR_SIZE)
      > to_int32 pdisk.size then pdisk
  else
    disk_at pdisk (fread_end pdisk.file
      (seek_set pdisk.pos (to_int32 (first_sector * SECTOR_SIZE))) sectors_to_read.toNat)

/-! ## `fat_super_t`, `volume_t`, `fat_open` -/

/-- The numeric fields of the packed boot sector record (the byte arrays of the record are
not read by the code). -/
structure fat_super_t where
  bytes_per_sector : Nat
  sectors_per_cluster : Nat
  reserved_sectors : Nat
  fat_count : Nat
  root_dir_capacity : Nat
  logical_sectors16 : Nat
  sectors_per_fat : Nat
  hidden_sectors : Nat
  logical_sectors32 : Nat
  serial_number : Nat
  magic : Nat
deriving DecidableEq

/-- The overlay of `struct fat_super_t` (packed, little-endian) on a 512-byte sector. -/
def read_super (b : List Nat) : fat_super_t :=
  { bytes_per_sector := read_u16 b 11
    sectors_per_cluster := byteAt b 13
    reserved_sectors := read_u16 b 14
    fat_count := byteAt b 16
    root_dir_capacity := read_u16 b 17
    logical_sectors16 := read_u16 b 19
    sectors_per_fat := read_u16 b 22
    hidden_sectors := read_u32 b 28
    logical_sectors32 := read_u32 b 32
    serial_number := read_u32 b 39
    magic := read_u16 b 510 }

structure volume_t where
  disk : disk_t
  first_sector : Nat
  super_sector : fat_super_t
  fat_table : List Nat
  fat_size : Nat
  root_dir_sectors : Nat
  first_data_sector : Nat
  total_sectors : Nat
  data_sectors : Nat
  total_clusters : Nat
deriving DecidableEq

/-- The volume with the stream of its disk at position `p`. -/
def volume_at (pvolume : volume_t) (p : Nat) : volume_t :=
  { pvolume with disk := disk_at pvolume.disk p }

/-- The boot sector checks of `fat_open` (lines 81-112): `true` when one of them rejects. -/
def super_rejected (s : fat_super_t) : Bool :=
  if s.sectors_per_cluster = 0 ∨ s.sectors_per_cluster > 128 ∨
      (s.sectors_per_cluster &&& (s.sectors_per_cluster - 1)) ≠ 0 then true
  else if s.reserved_sectors = 0 ∨ (s.fat_count ≠ 1 ∧ s.fat_count ≠ 2) then true
  else if s.root_dir_capacity * 32 % SECTOR_SIZE ≠ 0 then true
  else if (s.logical_sectors16 ≠ 0 ∧ s.logical_sectors32 ≠ 0) ∨
      (s.logical_sectors16 = 0 ∧ s.logical_sectors32 = 0) then true
  else if s.logical_sectors16 = 0 ∧ s.logical_sectors32 ≤ 65535 then true
  else if s.sectors_per_fat < 1 ∨ s.magic ≠ 0xAA55 then true
  else false

/-- The geometry computed at the end of `fat_open` (lines 148-157), in `uint32_t`. -/
def mk_volume (pdisk : disk_t) (first_sector : Nat) (s : fat_super_t) (fat_table : List Nat) :
    volume_t :=
  let root_dir_sectors := (s.root_dir_capacity * 32 + (SECTOR_SIZE - 1)) / SECTOR_SIZE
  let first_data_sector :=
    (first_sector + s.reserved_sectors + s.fat_count * s.sectors_per_fat + root_dir_sectors)
      % 4294967296
  let total_sectors := if s.logical_sectors16 ≠ 0 then s.logical_sectors16 else s.logical_sectors32
  let data_sectors :=
    to_uint32 ((total_sectors : Int) - (to_uint32 ((first_data_sector : Int) - first_sector) : Int))
  { disk := pdisk
    first_sector := first_sector
    super_sector := s
    fat_table := fat_table
    fat_size := s.sectors_per_fat * SECTOR_SIZE
    root_dir_sectors := root_dir_sectors
    first_data_sector := first_data_sector
    total_sectors := total_sectors
    data_sectors := data_sectors
    total_clusters := data_sectors / s.sectors_per_cluster }

/-- The disk after the first read of `fat_open`, that of the boot sector. -/
def disk_after_boot (pdisk : disk_t) (first_sector : Nat) : disk_t :=
  disk_after pdisk (to_int32 first_sector) 1

/-- The disk after the second read of `fat_open`, that of the first FAT copy, for the boot
record `s`. -/
def disk_after_fat (pdisk : disk_t) (first_sector : Nat) (s : fat_super_t) : disk_t :=
  disk_after (disk_after_boot pdisk first_sector)
    (to_int32 ((first_sector + s.reserved_sectors) % 4294967296 : Nat)) s.sectors_per_fat

/-- The disk after the third read of `fat_open`, that of the second FAT copy. -/
def disk_after_fat_2 (pdisk : disk_t) (first_sector : Nat) (s : fat_super_t) : disk_t :=
  disk_after (disk_after_fat pdisk first_sector s)
    (to_int32 (((first_sector + s.reserved_sectors) % 4294967296 + s.sectors_per_fat)
      % 4294967296 : Nat)) s.sectors_per_fat

/-- The function `fat_open(pdisk, first_sector)`; `first_sector` is a `uint32_t`.  The three
reads are made one after the other on the same stream. -/
def fat_open (pdisk : disk_t) (first_sector : Nat) : Except Errno volume_t :=
  match disk_read pdisk (to_int32 first_sector) 1 with
  | .error e => .error e
  | .ok sector =>
    let s := read_super sector
    if super_rejected s then .error Errno.EINVAL
    else
      let fat_size := s.sectors_per_fat * SECTOR_SIZE
      let fat_start := (first_sector + s.reserved_sectors) % 4294967296
      match disk_read (disk_after_boot pdisk first_sector) (to_int32 fat_start)
          s.sectors_per_fat with
      | .error e => .error e
      | .ok fat_table =>
        if s.fat_count = 2 then
          match disk_read (disk_after_fat pdisk first_sector s)
              (to_int32 ((fat_start + s.sectors_per_fat) % 4294967296 : Nat))
              s.sectors_per_fat with
          | .error e => .error e
          | .ok fat_table_2 =>
            if fat_table.take fat_size ≠ fat_table_2.take fat_size then .error Errno.EINVAL
            else .ok (mk_volume (disk_after_fat_2 pdisk first_sector s) first_sector s fat_table)
        else .ok (mk_volume (disk_after_fat pdisk first_sector s) first_sector s fat_table)

/-! ## Directory entries and 8.3 names -/

/-- The bytes `buf[off .. off+len)`. -/
def bytes_at (buf : List Nat) (off len : Nat) : List Nat :=
  (List.range len).map (fun i => byteAt buf (off + i))

/-- The packed 32-byte record `struct fat_entry_t`. -/
structure fat_entry_t where
  name : List Nat
  extension : List Nat
  attr : Nat
  reserved : Nat
  time_ms : Nat
  time : Nat
  date : Nat
  last_access_date : Nat
  first_cluster_o : Nat
  last_mod_time : Nat
  last_mod_date : Nat
  first_cluster_y : Nat
  size : Nat
deriving DecidableEq

/-- The overlay of `struct fat_entry_t` on the 32 bytes at `off`. -/
def read_entry (buf : List Nat) (off : Nat) : fat_entry_t :=
  { name := bytes_at buf off 8
    extension := bytes_at buf (off + 8) 3
    attr := byteAt buf (off + 11)
    reserved := byteAt buf (off + 12)
    time_ms := byteAt buf (off + 13)
    time := read_u16 buf (off + 14)
    date := read_u16 buf (off + 16)
    last_access_date := read_u16 buf (off + 18)
    first_cluster_o := read_u16 buf (off + 20)
    last_mod_time := read_u16 buf (off + 22)
    last_mod_date := read_u16 buf (off + 24)
    first_cluster_y := read_u16 buf (off + 26)
    size := read_u32 buf (off + 28) }

/-- The copy loop `while(j < n && field[j] != ' ') { out[..] = field[j]; j++; }` over the
bytes of a field: the bytes copied. -/
def copy_until_space : List Nat → List Nat
  | [] => []
  | c :: cs => if c ≠ 32 then c :: copy_until_space cs else []

/-- The name built by `file_open` (lines 209-225) and by `dir_read` (lines 404-420): the
characters stored before the terminating NUL. -/
def decode_name (e : fat_entry_t) : List Nat :=
  copy_until_space (e.name.take 8) ++
    (if e.extension.getD 0 0 ≠ 32 then 46 :: copy_until_space (e.extension.take 3) else [])

/-- The C string held in a character array: the characters before the first NUL. -/
def c_string (chars : List Nat) : List Nat := chars.takeWhile (· ≠ 0)

/-! ## `file_t`, `file_open` -/

structure file_t where
  volume : volume_t
  entry : fat_entry_t
  position : Nat
  /-- `none` is the `NULL` chain. -/
  chain : Option clusters_chain_t
deriving DecidableEq

/-- The scan loop of `file_open` (lines 199-247) with `n` iterations left at index `i`.
An error is `some e` when the call sets `errno` to `e` and `none` when it returns `NULL`
without setting it; the outer `none` is a chain resolution that has not returned within
`fuel` steps.  A record beyond the end of `root_buffer` reads as zeros. -/
def file_open_scan (fuel : Nat) (pvolume : volume_t) (root_buffer file_name : List Nat) :
    Nat → Nat → Option (Except (Option Errno) file_t)
  | 0, _ => some (.error (some Errno.ENOENT))
  | n + 1, i =>
    let e := read_entry root_buffer (i * 32)
    if e.name.getD 0 0 = 0x00 then some (.error none)
    else if e.name.getD 0 0 = 0xE5 then file_open_scan fuel pvolume root_buffer file_name n (i + 1)
    else if c_string (decode_name e) = c_string file_name then
      if e.attr &&& 0x10 ≠ 0 ∨ e.attr &&& 0x08 ≠ 0 then some (.error (some Errno.EISDIR))
      else
        match get_chain_fat16 fuel pvolume.fat_table pvolume.fat_size e.first_cluster_y with
        | none => none
        | some chain =>
          some (.ok { volume := pvolume, entry := e, position := 0, chain := chain })
    else file_open_scan fuel pvolume root_buffer file_name n (i + 1)

/-- The function `file_open(pvolume, file_name)`.  The volume of the handle is the volume
with its disk as the read of the root directory has left it. -/
def file_open (fuel : Nat) (pvolume : volume_t) (file_name : List Nat) :
    Option (Except (Option Errno) file_t) :=
  let root_start :=
    (pvolume.first_sector + pvolume.super_sector.reserved_sectors
      + pvolume.super_sector.fat_count * pvolume.super_sector.sectors_per_fat) % 4294967296
  match disk_read pvolume.disk (to_int32 root_start) (to_int32 pvolume.root_dir_sectors) with
  | .error e => some (.error (some e))
  | .ok root_buffer =>
    file_open_scan fuel
      { pvolume with
        disk := disk_after pvolume.disk (to_int32 root_start)
          (to_int32 pvolume.root_dir_sectors) }
      root_buffer file_name pvolume.super_sector.root_dir_capacity 0

/-! ## `file_read` -/

/-- The loop variables of `file_read`: `offset`, the bytes stored so far into
`ptr[0 .. offset)`, and the stream. -/
structure read_state where
  offset : Nat
  data : List Nat
  stream : file_t
deriving DecidableEq

/-- How one pass through `while(offset < read_total)` ends: the loop is left (by its
condition or by `break`, `none`) or the function returns -1 (`some e`), in the given state,
or the body has run and the loop goes on from the next state. -/
inductive loop_step where
  | left (e : Option Errno) (st : read_state)
  | next (st : read_state)

/-- One pass through the loop of `file_read` (lines 289-317): the test of the condition and
the body. -/
def file_read_iteration (chain : clusters_chain_t) (read_total : Nat) (st : read_state) :
    loop_step :=
  if ¬ st.offset < read_total then .left none st
  else
    let v := st.stream.volume
    let cluster_bytes := v.super_sector.sectors_per_cluster * SECTOR_SIZE
    let cluster_index := st.stream.position / cluster_bytes
    if cluster_index ≥ chain.size then .left none st
    else
      let cluster_offset := st.stream.position % cluster_bytes
      let current_cluster := chain.clusters.getD cluster_index 0
      let first_sector_in_cluster :=
        to_uint32 ((v.first_data_sector : Int)
          + ((current_cluster : Int) - 2) * v.super_sector.sectors_per_cluster)
      let sector_in_cluster := cluster_offset / SECTOR_SIZE
      let sector_offset := cluster_offset % SECTOR_SIZE
      let sector := to_int32 (to_uint32 (to_int32 first_sector_in_cluster + sector_in_cluster))
      let moved : file_t :=
        { st.stream with volume := { v with disk := disk_after v.disk sector 1 } }
      match disk_read v.disk sector 1 with
      | .error _ =>
        if st.offset = 0 then .left (some Errno.ERANGE) { st with stream := moved }
        else .left none { st with stream := moved }
      | .ok sector_buffer =>
        let bytes_left_in_sector := SECTOR_SIZE - sector_offset
        let num := if read_total - st.offset > bytes_left_in_sector then bytes_left_in_sector
          else read_total - st.offset
        .next
          { offset := (st.offset + num) % 4294967296
            data := st.data ++ (sector_buffer.drop sector_offset).take num
            stream := { moved with position := (st.stream.position + num) % 4294967296 } }

/-- The loop `while(offset < read_total)` of `file_read`, run for at most `fuel` passes: how
it is left (`some e` for a `return -1`) and the state then. -/
def file_read_loop (chain : clusters_chain_t) (read_total : Nat) :
    Nat → read_state → Option Errno × read_state
  | 0, st => (none, st)
  | fuel + 1, st =>
    match file_read_iteration chain read_total st with
    | .left e st2 => (e, st2)
    | .next st2 => file_read_loop chain read_total fuel st2

/-- What a call of `file_read` leaves: the value returned (`.error` for `(size_t)-1`), the
bytes stored into `ptr`, and the stream (its volume holding the disk as the call leaves
it). -/
structure read_result where
  ret : Except Errno Nat
  data : List Nat
  stream : file_t
deriving DecidableEq

/-- The function `file_read(ptr, size, nmemb, stream)`; `size` and `nmemb` are `size_t`
values.  Every iteration of the loop stores at least one byte, so `read_total` iterations
are all the loop can make. -/
def file_read (size nmemb : Nat) (stream : file_t) : read_result :=
  if size = 0 ∨ nmemb = 0 then ⟨.ok 0, [], stream⟩
  else
    match stream.chain with
    | none => ⟨.ok 0, [], stream⟩
    | some chain =>
      if chain.size = 0 then ⟨.ok 0, [], stream⟩
      else
        let read_total := size * nmemb % 18446744073709551616
        let bytes_in_file := to_uint32 ((stream.entry.size : Int) - stream.position)
        if bytes_in_file = 0 then ⟨.ok 0, [], stream⟩
        else
          let read_total := if read_total > bytes_in_file then bytes_in_file else read_total
          match file_read_loop chain read_total read_total ⟨0, [], stream⟩ with
          | (some e, st) => ⟨.error e, [], st.stream⟩
          | (none, st) => ⟨.ok (st.offset / size), st.data, st.stream⟩

/-! ## `file_seek` -/

def SEEK_SET : Int := 0
def SEEK_CUR : Int := 1
def SEEK_END : Int := 2

/-- The range check and the store of `file_seek` (lines 341-346) for the computed `pos`. -/
def seek_to (stream : file_t) (pos : Int) : Except Errno Int × file_t :=
  if pos < 0 ∨ pos > to_int32 stream.entry.size then (.error Errno.ENXIO, stream)
  else (.ok pos, { stream with position := to_uint32 pos })

/-- The function `file_seek(stream, offset, whence)`: the value returned (`.error` for -1)
and the stream after the call; `offset` is an `int32_t` value. -/
def file_seek (stream : file_t) (offset : Int) (whence : Int) : Except Errno Int × file_t :=
  if whence = SEEK_SET then seek_to stream offset
  else if whence = SEEK_END then seek_to stream (to_int32 (to_int32 stream.entry.size + offset))
  else if whence = SEEK_CUR then seek_to stream (to_int32 (to_int32 stream.position + offset))
  else (.error Errno.EINVAL, stream)

/-- The target position of a seek as the specification computes it, in mathematical
integers: `offset` for Start, `entry.size + offset` for End, `position + offset` for
Current. -/
def seek_target (stream : file_t) (offset whence : Int) : Int :=
  if whence = SEEK_SET then offset
  else if whence = SEEK_END then (stream.entry.size : Int) + offset
  else (stream.position : Int) + offset

/-! ## `dir_t`, `dir_open`, `dir_read` -/

structure dir_entry_t where
  /-- The characters stored before the terminating NUL. -/
  name : List Nat
  size : Nat
  is_archived : Nat
  is_readonly : Nat
  is_system : Nat
  is_hidden : Nat
  is_directory : Nat
deriving DecidableEq

structure dir_t where
  volume : volume_t
  current_sector : Nat
  current_entry : Nat
  max_entries : Nat
deriving DecidableEq

/-- The function `dir_open(pvolume, dir_path)`; `dir_path` holds the characters of the C
string (its first character is NUL when the string is empty). -/
def dir_open (pvolume : volume_t) (dir_path : List Nat) : Except Errno dir_t :=
  if dir_path.getD 0 0 ≠ 92 then .error Errno.ENOENT
  else
    .ok
      { volume := pvolume
        current_entry := 0
        current_sector :=
          (pvolume.first_sector + pvolume.super_sector.reserved_sectors
            + pvolume.super_sector.fat_count * pvolume.super_sector.sectors_per_fat) % 4294967296
        max_entries := pvolume.super_sector.root_dir_capacity }

/-- What a call of `dir_read` returns: 0 with `*pentry` filled, 1, or -1 with `errno`. -/
inductive dir_read_ret where
  | entry (pentry : dir_entry_t)
  | end_of_dir
  | error (e : Errno)
deriving DecidableEq

/-- The stores into `*pentry` of lines 404-432. -/
def fill_entry (entry : fat_entry_t) : dir_entry_t :=
  { name := decode_name entry
    size := entry.size
    is_archived := if entry.attr &&& 0x20 ≠ 0 then 1 else 0
    is_readonly := if entry.attr &&& 0x01 ≠ 0 then 1 else 0
    is_system := if entry.attr &&& 0x04 ≠ 0 then 1 else 0
    is_hidden := if entry.attr &&& 0x02 ≠ 0 then 1 else 0
    is_directory := if entry.attr &&& 0x10 ≠ 0 then 1 else 0 }

/-- The loop `while(pdir->current_entry < pdir->max_entries)` of `dir_read` (lines 380-434),
run for at most `fuel` iterations from the given `current_entry`, with the given content of
the automatic array `sector_buffer` and the disk as it is; the result is the value returned,
`current_entry` and the disk then.  The array is filled from the disk only in an iteration
with `current_entry % 16 == 0`. -/
def dir_read_loop (pdir : dir_t) :
    Nat → Nat → List Nat → disk_t → dir_read_ret × Nat × disk_t
  | 0, current_entry, _, disk => (.end_of_dir, current_entry, disk)
  | fuel + 1, current_entry, sector_buffer, disk =>
    if ¬ current_entry < pdir.max_entries then (.end_of_dir, current_entry, disk)
    else
      let sector_index := current_entry / (SECTOR_SIZE / 32)
      let sector_entry := current_entry % (SECTOR_SIZE / 32)
      if sector_entry = 0 ∧ sector_index ≥ pdir.volume.root_dir_sectors then
        (.error Errno.ENXIO, current_entry, disk)
      else
        let sector := to_int32 ((pdir.current_sector + sector_index) % 4294967296 : Nat)
        let disk_2 := if sector_entry = 0 then disk_after disk sector 1 else disk
        match (if sector_entry = 0 then disk_read disk sector 1 else .ok sector_buffer) with
        | .error _ => (.error Errno.EIO, current_entry, disk_2)
        | .ok sector_buffer =>
          let entry := read_entry sector_buffer (sector_entry * 32)
          let current_entry := (current_entry + 1) % 4294967296
          if entry.name.getD 0 0 = 0x00 then (.end_of_dir, current_entry, disk_2)
          else if entry.name.getD 0 0 = 0xE5 ∨ entry.attr &&& 0x08 ≠ 0 ∨ entry.attr = 0x0F then
            dir_read_loop pdir fuel current_entry sector_buffer disk_2
          else (.entry (fill_entry entry), current_entry, disk_2)

/-- The function `dir_read(pdir, pentry)`.  `stack` is the content of the automatic array
`sector_buffer` when the call starts: the array is not initialised, so its content is
whatever the stack holds.  Every iteration advances `current_entry`, so
`max_entries - current_entry` iterations are all the loop can make. -/
def dir_read (pdir : dir_t) (stack : List Nat) : dir_read_ret × dir_t :=
  let r := dir_read_loop pdir (pdir.max_entries - pdir.current_entry) pdir.current_entry stack
    pdir.volume.disk
  (r.1, { pdir with current_entry := r.2.1, volume := { pdir.volume with disk := r.2.2 } })

/-- The result of `n` successive `dir_read` calls, each started on the given `stack`
content: the values returned, in order, and the cursor left. -/
def dir_read_many (stack : List Nat) : Nat → dir_t → List dir_read_ret × dir_t
  | 0, pdir => ([], pdir)
  | n + 1, pdir =>
    let r := dir_read pdir stack
    let rest := dir_read_many stack n r.2
    (r.1 :: rest.1, rest.2)

/-! ## The name the specification describes -/

/-- A field with its trailing spaces removed. -/
def trim_trailing_spaces : List Nat → List Nat
  | [] => []
  | c :: cs => if c = 32 ∧ trim_trailing_spaces cs = [] then [] else c :: trim_trailing_spaces cs

/-- The `NAME` or `NAME.EXT` form of the specification: the name field trimmed, followed,
only when the trimmed extension is not empty, by `.` and the trimmed extension. -/
def trimmed_name (e : fat_entry_t) : List Nat :=
  trim_trailing_spaces e.name ++
    (if trim_trailing_spaces e.extension ≠ [] then 46 :: trim_trailing_spaces e.extension
      else [])

/-- No space of the field stands before a character that is not a space. -/
def spaces_only_trailing : List Nat → Prop
  | [] => True
  | c :: cs => (c = 32 → ∀ x ∈ cs, x = 32) ∧ spaces_only_trailing cs

/-! ## A small image used to run the functions

Six sectors: boot sector, two FAT copies of one sector each, a root directory of 16
entries, and two data clusters of one sector each (clusters 2 and 3). -/

/-- The buffer `buf` with `bytes` stored at `off`. -/
def store_bytes (buf : List Nat) (off : Nat) (bytes : List Nat) : List Nat :=
  buf.take off ++ bytes ++ buf.drop (off + bytes.length)

def le16 (n : Nat) : List Nat := [n % 256, n / 256 % 256]

def le32 (n : Nat) : List Nat := le16 (n % 65536) ++ le16 (n / 65536)

/-- A sector of `fill` bytes that starts with `bytes`. -/
def sector_of (bytes : List Nat) (fill : Nat) : List Nat :=
  (bytes ++ List.replicate SECTOR_SIZE fill).take SECTOR_SIZE

/-- A boot sector: one sector per cluster, one reserved sector, `fat_count` FAT copies of one
sector, 16 root entries, `total` sectors, signature `55 AA`. -/
def sample_boot (fat_count total : Nat) : List Nat :=
  store_bytes (store_bytes (store_bytes (store_bytes (store_bytes (store_bytes (store_bytes
    (store_bytes (List.replicate SECTOR_SIZE 0) 11 (le16 512)) 13 [1]) 14 (le16 1))
    16 [fat_count]) 17 (le16 16)) 19 (le16 total)) 22 (le16 1)) 510 [0x55, 0xAA]

/-- A 32-byte directory record. -/
def sample_entry (name ext : List Nat) (attr first_cluster size : Nat) : List Nat :=
  (name ++ List.replicate 8 32).take 8 ++ (ext ++ List.replicate 3 32).take 3 ++ [attr]
    ++ List.replicate 14 0 ++ le16 first_cluster ++ le32 size

def name_README : List Nat := [82, 69, 65, 68, 77, 69]
def name_TXT : List Nat := [84, 88, 84]
def name_BIG : List Nat := [66, 73, 71]
def name_BIN : List Nat := [66, 73, 78]
/-- The characters of `README.TXT`. -/
def name_README_TXT : List Nat := name_README ++ [46] ++ name_TXT
/-- The characters of `BIG.BIN`. -/
def name_BIG_BIN : List Nat := name_BIG ++ [46] ++ name_BIN

/-- The FAT of the sample image: cluster 2 and cluster 3 each end a chain. -/
def sample_fat : List Nat := sector_of (fat_bytes [0xFFF8, 0xFFFF, 0xFFFF, 0xFFFF]) 0

/-- The root directory of the sample image: `A B.TXT` (a space inside the name field),
`README.TXT` (100 bytes, cluster 2), `BIG.BIN` (size field `0x80000000`, cluster 3), then
the end marker. -/
def sample_root : List Nat :=
  sector_of (sample_entry [65, 32, 66] name_TXT 0x20 0 0
    ++ sample_entry name_README name_TXT 0x20 2 100
    ++ sample_entry name_BIG name_BIN 0x20 3 0x80000000) 0

/-- The content of data sector `k` of the sample image. -/
def sample_data (k : Nat) : List Nat :=
  (List.range SECTOR_SIZE).map (fun i => (i * 7 + k) % 256)

def sample_image : List Nat :=
  sample_boot 2 6 ++ sample_fat ++ sample_fat ++ sample_root ++ sample_data 1 ++ sample_data 2

def sample_disk : disk_t := disk_open_from_file sample_image

/-- The volume mounted from the sample image at sector 0. -/
def sample_volume : Option volume_t :=
  match fat_open sample_disk 0 with
  | .ok v => some v
  | .error _ => none

/-- The handle `file_open` returns on the sample volume for `file_name` (`none` when the
mount or the open does not return a handle). -/
def sample_file (file_name : List Nat) : Option file_t :=
  match sample_volume with
  | none => none
  | some v =>
    match file_open 8 v file_name with
    | some (.ok f) => some f
    | _ => none

/-- The cursor `dir_open` returns on the sample volume for the path `\\`. -/
def sample_dir : Option dir_t :=
  match sample_volume with
  | none => none
  | some v =>
    match dir_open v [92] with
    | .ok d => some d
    | .error _ => none

/-- The volume `fat_open` returns for the sample image at sector 0: the three reads leave
the stream behind the second FAT copy. -/
def sample_mounted : volume_t :=
  mk_volume (disk_at sample_disk 1536) 0 (read_super (sample_boot 2 6)) sample_fat

/-- A handle on the sample volume for a one-cluster file of the given size, at the given
position; the stream of the disk stands behind the root directory, where `file_open` leaves
it. -/
def sample_handle (size position : Nat) : file_t :=
  { volume := volume_at sample_mounted 2048
    entry :=
      { name := name_README ++ [32, 32]
        extension := name_TXT
        attr := 0x20
        reserved := 0
        time_ms := 0
        time := 0
        date := 0
        last_access_date := 0
        first_cluster_o := 0
        last_mod_time := 0
        last_mod_date := 0
        first_cluster_y := 2
        size := size }
    position := position
    chain := some ⟨[2], 1⟩ }

/-- The boot sector conditions as the specification words them: `sectors_per_cluster` a power
of two in [1,128], `reserved_sectors > 0`, `fat_count` 1 or 2, `root_dir_capacity * 32` a
multiple of 512, exactly one of the two logical-sector fields nonzero and, when the 16-bit
field is zero, the 32-bit field above 65535, `sectors_per_fat ≥ 1`, signature `0xAA55`. -/
def boot_sector_ok (s : fat_super_t) : Prop :=
  ((∃ k, s.sectors_per_cluster = 2 ^ k) ∧ 1 ≤ s.sectors_per_cluster
      ∧ s.sectors_per_cluster ≤ 128) ∧
    0 < s.reserved_sectors ∧
    (s.fat_count = 1 ∨ s.fat_count = 2) ∧
    512 ∣ s.root_dir_capacity * 32 ∧
    ((s.logical_sectors16 ≠ 0 ∧ s.logical_sectors32 = 0) ∨
      (s.logical_sectors16 = 0 ∧ s.logical_sectors32 ≠ 0)) ∧
    (s.logical_sectors16 = 0 → 65535 < s.logical_sectors32) ∧
    1 ≤ s.sectors_per_fat ∧
    s.magic = 0xAA55

/-- The boot record found on the image at sector `first_sector`. -/
def boot_record (pdisk : disk_t) (first_sector : Nat) : fat_super_t :=
  read_super (pdisk.file.drop (first_sector * SECTOR_SIZE))

/-- The sample image with one byte of the second FAT copy changed (the low byte of the entry
of cluster 2). -/
def sample_disk_mismatch : disk_t :=
  disk_open_from_file
    (sample_boot 2 6 ++ sample_fat ++ store_bytes sample_fat 4 [0xF0] ++ sample_root
      ++ sample_data 1 ++ sample_data 2)

/-! ## The sectors and bytes a read visits (used to state what `file_read` delivers) -/

/-- The sector fetch one iteration of the loop of `file_read` makes for the byte at
`position` on the volume `v` (its disk as the iteration finds it): `none` when the cluster
index is outside the chain (the `break` of line 292), otherwise the result of the
`disk_read` of line 302. -/
def fetch_sector (chain : clusters_chain_t) (v : volume_t) (position : Nat) :
    Option (Except Errno (List Nat)) :=
  if position / (v.super_sector.sectors_per_cluster * SECTOR_SIZE) ≥ chain.size then none
  else
    some (disk_read v.disk
      (to_int32 (to_uint32 (to_int32
        (to_uint32 ((v.first_data_sector : Int)
          + ((chain.clusters.getD
              (position / (v.super_sector.sectors_per_cluster * SECTOR_SIZE)) 0 : Nat) - 2)
            * v.super_sector.sectors_per_cluster))
        + (position % (v.super_sector.sectors_per_cluster * SECTOR_SIZE) / SECTOR_SIZE : Nat))))
      1)

/-- The sector number the loop of `file_read` passes to `disk_read` for the byte at
`position` (line 302). -/
def fetch_arg (chain : clusters_chain_t) (v : volume_t) (position : Nat) : Int :=
  to_int32 (to_uint32 (to_int32
    (to_uint32 ((v.first_data_sector : Int)
      + ((chain.clusters.getD
          (position / (v.super_sector.sectors_per_cluster * SECTOR_SIZE)) 0 : Nat) - 2)
        * v.super_sector.sectors_per_cluster))
    + (position % (v.super_sector.sectors_per_cluster * SECTOR_SIZE) / SECTOR_SIZE : Nat)))

/-- The stream with its disk as the `disk_read` for the byte at its position leaves it. -/
def fetch_moved (chain : clusters_chain_t) (stream : file_t) : file_t :=
  { stream with
    volume :=
      { stream.volume with
        disk := disk_after stream.volume.disk
          (fetch_arg chain stream.volume stream.position) 1 } }

/-- The bytes of the file at `position`, `position + 1`, ... taken one by one while the
sector of the byte can be fetched, `n` bytes at most; every fetch is made on the disk of `v`
as it is.  The run describes a read none of whose fetches depends on where the stream of the
disk stands (`file_read_loop_spec`). -/
def readable_run (chain : clusters_chain_t) (v : volume_t) : Nat → Nat → List Nat
  | 0, _ => []
  | n + 1, position =>
    match fetch_sector chain v position with
    | some (.ok sector_buffer) =>
      sector_buffer.getD (position % SECTOR_SIZE) 0 :: readable_run chain v n (position + 1)
    | _ => []

/-- The first sector fetch of a read at `position` meets a failing `disk_read`. -/
def first_fetch_fails (chain : clusters_chain_t) (v : volume_t) (position : Nat) : Bool :=
  match fetch_sector chain v position with
  | some (.error _) => true
  | _ => false

/-- The effective byte count of a read: the requested `size * nmemb` (a `size_t` product)
capped by `entry.size - position`. -/
def effective_count (size nmemb : Nat) (stream : file_t) : Nat :=
  min (size * nmemb % 18446744073709551616) (stream.entry.size - stream.position)

/-- A free, reserved or bad-cluster marker. -/
def is_marker (e : Nat) : Prop :=
  e = FAT16_BAD_CLUSTER ∨ e = FAT16_FREE_CLUSTER ∨ e = 0x0001

/-- The walk stops at cluster `c`: the entry of `c` lies outside the table, or it is a marker
or an end of chain. -/
def walk_stops (buffer : List Nat) (size : Nat) (c : Nat) : Prop :=
  c * 2 + 2 > size ∨ ¬ is_link (fat_entry buffer c)

/-- A table of four entries whose links form the cycle `2 → 3 → 2`. -/
def cyclic_fat : List Nat := fat_bytes [0xFFF8, 0xFFFF, 3, 2]

/-- A table of 65528 entries (131056 bytes), all free but the last one, the entry of cluster
`0xFFF7`, which is an end of chain. -/
def bad_start_fat : List Nat := List.replicate 131054 0 ++ [0xFF, 0xFF]

/-- The path `\SUBDIR`. -/
def path_SUBDIR : List Nat := [92, 83, 85, 66, 68, 73, 82]

/-- The path `\A\B`. -/
def path_A_B : List Nat := [92, 65, 92, 66]

/-- The sample image with a boot sector that records a total of one sector
(`logical_sectors16 = 1`), fewer than the four sectors in front of the data region. -/
def sample_disk_short : disk_t :=
  disk_open_from_file
    (sample_boot 2 1 ++ sample_fat ++ sample_fat ++ sample_root ++ sample_data 1
      ++ sample_data 2)

/-! ## The scan of `file_open`, as the specification describes it -/

/-- The root-directory record `j` is passed over by the scan for `file_name`: it is not the
end marker, and it is deleted or decodes to another name. -/
def scan_skips (root_buffer file_name : List Nat) (j : Nat) : Prop :=
  (read_entry root_buffer (j * 32)).name.getD 0 0 ≠ 0x00 ∧
    ((read_entry root_buffer (j * 32)).name.getD 0 0 = 0xE5 ∨
      c_string (decode_name (read_entry root_buffer (j * 32))) ≠ c_string file_name)

/-- The root-directory record `j` is in use and decodes to `file_name`. -/
def scan_matches (root_buffer file_name : List Nat) (j : Nat) : Prop :=
  (read_entry root_buffer (j * 32)).name.getD 0 0 ≠ 0x00 ∧
    (read_entry root_buffer (j * 32)).name.getD 0 0 ≠ 0xE5 ∧
    c_string (decode_name (read_entry root_buffer (j * 32))) = c_string file_name

/-- The first sector of the root directory, as `file_open` computes it (`root_start`). -/
def root_start (pvolume : volume_t) : Nat :=
  (pvolume.first_sector + pvolume.super_sector.reserved_sectors
    + pvolume.super_sector.fat_count * pvolume.super_sector.sectors_per_fat) % 4294967296

/-- The volume with its disk as the read of the root directory in `file_open` (line 193)
leaves it: the volume of the handle `file_open` returns. -/
def root_moved (pvolume : volume_t) : volume_t :=
  { pvolume with
    disk := disk_after pvolume.disk (to_int32 (root_start pvolume))
      (to_int32 pvolume.root_dir_sectors) }

/-- The characters of `NOFILE.TXT`, a name no record of the sample image has. -/
def name_NOFILE_TXT : List Nat := [78, 79, 70, 73, 76, 69, 46, 84, 88, 84]

/-- The characters of `A.TXT`, the name `file_open` builds for the first record of the sample
image (first cluster 0). -/
def name_A_TXT : List Nat := [65, 46, 84, 88, 84]

/-! ## The handles a program can hold -/

/-- The file handles that can arise: the handle `file_open` returns, the handle left by a
call of `file_read` or `file_seek` (successful or failing, with any arguments) on a handle
that can arise, and such a handle after a read through another handle or cursor of the same
disk has moved the stream of the disk. -/
inductive reachable_handle : file_t → Prop where
  | opened (fuel : Nat) (pvolume : volume_t) (file_name : List Nat) (f : file_t) :
      file_open fuel pvolume file_name = some (.ok f) → reachable_handle f
  | read (size nmemb : Nat) (f : file_t) :
      reachable_handle f → reachable_handle (file_read size nmemb f).stream
  | seek (offset whence : Int) (f : file_t) :
      reachable_handle f → reachable_handle (file_seek f offset whence).2
  | moved (p : Nat) (f : file_t) :
      reachable_handle f → reachable_handle { f with volume := volume_at f.volume p }

/-! ## The loads of `get_chain_fat16` -/

/-- The byte offsets of the `uint16_t` loads of the counting loop (the load of line 471, at
the end of every iteration that goes on), in the order they are made, for at most `fuel`
iterations from the given `offset` and `current`. -/
def chain_count_reads (buffer : List Nat) (size : Nat) : Nat → Nat → Nat → List Nat
  | 0, _, _ => []
  | fuel + 1, offset, current =>
    if offset + 2 > size then []
    else if current = FAT16_BAD_CLUSTER ∨ current = FAT16_FREE_CLUSTER ∨ current = 0x0001 then []
    else if current ≥ FAT16_EOC_MIN then []
    else
      (current * 2) ::
        chain_count_reads buffer size fuel (current * 2) (read_u16 buffer (current * 2))

/-- The byte offsets of the loads of the filling loop (the load of line 489, made when
`i < count - 1`), with `n` iterations left at the loop variable `i`. -/
def chain_fill_reads (buffer : List Nat) (count : Nat) : Nat → Nat → Nat → List Nat
  | 0, _, _ => []
  | n + 1, i, curr =>
    if i + 1 < count then
      (curr * 2) :: chain_fill_reads buffer count n (i + 1) (read_u16 buffer (curr * 2))
    else chain_fill_reads buffer count n (i + 1) curr

/-- The byte offsets of all the `uint16_t` loads `get_chain_fat16` makes from `buffer`, in
order: the load of line 458, the loads of the counting loop and, when that loop leaves by
`break`, the loads of the filling loop. -/
def get_chain_fat16_reads (fuel : Nat) (buffer : List Nat) (size : Nat) (first_cluster : Nat) :
    List Nat :=
  if first_cluster < 2 ∨ size % 2 ≠ 0 ∨ size < 4 then []
  else
    let offset := first_cluster * 2
    if offset + 2 > size then []
    else
      offset :: (chain_count_reads buffer size fuel offset (read_u16 buffer offset) ++
        match chain_count buffer size fuel offset (read_u16 buffer offset) 1 with
        | some (some count) => chain_fill_reads buffer count count 0 first_cluster
        | _ => [])

/-- A table of four entries (8 bytes) in which the entry of cluster 2 is the link 100. -/
def link_out_fat : List Nat := fat_bytes [0xFFF8, 0xFFFF, 100, 0]

/-! ## An image with a record behind the end marker -/

/-- A boot sector like that of the sample image, with 32 root entries (two root sectors) and
seven sectors in total. -/
def stale_boot : List Nat := store_bytes (sample_boot 2 7) 17 (le16 32)

def name_STALE : List Nat := [83, 84, 65, 76, 69]
/-- The characters of `STALE.TXT`. -/
def name_STALE_TXT : List Nat := name_STALE ++ [46] ++ name_TXT

/-- The first root sector: fifteen deleted records (first name byte `0xE5`), then zeros, so
that record 15 is the end marker. -/
def stale_root_0 : List Nat :=
  sector_of (List.replicate 15 (sample_entry [0xE5, 88] name_TXT 0x20 0 0)).flatten 0

/-- The second root sector: record 16 is `STALE.TXT` (100 bytes, cluster 2), then zeros. -/
def stale_root_1 : List Nat := sector_of (sample_entry name_STALE name_TXT 0x20 2 100) 0

def stale_disk : disk_t :=
  disk_open_from_file
    (stale_boot ++ sample_fat ++ sample_fat ++ stale_root_0 ++ stale_root_1 ++ sample_data 1
      ++ sample_data 2)

/-- The volume `fat_open` returns for this image at sector 0. -/
def stale_volume : volume_t :=
  mk_volume (disk_at stale_disk 1536) 0 (read_super stale_boot) sample_fat

/-- The cursor `dir_open` returns on this volume, moved to `current_entry`, with the stream
of the disk at position `pos`. -/
def stale_dir (current_entry pos : Nat) : dir_t :=
  { volume := volume_at stale_volume pos, current_sector := 3, current_entry := current_entry,
    max_entries := 32 }

/-! ## The root directory on the disk -/

/-- The bytes a `disk_read` of the one sector `q` delivers from an image with content
`file`. -/
def sector_at (file : List Nat) (q : Nat) : List Nat :=
  ((file.drop (q * 512)).take 512).map (· % 256)

/-- Record `i` of the root directory of a volume, decoded from the content of its image. -/
def root_record (pvolume : volume_t) (i : Nat) : fat_entry_t :=
  read_entry pvolume.disk.file (root_start pvolume * 512 + i * 32)

/-! ## An image with a volume label that has the name of a file -/

/-- The characters of `DATA`. -/
def name_DATA : List Nat := [68, 65, 84, 65]

/-- A root directory with two records: the volume label `DATA` (attribute `0x08`) and the
file `DATA` (attribute `0x20`, 100 bytes, cluster 2). -/
def label_root : List Nat :=
  sector_of (sample_entry name_DATA [] 0x08 0 0 ++ sample_entry name_DATA [] 0x20 2 100) 0

def label_disk : disk_t :=
  disk_open_from_file
    (sample_boot 2 6 ++ sample_fat ++ sample_fat ++ label_root ++ sample_data 1
      ++ sample_data 2)

/-- The volume `fat_open` returns for this image at sector 0. -/
def label_volume : volume_t :=
  mk_volume (disk_at label_disk 1536) 0 (read_super (sample_boot 2 6)) sample_fat

/-- The cursor `dir_open` returns on this volume. -/
def label_dir : dir_t :=
  { volume := label_volume, current_sector := 3, current_entry := 0, max_entries := 16 }

/-- The cursor `dir_open` returns on the volume of the sample image. -/
def sample_cursor : dir_t :=
  { volume := sample_mounted, current_sector := 3, current_entry := 0, max_entries := 16 }

/-! ## The sample image mounted at sector `2^22` -/

/-- The volume `fat_open` returns for the sample image at `first_sector = 2^22`: every byte
offset `disk_read` passes to `fseek` is `2^31` or more and wraps to a negative `int`, the
`fseek` is refused, and the three reads deliver the first three sectors of the image one
after the other. -/
def far_volume : volume_t :=
  mk_volume (disk_at sample_disk 1536) 4194304 (read_super (sample_boot 2 6)) sample_fat

/-- The handle `file_open` returns on that volume for `README.TXT` (100 bytes, cluster 2);
the read of the root directory leaves the stream of the disk at byte 2048. -/
def far_handle : file_t :=
  { sample_handle 100 0 with volume := volume_at far_volume 2048 }

/-! ## An image of `2^32 + 3072` bytes with a second volume at sector `2^23` -/

/-- The zeros between the two volumes of `wrap_image`. -/
def wrap_gap : List Nat := List.replicate 4294964224 0

/-- An image of `2^32 + 3072` bytes: the sample image at sector 0, zeros up to byte `2^32`,
and at sector `2^23` the sample image with one byte of its second FAT copy changed. -/
def wrap_image : List Nat := sample_image ++ wrap_gap ++ sample_disk_mismatch.file

def wrap_disk : disk_t := disk_open_from_file wrap_image

/-- The volume `fat_open` returns for `wrap_disk` at `first_sector = 2^23`: its boot record
and its FAT are those of the volume at sector 0. -/
def wrap_volume : volume_t :=
  mk_volume (disk_at wrap_disk 1536) 8388608 (read_super (sample_boot 2 6)) sample_fat

/-! # Theorems -/

theorem byteAt_lt (buf : List Nat) (i : Nat) : byteAt buf i < 256 :=
  Nat.mod_lt _ (by decide)

theorem read_u16_lt (buf : List Nat) (off : Nat) : read_u16 buf off < 65536 := by
  have h1 := byteAt_lt buf off
  have h2 := byteAt_lt buf (off + 1)
  unfold read_u16
  omega

theorem fat_entry_lt (buffer : List Nat) (c : Nat) : fat_entry buffer c < 65536 :=
  read_u16_lt _ _

theorem walk_add (buffer : List Nat) (c a b : Nat) :
    walk buffer c (a + b) = walk buffer (walk buffer c a) b := by
  induction a generalizing c with
  | zero => simp [walk]
  | succ a ih =>
    have : a + 1 + b = (a + b) + 1 := by omega
    rw [this]
    simp only [walk]
    exact ih _

theorem walk_succ (buffer : List Nat) (c k : Nat) :
    walk buffer c (k + 1) = fat_entry buffer (walk buffer c k) := by
  rw [walk_add]
  rfl

theorem chain_count_some (buffer : List Nat) (size : Nat) :
    ∀ (fuel c count n : Nat), count < 65536 →
      chain_count buffer size fuel (c * 2) (fat_entry buffer c) count = some (some n) →
      ∃ k, k < fuel ∧ ends_after buffer size c k ∧ n = (count + k) % 65536 := by
  intro fuel
  induction fuel with
  | zero => intro c count n _ h; simp [chain_count] at h
  | succ fuel ih =>
    intro c count n hc h
    rw [chain_count] at h
    split_ifs at h with h1 h2 h3
    · simp at h
    · simp at h
    · refine ⟨0, by omega, ⟨by intro j hj; omega, by simp only [walk]; omega, ?_⟩, ?_⟩
      · simpa [walk] using h3
      · simp only [Option.some.injEq] at h
        rw [← h, Nat.add_zero, Nat.mod_eq_of_lt hc]
    · have h' : chain_count buffer size fuel (fat_entry buffer c * 2)
          (fat_entry buffer (fat_entry buffer c)) ((count + 1) % 65536) = some (some n) := h
      obtain ⟨k, hk, hends, hn⟩ := ih _ _ n (Nat.mod_lt _ (by decide)) h'
      refine ⟨k + 1, by omega, ⟨?_, ?_, ?_⟩, ?_⟩
      · intro j hj
        cases j with
        | zero => exact ⟨by simp only [walk]; omega, h2, h3⟩
        | succ j => exact hends.1 j (by omega)
      · exact hends.2.1
      · exact hends.2.2
      · rw [hn]; omega

theorem ends_after_range (buffer : List Nat) (size c k : Nat) (hc2 : 2 ≤ c) (hc : c < 65536)
    (h : ends_after buffer size c k) (j : Nat) (hj : j ≤ k) :
    2 ≤ walk buffer c j ∧ walk buffer c j < 65536 := by
  cases j with
  | zero => exact ⟨hc2, hc⟩
  | succ j =>
    rw [walk_succ]
    have hl := (h.1 j (by omega)).2
    have hlt := fat_entry_lt buffer (walk buffer c j)
    unfold is_link at hl
    simp only [FAT16_FREE_CLUSTER] at hl
    omega

theorem ends_after_distinct (buffer : List Nat) (size c k : Nat)
    (h : ends_after buffer size c k) (i j : Nat) (hij : i < j) (hj : j ≤ k) :
    walk buffer c i ≠ walk buffer c j := by
  intro heq
  have e1 : walk buffer c (i + (k - j)) = walk buffer c k := by
    rw [walk_add, heq, ← walk_add]
    congr 1
    omega
  have hl := (h.1 (i + (k - j)) (by omega)).2.2
  rw [e1] at hl
  exact hl h.2.2

theorem ends_after_short (buffer : List Nat) (size c k : Nat) (hc2 : 2 ≤ c) (hc : c < 65536)
    (h : ends_after buffer size c k) : k + 1 ≤ 65534 := by
  have hcard := Finset.card_le_card_of_injOn (s := Finset.range (k + 1))
    (t := Finset.Ico 2 65536) (fun j => walk buffer c j)
    (by
      intro j hj
      have hj' : j ≤ k := by
        have := Finset.mem_range.mp hj
        omega
      have := ends_after_range buffer size c k hc2 hc h j hj'
      exact Finset.mem_Ico.mpr this)
    (by
      intro i hi j hj heq
      have hi' : i < k + 1 := Finset.mem_range.mp hi
      have hj' : j < k + 1 := Finset.mem_range.mp hj
      by_contra hne
      rcases Nat.lt_or_gt_of_ne hne with hlt | hgt
      · exact ends_after_distinct buffer size c k h i j hlt (by omega) heq
      · exact ends_after_distinct buffer size c k h j i hgt (by omega) heq.symm)
  simpa using hcard

theorem chain_fill_length (buffer : List Nat) (count : Nat) :
    ∀ (n i curr : Nat), (chain_fill buffer count n i curr).length = n := by
  intro n
  induction n with
  | zero => intro i curr; rfl
  | succ n ih => intro i curr; simp [chain_fill, ih]

theorem chain_fill_getD (buffer : List Nat) (count : Nat) :
    ∀ (n i curr j : Nat), i + n = count → j < n →
      (chain_fill buffer count n i curr).getD j 0 = walk buffer curr j := by
  intro n
  induction n with
  | zero => intro i curr j _ hj; omega
  | succ n ih =>
    intro i curr j hin hj
    cases j with
    | zero => simp [chain_fill, walk]
    | succ j =>
      have hlt : i + 1 < count := by omega
      simp only [chain_fill, if_pos hlt, List.getD_cons_succ, walk]
      exact ih (i + 1) _ j (by omega) (by omega)

/-- C1. Whenever `get_chain_fat16` returns a chain for a starting cluster `s` (a `uint16_t`),
the chain is the link path from `s`: its length `n` is at least 1 and is the stored `size`,
`clusters[0] = s`, each `clusters[i+1]` is the little-endian FAT entry at byte offset
`2 * clusters[i]`, and the FAT entry of `clusters[n-1]` is at least `0xFFF8`.  And on every
table that encodes `5 → 6 → 7 → 0xFFFF` the call with start 5 returns `[5, 6, 7]`, size 3,
as soon as three loop iterations are allowed. -/
theorem get_chain_fat16_link_path :
    (∀ (fuel : Nat) (buffer : List Nat) (size s : Nat) (c : clusters_chain_t),
      s < 65536 → get_chain_fat16 fuel buffer size s = some (some c) →
        (2 ≤ s ∧ size % 2 = 0 ∧ 4 ≤ size) ∧
        1 ≤ c.size ∧ c.clusters.length = c.size ∧ c.clusters.getD 0 0 = s ∧
        (∀ i, i + 1 < c.size →
          c.clusters.getD (i + 1) 0 = read_u16 buffer (2 * c.clusters.getD i 0)) ∧
        FAT16_EOC_MIN ≤ read_u16 buffer (2 * c.clusters.getD (c.size - 1) 0)) ∧
    (∀ (fuel : Nat) (buffer : List Nat) (size : Nat),
      3 ≤ fuel → size % 2 = 0 → 16 ≤ size →
      read_u16 buffer 10 = 6 → read_u16 buffer 12 = 7 → read_u16 buffer 14 = 0xFFFF →
        get_chain_fat16 fuel buffer size 5 = some (some ⟨[5, 6, 7], 3⟩)) := by
  constructor
  · intro fuel buffer size s c hs h
    unfold get_chain_fat16 at h
    split_ifs at h with h1
    · simp at h
    · simp only at h
      split_ifs at h with h2
      · simp at h
      have hs2 : 2 ≤ s := by omega
      split at h
      · simp at h
      · simp at h
      · rename_i count hcount
        simp only [Option.some.injEq] at h
        obtain ⟨k, -, hends, hn⟩ := chain_count_some buffer size fuel s 1 count (by decide) hcount
        have hk := ends_after_short buffer size s k hs2 hs hends
        have hcnt : count = k + 1 := by omega
        subst h
        simp only
        refine ⟨by omega, by omega, chain_fill_length _ _ _ _ _, ?_, ?_, ?_⟩
        · rw [chain_fill_getD buffer count count 0 s 0 (by omega) (by omega)]
          rfl
        · intro i hi
          rw [chain_fill_getD buffer count count 0 s (i + 1) (by omega) (by omega),
            chain_fill_getD buffer count count 0 s i (by omega) (by omega), walk_succ,
            Nat.mul_comm]
          rfl
        · rw [chain_fill_getD buffer count count 0 s (count - 1) (by omega) (by omega),
            Nat.mul_comm]
          have : count - 1 = k := by omega
          rw [this]
          exact hends.2.2
  · intro fuel buffer size hf hs2 hs h5 h6 h7
    obtain ⟨f, rfl⟩ : ∃ f, fuel = f + 3 := ⟨fuel - 3, by omega⟩
    unfold get_chain_fat16
    rw [if_neg (by omega)]
    simp only
    rw [if_neg (by omega)]
    have e1 : ¬ size < 12 := by omega
    have e2 : ¬ size < 14 := by omega
    have e3 : ¬ size < 16 := by omega
    simp [chain_count, chain_fill, h5, h6, h7, FAT16_BAD_CLUSTER, FAT16_FREE_CLUSTER,
      FAT16_EOC_MIN, e1, e2, e3]

/-- C1, at a concrete table of eight entries encoding `5 → 6 → 7 → 0xFFFF`. -/
theorem get_chain_fat16_link_path_witness :
    get_chain_fat16 10 (fat_bytes [0xFFF8, 0xFFFF, 0, 0, 0, 6, 7, 0xFFFF]) 16 5
        = some (some ⟨[5, 6, 7], 3⟩) ∧
      FAT16_EOC_MIN ≤ read_u16 (fat_bytes [0xFFF8, 0xFFFF, 0, 0, 0, 6, 7, 0xFFFF])
        (2 * [5, 6, 7].getD (3 - 1) 0) :=
  ⟨by decide,
   (get_chain_fat16_link_path.1 10 (fat_bytes [0xFFF8, 0xFFFF, 0, 0, 0, 6, 7, 0xFFFF]) 16 5
      ⟨[5, 6, 7], 3⟩ (by decide) (by decide)).2.2.2.2.2⟩

theorem to_uint32_eq (x : Int) : (to_uint32 x : Int) = x % 4294967296 := by
  unfold to_uint32
  omega

theorem to_int32_eq (x : Int) : to_int32 x = (x + 2147483648) % 4294967296 - 2147483648 := by
  have h := to_uint32_eq x
  unfold to_int32
  split_ifs <;> omega

theorem to_uint32_spec (x : Int) :
    ∃ k : Int, ((to_uint32 x : Nat) : Int) = x + k * 4294967296 ∧ to_uint32 x < 4294967296 := by
  have h := to_uint32_eq x
  exact ⟨-(x / 4294967296), by omega, by omega⟩

theorem to_int32_spec (x : Int) :
    ∃ k : Int, to_int32 x = x + k * 4294967296 ∧
      -2147483648 ≤ to_int32 x ∧ to_int32 x < 2147483648 := by
  have h := to_int32_eq x
  exact ⟨-((x + 2147483648) / 4294967296), by omega, by omega, by omega⟩

theorem seek_to_ok (stream : file_t) (t : Int) (h0 : 0 ≤ t) (hsz : stream.entry.size ≤ 2147483647)
    (ht : t ≤ stream.entry.size) :
    seek_to stream t = (.ok t, { stream with position := t.toNat }) := by
  unfold seek_to
  rw [to_int32_eq, if_neg (by omega)]
  have : to_uint32 t = t.toNat := by
    have h := to_uint32_eq t
    omega
  rw [this]

theorem seek_to_fail (stream : file_t) (p : Int) (hp : -2147483648 ≤ p ∧ p ≤ 2147483647)
    (hsz : stream.entry.size < 4294967296)
    (h : p < 0 ∨ (stream.entry.size : Int) < p) :
    seek_to stream p = (.error Errno.ENXIO, stream) := by
  unfold seek_to
  rw [to_int32_eq, if_pos (by omega)]

theorem file_seek_set (stream : file_t) (offset : Int) :
    file_seek stream offset SEEK_SET = seek_to stream offset := by
  unfold file_seek
  rw [if_pos rfl]

theorem file_seek_end (stream : file_t) (offset : Int) :
    file_seek stream offset SEEK_END
      = seek_to stream (to_int32 (to_int32 stream.entry.size + offset)) := by
  unfold file_seek
  rw [if_neg (by decide), if_pos rfl]

theorem file_seek_cur (stream : file_t) (offset : Int) :
    file_seek stream offset SEEK_CUR
      = seek_to stream (to_int32 (to_int32 stream.position + offset)) := by
  unfold file_seek
  rw [if_neg (by decide), if_neg (by decide), if_pos rfl]

theorem seek_target_set (stream : file_t) (offset : Int) :
    seek_target stream offset SEEK_SET = offset := by
  unfold seek_target
  rw [if_pos rfl]

theorem seek_target_end (stream : file_t) (offset : Int) :
    seek_target stream offset SEEK_END = (stream.entry.size : Int) + offset := by
  unfold seek_target
  rw [if_neg (by decide), if_pos rfl]

theorem seek_target_cur (stream : file_t) (offset : Int) :
    seek_target stream offset SEEK_CUR = (stream.position : Int) + offset := by
  unfold seek_target
  rw [if_neg (by decide), if_neg (by decide)]

/-- C5 (amended). For a handle whose `entry.size` is at most `0x7FFFFFFF`, every seek with
`whence` in {`SEEK_SET`, `SEEK_END`, `SEEK_CUR`} whose target `t` (in mathematical integers)
satisfies `0 ≤ t ≤ entry.size` stores `t` in `position` and returns `t`; in particular
`file_seek(stream, 0, SEEK_END)` returns `entry.size`. -/
theorem file_seek_in_range (stream : file_t) (offset whence : Int)
    (hoff : -2147483648 ≤ offset ∧ offset ≤ 2147483647)
    (hsz : stream.entry.size ≤ 2147483647)
    (hw : whence = SEEK_SET ∨ whence = SEEK_END ∨ whence = SEEK_CUR)
    (h0 : 0 ≤ seek_target stream offset whence)
    (ht : seek_target stream offset whence ≤ stream.entry.size) :
    file_seek stream offset whence =
        (.ok (seek_target stream offset whence),
          { stream with position := (seek_target stream offset whence).toNat }) ∧
      (file_seek stream 0 SEEK_END).1 = .ok (stream.entry.size : Int) := by
  constructor
  · rcases hw with hw | hw | hw
    · subst hw
      rw [seek_target_set] at h0 ht ⊢
      rw [file_seek_set]
      exact seek_to_ok stream offset h0 hsz ht
    · subst hw
      rw [seek_target_end] at h0 ht ⊢
      rw [file_seek_end]
      have e : to_int32 (to_int32 (stream.entry.size : Int) + offset)
          = (stream.entry.size : Int) + offset := by
        simp only [to_int32_eq]; omega
      rw [e]
      exact seek_to_ok stream _ h0 hsz ht
    · subst hw
      rw [seek_target_cur] at h0 ht ⊢
      rw [file_seek_cur]
      have e : to_int32 (to_int32 (stream.position : Int) + offset)
          = (stream.position : Int) + offset := by
        simp only [to_int32_eq]; omega
      rw [e]
      exact seek_to_ok stream _ h0 hsz ht
  · rw [file_seek_end]
    have e : to_int32 (to_int32 (stream.entry.size : Int) + 0) = (stream.entry.size : Int) := by
      simp only [to_int32_eq]; omega
    rw [e, seek_to_ok stream _ (by omega) hsz (le_refl _)]

/-- C6. For a handle (its cursor within the file, `position ≤ entry.size`) and a seek whose
target `t` (in mathematical integers) is negative or exceeds `entry.size`, `file_seek`
fails with `ENXIO` and leaves the handle as it was; in particular so does
`file_seek(stream, entry.size + 1, SEEK_SET)` when `entry.size + 1` is an `int32_t`. -/
theorem file_seek_out_of_range (stream : file_t) (offset whence : Int)
    (hoff : -2147483648 ≤ offset ∧ offset ≤ 2147483647)
    (hsz : stream.entry.size < 4294967296)
    (hpos : stream.position ≤ stream.entry.size)
    (hw : whence = SEEK_SET ∨ whence = SEEK_END ∨ whence = SEEK_CUR)
    (ht : seek_target stream offset whence < 0 ∨
      (stream.entry.size : Int) < seek_target stream offset whence) :
    file_seek stream offset whence = (.error Errno.ENXIO, stream) ∧
      ((stream.entry.size : Int) + 1 ≤ 2147483647 →
        file_seek stream ((stream.entry.size : Int) + 1) SEEK_SET
          = (.error Errno.ENXIO, stream)) := by
  constructor
  · rcases hw with hw | hw | hw
    · subst hw
      rw [seek_target_set] at ht
      rw [file_seek_set]
      exact seek_to_fail stream offset hoff hsz ht
    · subst hw
      rw [seek_target_end] at ht
      rw [file_seek_end]
      by_cases hbig : stream.entry.size ≤ 2147483647
      · apply seek_to_fail stream _ (by simp only [to_int32_eq]; omega) hsz
        simp only [to_int32_eq]; omega
      · unfold seek_to
        rw [if_pos (by simp only [to_int32_eq]; omega)]
    · subst hw
      rw [seek_target_cur] at ht
      rw [file_seek_cur]
      by_cases hbig : stream.entry.size ≤ 2147483647
      · apply seek_to_fail stream _ (by simp only [to_int32_eq]; omega) hsz
        simp only [to_int32_eq]; omega
      · unfold seek_to
        rw [if_pos (by simp only [to_int32_eq]; omega)]
  · intro h
    rw [file_seek_set]
    exact seek_to_fail stream _ (by omega) hsz (by omega)

set_option maxRecDepth 100000 in
/-- C5, counterexample. On the sample image `BIG.BIN` has `entry.size = 0x80000000`; the
handle `file_open` returns for it is at position 0, the target of `seek(0, SEEK_END)` is
`entry.size`, and `file_seek` fails with `ENXIO`. -/
theorem file_seek_end_large_file :
    (sample_file name_BIG_BIN).map
        (fun f => (f.entry.size, f.position, seek_target f 0 SEEK_END, file_seek f 0 SEEK_END))
      = (sample_file name_BIG_BIN).map
        (fun f => (2147483648, 0, (2147483648 : Int), (.error Errno.ENXIO, f))) ∧
    (sample_file name_BIG_BIN).isSome = true := by
  decide!

/-- C5 (amended), at a handle of size 100 at position 10: `seek(-20, SEEK_END)`. -/
theorem file_seek_in_range_witness :
    file_seek (sample_handle 100 10) (-20) SEEK_END =
        (.ok (seek_target (sample_handle 100 10) (-20) SEEK_END),
          { sample_handle 100 10 with
            position := (seek_target (sample_handle 100 10) (-20) SEEK_END).toNat }) ∧
      (file_seek (sample_handle 100 10) 0 SEEK_END).1
        = .ok ((sample_handle 100 10).entry.size : Int) :=
  file_seek_in_range (sample_handle 100 10) (-20) SEEK_END ⟨by decide, by decide⟩
    (by decide) (Or.inr (Or.inl rfl)) (by decide) (by decide)

/-- C6, at a handle of size 100 at position 10: `seek(91, SEEK_CUR)` has target 101. -/
theorem file_seek_out_of_range_witness :
    file_seek (sample_handle 100 10) 91 SEEK_CUR = (.error Errno.ENXIO, sample_handle 100 10) ∧
      ((((sample_handle 100 10).entry.size : Nat) : Int) + 1 ≤ 2147483647 →
        file_seek (sample_handle 100 10) ((((sample_handle 100 10).entry.size : Nat) : Int) + 1)
          SEEK_SET = (.error Errno.ENXIO, sample_handle 100 10)) :=
  file_seek_out_of_range (sample_handle 100 10) 91 SEEK_CUR ⟨by decide, by decide⟩
    (by decide) (by decide) (Or.inr (Or.inr rfl)) (Or.inr (by decide))

theorem pow_two_check (n : Nat) :
    (n = 0 ∨ n > 128 ∨ (n &&& (n - 1)) ≠ 0) ↔ ¬ ((∃ k, n = 2 ^ k) ∧ 1 ≤ n ∧ n ≤ 128) := by
  by_cases hn : n ≤ 128
  · have key : ∀ m, m < 129 → ((m = 0 ∨ m > 128 ∨ (m &&& (m - 1)) ≠ 0) ↔
        ¬ (m = 1 ∨ m = 2 ∨ m = 4 ∨ m = 8 ∨ m = 16 ∨ m = 32 ∨ m = 64 ∨ m = 128)) := by
      decide
    rw [key n (by omega)]
    constructor
    · rintro h ⟨⟨k, hk⟩, -, hle⟩
      apply h
      have hk7 : k < 8 := by
        by_contra hk8
        have : 2 ^ 8 ≤ 2 ^ k := Nat.pow_le_pow_right (by decide) (by omega)
        omega
      interval_cases k <;> simp_all
    · intro h h'
      apply h
      refine ⟨?_, by omega, hn⟩
      rcases h' with h' | h' | h' | h' | h' | h' | h' | h'
      · exact ⟨0, by simp [h']⟩
      · exact ⟨1, by simp [h']⟩
      · exact ⟨2, by simp [h']⟩
      · exact ⟨3, by simp [h']⟩
      · exact ⟨4, by simp [h']⟩
      · exact ⟨5, by simp [h']⟩
      · exact ⟨6, by simp [h']⟩
      · exact ⟨7, by simp [h']⟩
  · constructor
    · rintro - ⟨-, -, h⟩
      exact hn h
    · intro _
      right; left; omega

theorem super_rejected_iff (s : fat_super_t) :
    super_rejected s = false ↔ boot_sector_ok s := by
  have hp := pow_two_check s.sectors_per_cluster
  unfold super_rejected boot_sector_ok
  simp only [SECTOR_SIZE]
  constructor
  · intro h
    split_ifs at h with h1 h2 h3 h4 h5 h6
    refine ⟨?_, by omega, by omega, by omega, by omega, by omega, by omega, by omega⟩
    by_contra hc
    exact h1 (hp.mpr hc)
  · rintro ⟨h1, h2, h3, h4, h5, h6, h7, h8⟩
    rw [if_neg (fun hc => (hp.mp hc) h1), if_neg (by omega), if_neg (by omega),
      if_neg (by omega), if_neg (by omega), if_neg (by omega)]

/-- C7. With the boot sector readable, and the FAT regions readable and in agreement
whenever the boot sector satisfies the conditions (each read made on the disk as the read
before it has left it), `fat_open` returns a volume exactly
when `sectors_per_cluster` is a power of two in [1,128], `reserved_sectors > 0`,
`fat_count` is 1 or 2, `root_dir_capacity * 32` is a multiple of 512, exactly one of the
logical-sector fields is nonzero (the 32-bit one above 65535 when the 16-bit one is zero),
`sectors_per_fat ≥ 1` and the signature is `0xAA55`; a boot sector that violates one of
them makes the mount fail with `EINVAL`, no volume returned. -/
theorem fat_open_boot_sector_validation (pdisk : disk_t) (first_sector : Nat)
    (sector : List Nat)
    (hboot : disk_read pdisk (to_int32 first_sector) 1 = .ok sector)
    (hfat : boot_sector_ok (read_super sector) → ∃ fat,
      disk_read (disk_after_boot pdisk first_sector)
          (to_int32 ((first_sector + (read_super sector).reserved_sectors) % 4294967296 : Nat))
          (read_super sector).sectors_per_fat = .ok fat ∧
        ((read_super sector).fat_count = 2 →
          disk_read (disk_after_fat pdisk first_sector (read_super sector))
            (to_int32 (((first_sector + (read_super sector).reserved_sectors) % 4294967296
              + (read_super sector).sectors_per_fat) % 4294967296 : Nat))
            (read_super sector).sectors_per_fat = .ok fat)) :
    ((∃ v, fat_open pdisk first_sector = .ok v) ↔ boot_sector_ok (read_super sector)) ∧
      (¬ boot_sector_ok (read_super sector) →
        fat_open pdisk first_sector = .error Errno.EINVAL) := by
  have hrej : ¬ boot_sector_ok (read_super sector) →
      fat_open pdisk first_sector = .error Errno.EINVAL := by
    intro hbad
    have hr : super_rejected (read_super sector) = true := by
      by_contra hc
      exact hbad ((super_rejected_iff _).mp (by simpa using hc))
    unfold fat_open
    rw [hboot]
    show (if super_rejected (read_super sector) = true then _ else _) = _
    rw [if_pos hr]
  refine ⟨⟨?_, ?_⟩, hrej⟩
  · rintro ⟨v, hv⟩
    by_contra hbad
    rw [hrej hbad] at hv
    cases hv
  · intro hok
    obtain ⟨fat, h1, h2⟩ := hfat hok
    have hr : super_rejected (read_super sector) = false := (super_rejected_iff _).mpr hok
    unfold fat_open
    rw [hboot]
    show ∃ v, (if super_rejected (read_super sector) = true then _ else _) = _
    rw [if_neg (by rw [hr]; decide)]
    dsimp only
    rw [h1]
    dsimp only
    by_cases hc : (read_super sector).fat_count = 2
    · rw [if_pos hc, h2 hc]
      dsimp only
      rw [if_neg (by simp)]
      exact ⟨_, rfl⟩
    · rw [if_neg hc]
      exact ⟨_, rfl⟩

set_option maxRecDepth 100000 in
/-- C7, on the sample image (two FAT copies that agree): the boot sector satisfies the
conditions and the mount returns a volume. -/
theorem fat_open_boot_sector_validation_witness :
    (((∃ v, fat_open sample_disk 0 = .ok v) ↔ boot_sector_ok (read_super (sample_boot 2 6))) ∧
      (¬ boot_sector_ok (read_super (sample_boot 2 6)) →
        fat_open sample_disk 0 = .error Errno.EINVAL)) ∧
    boot_sector_ok (read_super (sample_boot 2 6)) :=
  ⟨fat_open_boot_sector_validation sample_disk 0 (sample_boot 2 6) (by decide!)
    (fun _ => ⟨sample_fat, by decide!, fun _ => by decide!⟩),
   ⟨⟨⟨0, by decide!⟩, by decide!, by decide!⟩, by decide!, by decide!, by decide!, by decide!,
    by decide!, by decide!, by decide!⟩⟩

theorem byteAt_slice (file : List Nat) (off len i : Nat) (hi : i < len) :
    byteAt (((file.drop off).take len).map (· % 256)) i = byteAt file (off + i) := by
  unfold byteAt
  simp only [List.getD_eq_getElem?_getD, List.getElem?_map, List.getElem?_take, hi, if_true,
    List.getElem?_drop]
  cases file[off + i]? <;> simp

theorem byteAt_drop (file : List Nat) (off i : Nat) :
    byteAt (file.drop off) i = byteAt file (off + i) := by
  unfold byteAt
  simp only [List.getD_eq_getElem?_getD, List.getElem?_drop]

theorem byteAt_take (buf : List Nat) (len i : Nat) (hi : i < len) :
    byteAt (buf.take len) i = byteAt buf i := by
  unfold byteAt
  simp only [List.getD_eq_getElem?_getD, List.getElem?_take, hi, if_true]

/-- A successful `disk_read` of `n` sectors at a sector `S` whose byte offset is an `int`
delivers the bytes of the image at `[512 S, 512 (S + n))`, which lie inside the file. -/
theorem disk_read_ok (d : disk_t) (S n : Nat) (buf : List Nat) (hS : S < 4194304)
    (h : disk_read d (S : Int) (n : Int) = .ok buf) :
    0 < n ∧ S * 512 + n * 512 ≤ d.file.length ∧
      buf = ((d.file.drop (S * 512)).take (n * 512)).map (· % 256) := by
  unfold disk_read at h
  split_ifs at h with h1 h2
  have hpos : to_int32 ((S : Int) * (SECTOR_SIZE : Nat)) = ((S * 512 : Nat) : Int) := by
    rw [to_int32_eq]
    simp only [SECTOR_SIZE]
    push_cast
    omega
  rw [hpos] at h
  have hneg : ¬ (((S * 512 : Nat) : Int) < 0) := by omega
  simp only [fread_at, seek_set, Int.toNat_ofNat, SECTOR_SIZE, hneg, if_false] at h
  split_ifs at h with h3
  simp only [not_not] at h3
  have hitems : min n ((d.file.length - S * 512) / 512) = n := by
    have := h3
    push_cast at this
    omega
  have hn : 0 < n := by omega
  have hle : n ≤ (d.file.length - S * 512) / 512 := by
    rw [← hitems]
    exact Nat.min_le_right _ _
  have hlen : n * 512 ≤ d.file.length - S * 512 := by
    have := Nat.div_mul_le_self (d.file.length - S * 512) 512
    calc n * 512 ≤ (d.file.length - S * 512) / 512 * 512 := Nat.mul_le_mul_right _ hle
      _ ≤ _ := this
  refine ⟨hn, by omega, ?_⟩
  simp only [Except.ok.injEq] at h
  rw [hitems] at h
  exact h.symm

theorem disk_after_file (d : disk_t) (s n : Int) : (disk_after d s n).file = d.file := by
  unfold disk_after
  split_ifs <;> rfl

theorem disk_after_size (d : disk_t) (s n : Int) : (disk_after d s n).size = d.size := by
  unfold disk_after
  split_ifs <;> rfl

theorem disk_after_boot_medium (pdisk : disk_t) (first_sector : Nat) :
    (disk_after_boot pdisk first_sector).file = pdisk.file ∧
      (disk_after_boot pdisk first_sector).size = pdisk.size :=
  ⟨disk_after_file _ _ _, disk_after_size _ _ _⟩

theorem disk_after_fat_medium (pdisk : disk_t) (first_sector : Nat) (s : fat_super_t) :
    (disk_after_fat pdisk first_sector s).file = pdisk.file ∧
      (disk_after_fat pdisk first_sector s).size = pdisk.size := by
  unfold disk_after_fat
  rw [disk_after_file, disk_after_size]
  exact disk_after_boot_medium pdisk first_sector

theorem disk_after_fat_2_medium (pdisk : disk_t) (first_sector : Nat) (s : fat_super_t) :
    (disk_after_fat_2 pdisk first_sector s).file = pdisk.file ∧
      (disk_after_fat_2 pdisk first_sector s).size = pdisk.size := by
  unfold disk_after_fat_2
  rw [disk_after_file, disk_after_size]
  exact disk_after_fat_medium pdisk first_sector s

/-- What a successful `fat_open` has done: the three reads, each on the disk as the read
before it has left it, the checks, and the volume built on the disk as the last read has left
it. -/
theorem fat_open_ok_inv (pdisk : disk_t) (first_sector : Nat) (v : volume_t)
    (h : fat_open pdisk first_sector = .ok v) :
    ∃ sector fat d,
      disk_read pdisk (to_int32 first_sector) 1 = .ok sector ∧
      super_rejected (read_super sector) = false ∧
      disk_read (disk_after_boot pdisk first_sector)
        (to_int32 ((first_sector + (read_super sector).reserved_sectors) % 4294967296 : Nat))
        (read_super sector).sectors_per_fat = .ok fat ∧
      ((read_super sector).fat_count = 2 → ∃ fat2,
        disk_read (disk_after_fat pdisk first_sector (read_super sector))
          (to_int32 (((first_sector + (read_super sector).reserved_sectors) % 4294967296
            + (read_super sector).sectors_per_fat) % 4294967296 : Nat))
          (read_super sector).sectors_per_fat = .ok fat2 ∧
        fat.take ((read_super sector).sectors_per_fat * SECTOR_SIZE)
          = fat2.take ((read_super sector).sectors_per_fat * SECTOR_SIZE)) ∧
      d.file = pdisk.file ∧ d.size = pdisk.size ∧
      v = mk_volume d first_sector (read_super sector) fat := by
  unfold fat_open at h
  split at h
  · cases h
  · rename_i sector hsec
    simp only at h
    split_ifs at h with hrej hc
    · split at h
      · cases h
      · rename_i fat hfat
        split at h
        · cases h
        · rename_i fat2 hfat2
          split_ifs at h with hne
          simp only [Except.ok.injEq] at h
          exact ⟨sector, fat, _, hsec, by simpa using hrej, hfat,
            fun _ => ⟨fat2, hfat2, by simpa using hne⟩,
            (disk_after_fat_2_medium pdisk first_sector _).1,
            (disk_after_fat_2_medium pdisk first_sector _).2, h.symm⟩
    · split at h
      · cases h
      · rename_i fat hfat
        simp only [Except.ok.injEq] at h
        exact ⟨sector, fat, _, hsec, by simpa using hrej, hfat, fun hc2 => absurd hc2 hc,
          (disk_after_fat_medium pdisk first_sector _).1,
          (disk_after_fat_medium pdisk first_sector _).2, h.symm⟩

/-- Where the mismatch of the FAT copies is found: when the boot record at `first_sector`
declares two FAT copies, the second copy starts at a byte offset that is an `int` (below
sector `2^22`), and the two copies (`sectors_per_fat * 512` bytes each, the second right
after the first) differ in at least one byte, `fat_open` fails: no volume is returned. -/
theorem fat_open_fat_mismatch (pdisk : disk_t) (first_sector : Nat)
    (hcount : (boot_record pdisk first_sector).fat_count = 2)
    (haddr : first_sector + (boot_record pdisk first_sector).reserved_sectors
      + (boot_record pdisk first_sector).sectors_per_fat < 4194304)
    (hdiff : ∃ i, i < (boot_record pdisk first_sector).sectors_per_fat * 512 ∧
      byteAt pdisk.file
          ((first_sector + (boot_record pdisk first_sector).reserved_sectors) * 512 + i)
        ≠ byteAt pdisk.file
          ((first_sector + (boot_record pdisk first_sector).reserved_sectors
            + (boot_record pdisk first_sector).sectors_per_fat) * 512 + i)) :
    ∃ e, fat_open pdisk first_sector = .error e := by
  cases hopen : fat_open pdisk first_sector with
  | error e => exact ⟨e, rfl⟩
  | ok v =>
    exfalso
    obtain ⟨sector, fat, -, hsec, -, hfat, hfat2, -, -, -⟩ :=
      fat_open_ok_inv pdisk first_sector v hopen
    have e1 : to_int32 (first_sector : Int) = (first_sector : Int) := by
      rw [to_int32_eq]; omega
    rw [e1] at hsec
    have hs := disk_read_ok pdisk first_sector 1 sector (by omega) (by exact_mod_cast hsec)
    have hsuper : read_super sector = boot_record pdisk first_sector := by
      have hb : ∀ i, i < 512 → byteAt sector i = byteAt (pdisk.file.drop (first_sector * 512)) i := by
        intro i hi
        rw [hs.2.2, byteAt_slice _ _ _ _ (by omega), byteAt_drop]
      unfold boot_record
      simp only [read_super, read_u32, read_u16, SECTOR_SIZE]
      rw [hb 11 (by omega), hb 12 (by omega), hb 13 (by omega), hb 14 (by omega),
        hb 15 (by omega), hb 16 (by omega), hb 17 (by omega), hb 18 (by omega),
        hb 19 (by omega), hb 20 (by omega), hb 22 (by omega), hb 23 (by omega),
        hb 28 (by omega), hb 29 (by omega), hb 30 (by omega), hb 31 (by omega),
        hb 32 (by omega), hb 33 (by omega), hb 34 (by omega), hb 35 (by omega),
        hb 39 (by omega), hb 40 (by omega), hb 41 (by omega), hb 42 (by omega),
        hb 510 (by omega), hb 511 (by omega)]
    rw [hsuper] at hfat hfat2
    obtain ⟨fat2, hfat2, htake⟩ := hfat2 hcount
    obtain ⟨i, hi, hne⟩ := hdiff
    generalize (boot_record pdisk first_sector).reserved_sectors = res at *
    generalize (boot_record pdisk first_sector).sectors_per_fat = spf at *
    have e2 : to_int32 (((first_sector + res) % 4294967296 : Nat) : Int)
        = ((first_sector + res : Nat) : Int) := by
      rw [to_int32_eq]; omega
    have e3 : to_int32 ((((first_sector + res) % 4294967296 + spf) % 4294967296 : Nat) : Int)
        = ((first_sector + res + spf : Nat) : Int) := by
      rw [to_int32_eq]; omega
    rw [e2] at hfat
    rw [e3] at hfat2
    have h1 := disk_read_ok _ (first_sector + res) spf fat (by omega) hfat
    have h2 := disk_read_ok _ (first_sector + res + spf) spf fat2 (by omega) hfat2
    rw [(disk_after_boot_medium pdisk first_sector).1] at h1
    rw [(disk_after_fat_medium pdisk first_sector _).1] at h2
    apply hne
    have b1 : byteAt fat i = byteAt pdisk.file ((first_sector + res) * 512 + i) := by
      rw [h1.2.2, byteAt_slice _ _ _ _ hi]
    have b2 : byteAt fat2 i = byteAt pdisk.file ((first_sector + res + spf) * 512 + i) := by
      rw [h2.2.2, byteAt_slice _ _ _ _ hi]
    rw [← b1, ← b2, ← byteAt_take fat (spf * SECTOR_SIZE) i (by simpa [SECTOR_SIZE] using hi),
      ← byteAt_take fat2 (spf * SECTOR_SIZE) i (by simpa [SECTOR_SIZE] using hi), htake]

set_option maxRecDepth 100000 in
/-- On the sample image with byte 4 of the second FAT copy changed, the mount fails (with
`EINVAL`). -/
theorem fat_open_fat_mismatch_witness :
    (∃ e, fat_open sample_disk_mismatch 0 = .error e) ∧
      fat_open sample_disk_mismatch 0 = .error Errno.EINVAL :=
  ⟨fat_open_fat_mismatch sample_disk_mismatch 0 (by decide!) (by decide!)
    ⟨4, by decide!, by decide!⟩, by decide!⟩

theorem copy_until_space_eq (l : List Nat) : copy_until_space l = l.takeWhile (· ≠ 32) := by
  induction l with
  | nil => rfl
  | cons c cs ih =>
    by_cases hc : c = 32
    · simp [copy_until_space, hc]
    · simp [copy_until_space, hc, ih]

theorem trim_all_spaces (l : List Nat) (h : ∀ x ∈ l, x = 32) : trim_trailing_spaces l = [] := by
  induction l with
  | nil => rfl
  | cons c cs ih =>
    have hcs := ih (fun x hx => h x (List.mem_cons_of_mem _ hx))
    have hc := h c (List.mem_cons_self _ _)
    simp [trim_trailing_spaces, hc, hcs]

theorem copy_eq_trim (l : List Nat) (h : spaces_only_trailing l) :
    copy_until_space l = trim_trailing_spaces l := by
  induction l with
  | nil => rfl
  | cons c cs ih =>
    obtain ⟨h1, h2⟩ := h
    by_cases hc : c = 32
    · have := trim_all_spaces cs (h1 hc)
      simp [copy_until_space, trim_trailing_spaces, hc, this]
    · simp [copy_until_space, trim_trailing_spaces, hc, ih h2]

theorem trim_ne_nil_iff (l : List Nat) (hl : l ≠ []) (h : spaces_only_trailing l) :
    trim_trailing_spaces l ≠ [] ↔ l.getD 0 0 ≠ 32 := by
  cases l with
  | nil => exact absurd rfl hl
  | cons c cs =>
    obtain ⟨h1, -⟩ := h
    by_cases hc : c = 32
    · have := trim_all_spaces cs (h1 hc)
      simp [trim_trailing_spaces, hc, this]
    · simp [trim_trailing_spaces, hc]

theorem bytes_at_length (buf : List Nat) (off len : Nat) : (bytes_at buf off len).length = len := by
  simp [bytes_at]

/-- The name `decode_name` builds, in terms of the two fields of a record. -/
theorem decode_name_eq (e : fat_entry_t) (hn : e.name.length = 8) (hx : e.extension.length = 3) :
    decode_name e = e.name.takeWhile (· ≠ 32) ++
        (if e.extension.getD 0 0 ≠ 32 then 46 :: e.extension.takeWhile (· ≠ 32) else []) ∧
      (spaces_only_trailing e.name → spaces_only_trailing e.extension →
        decode_name e = trimmed_name e) := by
  have t1 : e.name.take 8 = e.name := List.take_of_length_le (by omega)
  have t2 : e.extension.take 3 = e.extension := List.take_of_length_le (by omega)
  constructor
  · unfold decode_name
    rw [t1, t2, copy_until_space_eq, copy_until_space_eq]
  · intro h1 h2
    have hx0 : e.extension ≠ [] := by
      intro h0
      rw [h0] at hx
      simp at hx
    have hiff := trim_ne_nil_iff e.extension hx0 h2
    unfold decode_name trimmed_name
    rw [t1, t2, copy_eq_trim _ h1, copy_eq_trim _ h2]
    by_cases hc : e.extension.getD 0 0 ≠ 32
    · rw [if_pos hc, if_pos (hiff.mpr hc)]
    · rw [if_neg hc, if_neg (fun hh => hc (hiff.mp hh))]

theorem disk_after_medium (d : disk_t) (s n : Int) : same_medium (disk_after d s n) d :=
  ⟨disk_after_file d s n, disk_after_size d s n⟩

theorem same_medium_trans (a b c : disk_t) (h1 : same_medium a b) (h2 : same_medium b c) :
    same_medium a c :=
  ⟨h1.1.trans h2.1, h1.2.trans h2.2⟩

/-- An entry returned by the loop of `dir_read` is the decoding of one of the sixteen records
of a sector buffer: the buffer the loop started with, or a sector it read from the disk. -/
theorem dir_read_loop_entry (pdir : dir_t) :
    ∀ (fuel current_entry : Nat) (sector_buffer : List Nat) (disk : disk_t)
      (pentry : dir_entry_t) (ce : Nat) (disk2 : disk_t),
      dir_read_loop pdir fuel current_entry sector_buffer disk = (.entry pentry, ce, disk2) →
      ∃ (buf : List Nat) (k : Nat), k < 16 ∧
        (buf = sector_buffer ∨ ∃ d s, same_medium d disk ∧ disk_read d s 1 = .ok buf) ∧
        pentry = fill_entry (read_entry buf (k * 32)) := by
  intro fuel
  induction fuel with
  | zero =>
    intro current_entry sector_buffer disk pentry ce disk2 h
    simp [dir_read_loop] at h
  | succ fuel ih =>
    intro current_entry sector_buffer disk pentry ce disk2 h
    rw [dir_read_loop] at h
    by_cases h1 : current_entry < pdir.max_entries
    swap
    · rw [if_pos h1] at h
      simp at h
    rw [if_neg (not_not.mpr h1)] at h
    simp only at h
    by_cases h2 : current_entry % (SECTOR_SIZE / 32) = 0 ∧
        current_entry / (SECTOR_SIZE / 32) ≥ pdir.volume.root_dir_sectors
    · rw [if_pos h2] at h
      simp at h
    rw [if_neg h2] at h
    have hmed : same_medium (if current_entry % (SECTOR_SIZE / 32) = 0 then
        disk_after disk (to_int32 ((pdir.current_sector + current_entry / (SECTOR_SIZE / 32))
          % 4294967296 : Nat)) 1 else disk) disk := by
      split_ifs
      · exact disk_after_medium _ _ _
      · exact ⟨rfl, rfl⟩
    split at h
    · simp at h
    · rename_i buf hbuf
      have hsrc : buf = sector_buffer ∨
          ∃ d s, same_medium d disk ∧ disk_read d s 1 = .ok buf := by
        split_ifs at hbuf with h3
        · exact Or.inr ⟨disk, _, ⟨rfl, rfl⟩, hbuf⟩
        · simp only [Except.ok.injEq] at hbuf
          exact Or.inl hbuf.symm
      by_cases h4 : (read_entry buf (current_entry % (SECTOR_SIZE / 32) * 32)).name.getD 0 0 = 0x00
      · rw [if_pos h4] at h
        simp at h
      rw [if_neg h4] at h
      by_cases h5 : (read_entry buf (current_entry % (SECTOR_SIZE / 32) * 32)).name.getD 0 0 = 0xE5 ∨
          (read_entry buf (current_entry % (SECTOR_SIZE / 32) * 32)).attr &&& 0x08 ≠ 0 ∨
          (read_entry buf (current_entry % (SECTOR_SIZE / 32) * 32)).attr = 0x0F
      · rw [if_pos h5] at h
        obtain ⟨buf2, k, hk, hsrc2, he⟩ := ih _ _ _ _ _ _ h
        refine ⟨buf2, k, hk, ?_, he⟩
        rcases hsrc2 with rfl | ⟨d, s, hd, hr⟩
        · exact hsrc
        · exact Or.inr ⟨d, s, same_medium_trans _ _ _ hd hmed, hr⟩
      · rw [if_neg h5] at h
        simp only [Prod.mk.injEq, dir_read_ret.entry.injEq] at h
        have hk : current_entry % (SECTOR_SIZE / 32) < 16 :=
          Nat.mod_lt current_entry (show 0 < SECTOR_SIZE / 32 by decide)
        exact ⟨buf, current_entry % (SECTOR_SIZE / 32), hk, hsrc, h.1.symm⟩

theorem read_entry_lengths (buf : List Nat) (off : Nat) :
    (read_entry buf off).name.length = 8 ∧ (read_entry buf off).extension.length = 3 :=
  ⟨bytes_at_length _ _ _, bytes_at_length _ _ _⟩

/-- C10 (amended). The name of an entry that `dir_read` returns is built from one 32-byte
record `raw` (of the sector buffer the call started with, or of a sector it read from the
disk, its stream at whatever position): it is the
8-byte name field up to its first space, followed, only when the first byte of the 3-byte
extension is not a space, by `.` and the extension up to its first space.  When neither
field has a space before a character that is not a space, this is the name field with its
trailing spaces trimmed, followed (only when the trimmed extension is not empty) by `.` and
the trimmed extension. -/
theorem dir_read_name (pdir : dir_t) (stack : List Nat) (pentry : dir_entry_t) (pdir2 : dir_t)
    (h : dir_read pdir stack = (.entry pentry, pdir2)) :
    ∃ (buf : List Nat) (k : Nat) (raw : fat_entry_t),
      k < 16 ∧
      (buf = stack ∨ ∃ d s, same_medium d pdir.volume.disk ∧ disk_read d s 1 = .ok buf) ∧
      raw = read_entry buf (k * 32) ∧ raw.name.length = 8 ∧ raw.extension.length = 3 ∧
      pentry.size = raw.size ∧
      pentry.name = raw.name.takeWhile (· ≠ 32) ++
        (if raw.extension.getD 0 0 ≠ 32 then 46 :: raw.extension.takeWhile (· ≠ 32) else []) ∧
      (spaces_only_trailing raw.name → spaces_only_trailing raw.extension →
        pentry.name = trimmed_name raw) := by
  unfold dir_read at h
  simp only [Prod.mk.injEq] at h
  have hl : dir_read_loop pdir (pdir.max_entries - pdir.current_entry) pdir.current_entry stack
        pdir.volume.disk
      = (.entry pentry, (dir_read_loop pdir (pdir.max_entries - pdir.current_entry)
          pdir.current_entry stack pdir.volume.disk).2.1,
          (dir_read_loop pdir (pdir.max_entries - pdir.current_entry)
          pdir.current_entry stack pdir.volume.disk).2.2) := by
    rw [← h.1]
  obtain ⟨buf, k, hk, hsrc, he⟩ := dir_read_loop_entry pdir _ _ _ _ _ _ _ hl
  have hlen := read_entry_lengths buf (k * 32)
  have hd := decode_name_eq (read_entry buf (k * 32)) hlen.1 hlen.2
  refine ⟨buf, k, read_entry buf (k * 32), hk, hsrc, rfl, hlen.1, hlen.2, ?_, ?_, ?_⟩
  · rw [he]; rfl
  · rw [he]; exact hd.1
  · rw [he]; exact hd.2

set_option maxRecDepth 100000 in
/-- C10, counterexample. The first root record of the sample image has the name field
`A B     ` and the extension `TXT`; trimmed of trailing spaces the name is `A B.TXT`, and
the first `dir_read` on a fresh cursor returns `A.TXT`. -/
theorem dir_read_name_inner_space :
    sample_dir.map (fun d => (dir_read d []).1)
        = some (.entry
          { name := [65, 46, 84, 88, 84], size := 0, is_archived := 1, is_readonly := 0,
            is_system := 0, is_hidden := 0, is_directory := 0 }) ∧
      (read_entry sample_root 0).name = [65, 32, 66, 32, 32, 32, 32, 32] ∧
      (read_entry sample_root 0).extension = [84, 88, 84] ∧
      trimmed_name (read_entry sample_root 0) = [65, 32, 66, 46, 84, 88, 84] := by
  decide!

set_option maxRecDepth 100000 in
/-- C10 (amended), at the second `dir_read` on the sample image when the sector buffer still
holds the root sector: the entry `README.TXT`. -/
theorem dir_read_name_witness :
    ∃ (buf : List Nat) (k : Nat) (raw : fat_entry_t),
      k < 16 ∧
      (buf = sample_root ∨ ∃ d s, same_medium d
        ({ volume := (sample_handle 0 0).volume, current_sector := 3, current_entry := 1,
           max_entries := 16 } : dir_t).volume.disk ∧ disk_read d s 1 = .ok buf) ∧
      raw = read_entry buf (k * 32) ∧ raw.name.length = 8 ∧ raw.extension.length = 3 ∧
      (fill_entry (read_entry sample_root 32)).size = raw.size ∧
      (fill_entry (read_entry sample_root 32)).name = raw.name.takeWhile (· ≠ 32) ++
        (if raw.extension.getD 0 0 ≠ 32 then 46 :: raw.extension.takeWhile (· ≠ 32) else []) ∧
      (spaces_only_trailing raw.name → spaces_only_trailing raw.extension →
        (fill_entry (read_entry sample_root 32)).name = trimmed_name raw) :=
  dir_read_name
    { volume := (sample_handle 0 0).volume, current_sector := 3, current_entry := 1,
      max_entries := 16 }
    sample_root (fill_entry (read_entry sample_root 32))
    { volume := (sample_handle 0 0).volume, current_sector := 3, current_entry := 2,
      max_entries := 16 }
    (by decide!)

set_option maxRecDepth 100000 in
/-- C9, the failing run. The root sector of the sample image holds three live records
(`A B.TXT`, `README.TXT`, `BIG.BIN`) before the end marker.  On a fresh cursor the first
`dir_read` fills its sector buffer from the disk and returns the first record; the second
call does not fill it (`current_entry % 16 ≠ 0`) and decodes record 1 of the uninitialised
array: when that array holds zeros the call reports end-of-directory, and `README.TXT` and
`BIG.BIN` are never returned.  Only when the array happens to still hold the root sector
do the calls return the three records and then end-of-directory. -/
theorem dir_read_uninitialised_buffer :
    sample_dir.map (fun d => (dir_read_many (List.replicate 512 0) 2 d).1)
        = some [.entry (fill_entry (read_entry sample_root 0)), .end_of_dir] ∧
      sample_dir.map (fun d => (dir_read_many sample_root 4 d).1)
        = some [.entry (fill_entry (read_entry sample_root 0)),
            .entry (fill_entry (read_entry sample_root 32)),
            .entry (fill_entry (read_entry sample_root 64)), .end_of_dir] ∧
      (fill_entry (read_entry sample_root 32)).name = name_README_TXT ∧
      (fill_entry (read_entry sample_root 64)).name = name_BIG_BIN := by
  decide!

/-- A successful `disk_read` fills `sectors_to_read * 512` bytes. -/
theorem disk_read_length (d : disk_t) (s n : Int) (buf : List Nat)
    (h : disk_read d s n = .ok buf) : buf.length = n.toNat * 512 := by
  unfold disk_read at h
  by_cases h1 : s < 0 ∨ n ≤ 0
  · rw [if_pos h1] at h
    cases h
  rw [if_neg h1] at h
  by_cases h2 : to_int32 (to_int32 (s + n) * SECTOR_SIZE) > to_int32 d.size
  · rw [if_pos h2] at h
    cases h
  rw [if_neg h2] at h
  simp only at h
  by_cases h4 : ((fread_at d.file (seek_set d.pos (to_int32 (s * SECTOR_SIZE))) n.toNat).1 : Int) ≠ n
  · rw [if_pos h4] at h
    cases h
  rw [if_neg h4] at h
  simp only [fread_at, Except.ok.injEq] at h
  simp only [fread_at, ne_eq, not_not] at h4
  generalize seek_set d.pos (to_int32 (s * ↑SECTOR_SIZE)) = start at h h4
  have hitems : min n.toNat ((d.file.length - start) / SECTOR_SIZE) = n.toNat := by
    omega
  rw [hitems] at h
  have hle : n.toNat ≤ (d.file.length - start) / SECTOR_SIZE := by
    rw [← hitems]
    exact Nat.min_le_right _ _
  have hmul := Nat.div_mul_le_self (d.file.length - start) SECTOR_SIZE
  have hlen : n.toNat * SECTOR_SIZE ≤ d.file.length - start :=
    le_trans (Nat.mul_le_mul_right _ hle) hmul
  rw [← h]
  simp only [List.length_map, List.length_take, List.length_drop]
  simp only [SECTOR_SIZE] at hlen ⊢
  omega

/-- A `disk_read` whose `fseek` offset is not negative does not depend on where the stream
stands. -/
theorem disk_read_pos_free (d d2 : disk_t) (s n : Int) (hm : same_medium d2 d)
    (h0 : 0 ≤ to_int32 (s * SECTOR_SIZE)) : disk_read d2 s n = disk_read d s n := by
  unfold disk_read seek_set
  rw [hm.1, hm.2, if_neg (not_lt.mpr h0), if_neg (not_lt.mpr h0)]

theorem disk_after_eq_at (d : disk_t) (s n : Int) :
    disk_after d s n = disk_at d (disk_after d s n).pos := by
  unfold disk_after
  split_ifs <;> rfl

theorem volume_at_self (v : volume_t) : volume_at v v.disk.pos = v := rfl

theorem volume_at_volume_at (v : volume_t) (p q : Nat) :
    volume_at (volume_at v p) q = volume_at v q := rfl

theorem volume_disk_after (v : volume_t) (s n : Int) :
    ({ v with disk := disk_after v.disk s n } : volume_t)
      = volume_at v (disk_after v.disk s n).pos := by
  unfold volume_at
  rw [← disk_after_eq_at]

/-- One pass through the loop of `file_read`, in terms of `fetch_sector`. -/
theorem file_read_iteration_eq (chain : clusters_chain_t) (read_total : Nat) (st : read_state) :
    file_read_iteration chain read_total st =
      if ¬ st.offset < read_total then .left none st
      else
        match fetch_sector chain st.stream.volume st.stream.position with
        | none => .left none st
        | some (.error _) =>
          if st.offset = 0 then
            .left (some Errno.ERANGE) { st with stream := fetch_moved chain st.stream }
          else .left none { st with stream := fetch_moved chain st.stream }
        | some (.ok sector_buffer) =>
          .next
            { offset := (st.offset + min (read_total - st.offset)
                (SECTOR_SIZE - st.stream.position % SECTOR_SIZE)) % 4294967296
              data := st.data ++ (sector_buffer.drop (st.stream.position % SECTOR_SIZE)).take
                (min (read_total - st.offset) (SECTOR_SIZE - st.stream.position % SECTOR_SIZE))
              stream := { fetch_moved chain st.stream with
                position := (st.stream.position + min (read_total - st.offset)
                  (SECTOR_SIZE - st.stream.position % SECTOR_SIZE)) % 4294967296 } } := by
  have hmod : st.stream.position % (st.stream.volume.super_sector.sectors_per_cluster * SECTOR_SIZE)
      % SECTOR_SIZE = st.stream.position % SECTOR_SIZE := Nat.mod_mul_left_mod _ _ _
  have hnum : (if read_total - st.offset > SECTOR_SIZE - st.stream.position % SECTOR_SIZE
      then SECTOR_SIZE - st.stream.position % SECTOR_SIZE else read_total - st.offset)
      = min (read_total - st.offset) (SECTOR_SIZE - st.stream.position % SECTOR_SIZE) := by
    split_ifs <;> omega
  unfold file_read_iteration
  by_cases h1 : st.offset < read_total
  swap
  · rw [if_pos h1, if_pos h1]
  rw [if_neg (not_not.mpr h1), if_neg (not_not.mpr h1)]
  simp only
  unfold fetch_sector fetch_moved fetch_arg
  by_cases h2 : st.stream.position
      / (st.stream.volume.super_sector.sectors_per_cluster * SECTOR_SIZE) ≥ chain.size
  · rw [if_pos h2, if_pos h2]
  rw [if_neg h2, if_neg h2]
  simp only [hmod, hnum]
  generalize disk_read _ _ _ = r
  cases r <;> rfl

theorem fetch_sector_same_block (chain : clusters_chain_t) (v : volume_t) (p q : Nat)
    (h : p / 512 = q / 512) : fetch_sector chain v p = fetch_sector chain v q := by
  have e1 : ∀ x : Nat, x / (v.super_sector.sectors_per_cluster * SECTOR_SIZE)
      = x / 512 / v.super_sector.sectors_per_cluster := by
    intro x
    rw [Nat.div_div_eq_div_mul, Nat.mul_comm]
    rfl
  have e2 : ∀ x : Nat, x % (v.super_sector.sectors_per_cluster * SECTOR_SIZE) / SECTOR_SIZE
      = x / 512 % v.super_sector.sectors_per_cluster := by
    intro x
    exact Nat.mod_mul_left_div_self x 512 _
  unfold fetch_sector
  rw [e1 p, e1 q, e2 p, e2 q, h]

theorem fetch_sector_length (chain : clusters_chain_t) (v : volume_t) (p : Nat) (buf : List Nat)
    (h : fetch_sector chain v p = some (.ok buf)) : buf.length = 512 := by
  unfold fetch_sector at h
  split_ifs at h with h1
  simp only [Option.some.injEq] at h
  have := disk_read_length _ _ _ _ h
  simpa using this

theorem readable_run_length_le (chain : clusters_chain_t) (v : volume_t) :
    ∀ (n p : Nat), (readable_run chain v n p).length ≤ n := by
  intro n
  induction n with
  | zero => intro p; simp [readable_run]
  | succ n ih =>
    intro p
    rw [readable_run]
    split
    · simp only [List.length_cons]
      have := ih (p + 1)
      omega
    · simp

/-- Where a run stops short, no further byte can be fetched. -/
theorem readable_run_stop (chain : clusters_chain_t) (v : volume_t) :
    ∀ (n p : Nat), (readable_run chain v n p).length < n →
      ∀ m, readable_run chain v m (p + (readable_run chain v n p).length) = [] := by
  intro n
  induction n with
  | zero => intro p h; simp at h
  | succ n ih =>
    intro p h m
    rw [readable_run] at h ⊢
    split at h
    · rename_i buf hbuf
      simp only [hbuf, List.length_cons] at h ⊢
      have := ih (p + 1) (by omega) m
      rw [← this]
      congr 1
      omega
    · rename_i hno
      · simp only [List.length_nil, Nat.add_zero]
        cases m with
        | zero => rfl
        | succ m =>
          rw [readable_run]
          split
          · rename_i buf hbuf
            exact absurd hbuf (hno buf)
          · rfl

theorem readable_run_add (chain : clusters_chain_t) (v : volume_t) :
    ∀ (a b p : Nat), readable_run chain v (a + b) p =
      readable_run chain v a p ++
        (if (readable_run chain v a p).length = a then readable_run chain v b (p + a) else []) := by
  intro a
  induction a with
  | zero => intro b p; simp [readable_run]
  | succ a ih =>
    intro b p
    have e : a + 1 + b = (a + b) + 1 := by omega
    rw [e, readable_run, readable_run]
    split
    · rw [ih b (p + 1)]
      simp only [List.cons_append, List.length_cons, Nat.add_right_cancel_iff]
      have e2 : p + 1 + a = p + (a + 1) := by omega
      rw [e2]
    · simp

/-- The bytes one pass of the loop copies from a fetched sector are the next bytes of the
run. -/
theorem readable_run_chunk (chain : clusters_chain_t) (v : volume_t) (buf : List Nat)
    (hlen : buf.length = 512) :
    ∀ (j p m : Nat), j ≤ 512 - p % 512 →
      (j ≠ 0 → fetch_sector chain v p = some (.ok buf)) →
      readable_run chain v (j + m) p =
        (buf.drop (p % 512)).take j ++ readable_run chain v m (p + j) := by
  intro j
  induction j with
  | zero => intro p m _ _; simp
  | succ j ih =>
    intro p m hj hf
    have hfp := hf (by omega)
    have hp : p % 512 < buf.length := by
      rw [hlen]
      exact Nat.mod_lt _ (by decide)
    have e : j + 1 + m = (j + m) + 1 := by omega
    rw [e, readable_run, hfp]
    simp only [SECTOR_SIZE]
    have hih := ih (p + 1) m (by omega) (fun hj0 => by
      rw [← hfp]
      exact fetch_sector_same_block _ _ _ _ (by omega))
    rw [hih, List.drop_eq_getElem_cons hp, List.take_succ_cons, List.cons_append]
    have e2 : p + 1 + j = p + (j + 1) := by omega
    rw [e2]
    have e3 : buf.getD (p % 512) 0 = buf[p % 512] := by
      rw [List.getD_eq_getElem?_getD, List.getElem?_eq_getElem hp]
      rfl
    rw [e3]
    congr 2
    by_cases hj0 : j = 0
    · subst hj0
      simp
    · have : (p + 1) % 512 = p % 512 + 1 := by omega
      rw [this]

theorem take_drop_length (buf : List Nat) (k j : Nat) (h : k + j ≤ buf.length) :
    ((buf.drop k).take j).length = j := by
  simp only [List.length_take, List.length_drop]
  omega

theorem volume_at_disk_after (v : volume_t) (s n : Int) (P : Nat) :
    volume_at ({ v with disk := disk_after v.disk s n } : volume_t) P = volume_at v P := by
  rw [volume_disk_after]
  rfl

theorem fetch_moved_eq (chain : clusters_chain_t) (stream : file_t) :
    fetch_moved chain stream =
      { stream with
        volume := volume_at stream.volume
          (disk_after stream.volume.disk
            (fetch_arg chain stream.volume stream.position) 1).pos } := by
  unfold fetch_moved
  rw [volume_disk_after]

/-- What every run of the loop of `file_read` keeps: the bytes appended, `offset` and the
position advance by the same number `k`, the record and the chain of the handle stay, the
volume changes in the position of the stream of its disk only, and a `return -1` comes with
`offset = 0` and nothing appended. -/
theorem file_read_loop_inv (chain : clusters_chain_t) (R : Nat) (hR : R < 4294967296) :
    ∀ (fuel : Nat) (st : read_state), st.offset ≤ R →
      st.stream.position + (R - st.offset) < 4294967296 →
      ∃ (k P : Nat), k ≤ R - st.offset ∧
        (file_read_loop chain R fuel st).2.offset = st.offset + k ∧
        (file_read_loop chain R fuel st).2.data.length = st.data.length + k ∧
        (file_read_loop chain R fuel st).2.stream =
          { st.stream with
            position := st.stream.position + k
            volume := volume_at st.stream.volume P } ∧
        ((file_read_loop chain R fuel st).1 = none ∨
          ((file_read_loop chain R fuel st).1 = some Errno.ERANGE ∧ st.offset = 0 ∧ k = 0)) := by
  intro fuel
  induction fuel with
  | zero =>
    intro st _ _
    exact ⟨0, st.stream.volume.disk.pos, Nat.zero_le _, rfl, rfl, rfl, Or.inl rfl⟩
  | succ fuel ih =>
    intro st ho hp
    rw [file_read_loop, file_read_iteration_eq]
    by_cases h1 : st.offset < R
    swap
    · rw [if_pos h1]
      exact ⟨0, st.stream.volume.disk.pos, Nat.zero_le _, rfl, rfl, rfl, Or.inl rfl⟩
    rw [if_neg (not_not.mpr h1)]
    cases hfetch : fetch_sector chain st.stream.volume st.stream.position with
    | none =>
      exact ⟨0, st.stream.volume.disk.pos, Nat.zero_le _, rfl, rfl, rfl, Or.inl rfl⟩
    | some r =>
      cases r with
      | error e =>
        by_cases h0 : st.offset = 0
        · simp only
          rw [if_pos h0]
          exact ⟨0, (disk_after st.stream.volume.disk
            (fetch_arg chain st.stream.volume st.stream.position) 1).pos, Nat.zero_le _, rfl, rfl,
            fetch_moved_eq chain st.stream, Or.inr ⟨rfl, h0, rfl⟩⟩
        · simp only
          rw [if_neg h0]
          exact ⟨0, (disk_after st.stream.volume.disk
            (fetch_arg chain st.stream.volume st.stream.position) 1).pos, Nat.zero_le _, rfl, rfl,
            fetch_moved_eq chain st.stream, Or.inl rfl⟩
      | ok buf =>
        have hlen := fetch_sector_length _ _ _ _ hfetch
        have hm : st.stream.position % 512 < 512 := Nat.mod_lt _ (by decide)
        simp only [SECTOR_SIZE]
        generalize hnum : min (R - st.offset) (512 - st.stream.position % 512) = num
        have hn1 : 1 ≤ num := by omega
        have hn2 : num ≤ R - st.offset := by omega
        have hn3 : num ≤ 512 - st.stream.position % 512 := by omega
        have eo : (st.offset + num) % 4294967296 = st.offset + num :=
          Nat.mod_eq_of_lt (by omega)
        have ep : (st.stream.position + num) % 4294967296 = st.stream.position + num :=
          Nat.mod_eq_of_lt (by omega)
        rw [eo, ep]
        obtain ⟨k, P, hk, hoff, hdata, hstream, hret⟩ := ih
          { offset := st.offset + num
            data := st.data ++ (buf.drop (st.stream.position % 512)).take num
            stream := { fetch_moved chain st.stream with
              position := st.stream.position + num } }
          (by simp only; omega) (by simp only; omega)
        have hcl : ((buf.drop (st.stream.position % 512)).take num).length = num :=
          take_drop_length _ _ _ (by omega)
        simp only at hk hoff hdata hstream hret
        refine ⟨num + k, P, by omega, ?_, ?_, ?_, ?_⟩
        · rw [hoff]
          omega
        · rw [hdata, List.length_append, hcl]
          omega
        · rw [hstream, fetch_moved_eq]
          simp only [volume_at_volume_at, Nat.add_assoc]
        · rcases hret with h | ⟨_, h, _⟩
          · exact Or.inl h
          · omega

theorem file_read_no_chain (size nmemb : Nat) (stream : file_t)
    (h : stream.chain = none ∨ ∃ c, stream.chain = some c ∧ c.size = 0) :
    file_read size nmemb stream = ⟨.ok 0, [], stream⟩ := by
  unfold file_read
  by_cases h0 : size = 0 ∨ nmemb = 0
  · rw [if_pos h0]
  rw [if_neg h0]
  rcases h with h | ⟨c, h, hc⟩
  · rw [h]
  · rw [h]
    simp only [hc, if_true]

/-- What a call of `file_read` leaves on a handle with its cursor inside the file: either it
returns -1 with nothing stored and the cursor where it was, or it returns the number of bytes
stored divided by `size` with the cursor advanced by the number of bytes stored, which stays
inside the file.  The record and the chain of the handle stay, and the volume changes in the
position `P` of the stream of its disk only. -/
theorem file_read_outcome (size nmemb : Nat) (stream : file_t)
    (hp : stream.position ≤ stream.entry.size) (hS : stream.entry.size < 4294967296) :
    ∃ P : Nat,
      ((file_read size nmemb stream).ret = .error Errno.ERANGE ∧
        (file_read size nmemb stream).data = [] ∧
        (file_read size nmemb stream).stream
          = { stream with volume := volume_at stream.volume P }) ∨
      ((file_read size nmemb stream).ret
          = .ok ((file_read size nmemb stream).data.length / size) ∧
        (file_read size nmemb stream).stream
          = { stream with
              position := stream.position + (file_read size nmemb stream).data.length
              volume := volume_at stream.volume P } ∧
        stream.position + (file_read size nmemb stream).data.length ≤ stream.entry.size) := by
  have hquiet : file_read size nmemb stream = ⟨.ok 0, [], stream⟩ →
      ∃ P : Nat,
      ((file_read size nmemb stream).ret = .error Errno.ERANGE ∧
        (file_read size nmemb stream).data = [] ∧
        (file_read size nmemb stream).stream
          = { stream with volume := volume_at stream.volume P }) ∨
      ((file_read size nmemb stream).ret
          = .ok ((file_read size nmemb stream).data.length / size) ∧
        (file_read size nmemb stream).stream
          = { stream with
              position := stream.position + (file_read size nmemb stream).data.length
              volume := volume_at stream.volume P } ∧
        stream.position + (file_read size nmemb stream).data.length ≤ stream.entry.size) := by
    intro h
    rw [h]
    refine ⟨stream.volume.disk.pos, Or.inr ⟨?_, rfl, hp⟩⟩
    show Except.ok 0 = Except.ok (0 / size)
    rw [Nat.zero_div]
  by_cases hc : stream.chain = none ∨ ∃ c, stream.chain = some c ∧ c.size = 0
  · exact hquiet (file_read_no_chain size nmemb stream hc)
  obtain ⟨chain, hchain, hcs⟩ : ∃ c, stream.chain = some c ∧ c.size ≠ 0 := by
    cases hsc : stream.chain with
    | none => exact absurd (Or.inl hsc) hc
    | some c => exact ⟨c, rfl, fun h0 => hc (Or.inr ⟨c, hsc, h0⟩)⟩
  have hbif : to_uint32 ((stream.entry.size : Int) - stream.position)
      = stream.entry.size - stream.position := by
    have := to_uint32_eq ((stream.entry.size : Int) - stream.position)
    omega
  by_cases h0 : size = 0 ∨ nmemb = 0
  · apply hquiet
    unfold file_read
    rw [if_pos h0]
  by_cases hb : stream.entry.size - stream.position = 0
  · apply hquiet
    unfold file_read
    rw [if_neg h0, hchain]
    simp only [hcs, if_false, hbif, hb, if_true]
  generalize hRdef : (if size * nmemb % 18446744073709551616 > stream.entry.size - stream.position
      then stream.entry.size - stream.position else size * nmemb % 18446744073709551616) = R
  have hRle : R ≤ stream.entry.size - stream.position := by
    rw [← hRdef]
    split_ifs <;> omega
  have hfr : file_read size nmemb stream =
      match file_read_loop chain R R ⟨0, [], stream⟩ with
      | (some e, st) => ⟨.error e, [], st.stream⟩
      | (none, st) => ⟨.ok (st.offset / size), st.data, st.stream⟩ := by
    unfold file_read
    rw [if_neg h0, hchain]
    simp only [hcs, if_false, hbif, hb, hRdef]
  obtain ⟨k, P, hk, hoff, hdata, hstream, hret⟩ :=
    file_read_loop_inv chain R (by omega) R ⟨0, [], stream⟩ (Nat.zero_le _)
      (by simp only; omega)
  simp only [Nat.zero_add, List.length_nil, Nat.sub_zero] at hk hoff hdata hstream hret
  refine ⟨P, ?_⟩
  rw [hfr]
  generalize file_read_loop chain R R ⟨0, [], stream⟩ = res at hoff hdata hstream hret
  obtain ⟨e, st⟩ := res
  simp only at hoff hdata hstream hret
  rcases hret with h | ⟨h, -, hk0⟩
  · subst h
    right
    simp only
    rw [hoff, hdata, hstream]
    exact ⟨rfl, rfl, by omega⟩
  · subst h
    subst hk0
    left
    simp only
    rw [hstream]
    exact ⟨trivial, trivial, rfl⟩

/-- C3. On a handle with `position ≤ entry.size`, for every `size` and `nmemb`, a
`file_read` that succeeds returns at most `entry.size - position`, and the call stores at
most that many bytes into the output. -/
theorem file_read_bounded (size nmemb : Nat) (stream : file_t)
    (hp : stream.position ≤ stream.entry.size) (hS : stream.entry.size < 4294967296) :
    (∀ n, (file_read size nmemb stream).ret = .ok n →
        n ≤ stream.entry.size - stream.position) ∧
      (file_read size nmemb stream).data.length ≤ stream.entry.size - stream.position := by
  obtain ⟨P, ⟨hret, hdata, -⟩ | ⟨hret, -, hle⟩⟩ := file_read_outcome size nmemb stream hp hS
  · refine ⟨?_, ?_⟩
    · intro n hn
      rw [hret] at hn
      cases hn
    · rw [hdata]
      exact Nat.zero_le _
  · refine ⟨?_, by omega⟩
    intro n hn
    rw [hret] at hn
    simp only [Except.ok.injEq] at hn
    have := Nat.div_le_self (file_read size nmemb stream).data.length size
    omega

set_option maxRecDepth 100000 in
/-- C3, on the sample volume: a handle of size 100 at position 40 asked for 200 bytes
delivers 60. -/
theorem file_read_bounded_witness :
    ((∀ n, (file_read 1 200 (sample_handle 100 40)).ret = .ok n →
        n ≤ (sample_handle 100 40).entry.size - (sample_handle 100 40).position) ∧
      (file_read 1 200 (sample_handle 100 40)).data.length
        ≤ (sample_handle 100 40).entry.size - (sample_handle 100 40).position) ∧
    (file_read 1 200 (sample_handle 100 40)).ret = .ok 60 :=
  ⟨file_read_bounded 1 200 (sample_handle 100 40) (by decide) (by decide), by decide!⟩

theorem read_state_eta (st : read_state) (v : volume_t) (p : Nat)
    (hv : st.stream.volume = volume_at v p) :
    ({ offset := st.offset + 0, data := st.data ++ [],
       stream := { st.stream with
         position := st.stream.position + 0
         volume := volume_at v p } } : read_state) = st := by
  obtain ⟨o, d, ⟨sv, se, sp, sc⟩⟩ := st
  simp only at hv
  subst hv
  simp

/-- What the loop of `file_read` leaves, in terms of the readable run, where no sector fetch
of the run depends on the position of the stream of the disk: either the first fetch fails
with nothing copied yet (`return -1`), or the bytes of the run have been appended and
`offset` and `position` advanced by their number.  The volume `v` is the volume of the
handle up to the position of the stream. -/
theorem file_read_loop_spec (chain : clusters_chain_t) (v : volume_t) (R : Nat)
    (hR : R < 4294967296) :
    ∀ (fuel : Nat) (st : read_state), R - st.offset ≤ fuel → st.offset ≤ R →
      st.stream.position + (R - st.offset) < 4294967296 →
      (∃ p, st.stream.volume = volume_at v p) →
      (∀ q, st.stream.position ≤ q → q < st.stream.position + (R - st.offset) →
        ∀ p, fetch_sector chain (volume_at v p) q = fetch_sector chain v q) →
      ∃ P : Nat, file_read_loop chain R fuel st =
        if st.offset = 0 ∧ 0 < R ∧ first_fetch_fails chain v st.stream.position = true then
          (some Errno.ERANGE,
            { st with stream := { st.stream with volume := volume_at v P } })
        else
          (none,
            { offset := st.offset +
                (readable_run chain v (R - st.offset) st.stream.position).length
              data := st.data ++ readable_run chain v (R - st.offset) st.stream.position
              stream := { st.stream with
                position := st.stream.position +
                  (readable_run chain v (R - st.offset) st.stream.position).length
                volume := volume_at v P } }) := by
  intro fuel
  induction fuel with
  | zero =>
    intro st hf ho _ hv _
    obtain ⟨p, hv⟩ := hv
    have hz : R - st.offset = 0 := by omega
    refine ⟨p, ?_⟩
    rw [file_read_loop, if_neg (by omega), hz]
    simp only [readable_run, List.length_nil]
    rw [read_state_eta st v p hv]
  | succ fuel ih =>
    intro st hf ho hp hv hfree
    obtain ⟨p, hv⟩ := hv
    rw [file_read_loop, file_read_iteration_eq]
    by_cases h1 : st.offset < R
    swap
    · have hz : R - st.offset = 0 := by omega
      refine ⟨p, ?_⟩
      rw [if_pos h1, if_neg (by omega), hz]
      simp only [readable_run, List.length_nil]
      rw [read_state_eta st v p hv]
    rw [if_neg (not_not.mpr h1)]
    obtain ⟨k, hk⟩ : ∃ k, R - st.offset = k + 1 := ⟨R - st.offset - 1, by omega⟩
    have hR0 : 0 < R := by omega
    have hfe : fetch_sector chain st.stream.volume st.stream.position
        = fetch_sector chain v st.stream.position := by
      rw [hv]
      exact hfree _ (Nat.le_refl _) (by omega) p
    have hmoved : fetch_moved chain st.stream =
        { st.stream with
          volume := volume_at v (disk_after st.stream.volume.disk
            (fetch_arg chain st.stream.volume st.stream.position) 1).pos } := by
      rw [fetch_moved_eq, hv]
      rfl
    rw [hfe]
    cases hfetch : fetch_sector chain v st.stream.position with
    | none =>
      have hff : first_fetch_fails chain v st.stream.position = false := by
        simp [first_fetch_fails, hfetch]
      refine ⟨p, ?_⟩
      simp only [hff, Bool.false_eq_true, and_false, if_false, hk, readable_run, hfetch,
        List.length_nil]
      rw [read_state_eta st v p hv]
    | some r =>
      cases r with
      | error e =>
        have hff : first_fetch_fails chain v st.stream.position = true := by
          simp [first_fetch_fails, hfetch]
        refine ⟨(disk_after st.stream.volume.disk
            (fetch_arg chain st.stream.volume st.stream.position) 1).pos, ?_⟩
        rw [hmoved]
        by_cases h0 : st.offset = 0
        · simp only [h0, hff, hR0, and_self, if_true]
        · simp only [h0, false_and, if_false, hk, readable_run, hfetch, List.length_nil,
            Nat.add_zero, List.append_nil]
      | ok buf =>
        have hff : first_fetch_fails chain v st.stream.position = false := by
          simp [first_fetch_fails, hfetch]
        have hlen := fetch_sector_length _ _ _ _ hfetch
        have hm : st.stream.position % 512 < 512 := Nat.mod_lt _ (by decide)
        simp only [SECTOR_SIZE]
        generalize hnum : min (R - st.offset) (512 - st.stream.position % 512) = num
        have hn1 : 1 ≤ num := by omega
        have hn2 : num ≤ R - st.offset := by omega
        have hn3 : num ≤ 512 - st.stream.position % 512 := by omega
        have eo : (st.offset + num) % 4294967296 = st.offset + num :=
          Nat.mod_eq_of_lt (by omega)
        have ep : (st.stream.position + num) % 4294967296 = st.stream.position + num :=
          Nat.mod_eq_of_lt (by omega)
        rw [eo, ep, hmoved]
        obtain ⟨P, hP⟩ := ih
          { offset := st.offset + num
            data := st.data ++ (buf.drop (st.stream.position % 512)).take num
            stream :=
              { volume := volume_at v (disk_after st.stream.volume.disk
                  (fetch_arg chain st.stream.volume st.stream.position) 1).pos
                entry := st.stream.entry
                position := st.stream.position + num
                chain := st.stream.chain } }
          (by simp only; omega) (by simp only; omega) (by simp only; omega)
          ⟨_, rfl⟩
          (fun q hq1 hq2 => hfree q (by simp only at hq1; omega) (by simp only at hq2; omega))
        refine ⟨P, ?_⟩
        rw [hP]
        have hne : ¬ (st.offset + num = 0) := by omega
        simp only [hne, false_and, if_false, hff, Bool.false_eq_true, and_false]
        have hsplit : R - st.offset = num + (R - (st.offset + num)) := by omega
        have hchunk := readable_run_chunk chain v buf hlen num st.stream.position
          (R - (st.offset + num)) hn3 (fun _ => hfetch)
        rw [hsplit, hchunk]
        have hcl : ((buf.drop (st.stream.position % 512)).take num).length = num :=
          take_drop_length _ _ _ (by omega)
        simp only [List.length_append, hcl, List.append_assoc, Nat.add_assoc]

/-- What `file_read` delivers on a handle with a non-empty chain and its cursor inside the
file, where no sector fetch of the read depends on the position of the stream of the disk:
nothing and -1 when the first sector fetch fails, otherwise the readable run of the
effective count, the cursor advanced by its length, and that length divided by `size` as
the value returned.  The volume of the handle changes in the position `P` of the stream of
its disk only. -/
theorem file_read_spec (size nmemb : Nat) (stream : file_t) (chain : clusters_chain_t)
    (hchain : stream.chain = some chain) (hcs : chain.size ≠ 0)
    (hp : stream.position ≤ stream.entry.size) (hS : stream.entry.size < 4294967296)
    (hfree : ∀ q, stream.position ≤ q →
      q < stream.position + effective_count size nmemb stream →
      ∀ p, fetch_sector chain (volume_at stream.volume p) q
        = fetch_sector chain stream.volume q) :
    ∃ P : Nat, file_read size nmemb stream =
      if 0 < effective_count size nmemb stream ∧
          first_fetch_fails chain stream.volume stream.position = true then
        ⟨.error Errno.ERANGE, [], { stream with volume := volume_at stream.volume P }⟩
      else
        ⟨.ok ((readable_run chain stream.volume (effective_count size nmemb stream)
            stream.position).length / size),
          readable_run chain stream.volume (effective_count size nmemb stream) stream.position,
          { stream with
            position := stream.position +
              (readable_run chain stream.volume (effective_count size nmemb stream)
                stream.position).length
            volume := volume_at stream.volume P }⟩ := by
  obtain ⟨v, e, p, c⟩ := stream
  simp only at hchain hp hS hfree
  subst hchain
  have hbif : to_uint32 ((e.size : Int) - p) = e.size - p := by
    have := to_uint32_eq ((e.size : Int) - p)
    omega
  unfold file_read
  by_cases h0 : size = 0 ∨ nmemb = 0
  · have hz : effective_count size nmemb ⟨v, e, p, some chain⟩ = 0 := by
      unfold effective_count
      rcases h0 with h | h <;> simp [h]
    refine ⟨v.disk.pos, ?_⟩
    rw [if_pos h0, hz]
    simp only [Nat.lt_irrefl, false_and, if_false, readable_run, List.length_nil,
      Nat.zero_div, Nat.add_zero]
    rfl
  rw [if_neg h0]
  simp only [hcs, if_false, hbif]
  by_cases hb : e.size - p = 0
  · have hz : effective_count size nmemb ⟨v, e, p, some chain⟩ = 0 := by
      unfold effective_count
      simp only
      rw [hb]
      exact Nat.min_eq_right (Nat.zero_le _)
    refine ⟨v.disk.pos, ?_⟩
    rw [if_pos hb, hz]
    simp only [Nat.lt_irrefl, false_and, if_false, readable_run, List.length_nil,
      Nat.zero_div, Nat.add_zero]
    rfl
  rw [if_neg hb]
  have hrt : (if size * nmemb % 18446744073709551616 > e.size - p
      then e.size - p else size * nmemb % 18446744073709551616)
      = effective_count size nmemb ⟨v, e, p, some chain⟩ := by
    unfold effective_count
    simp only
    split_ifs <;> omega
  rw [hrt]
  have hle : effective_count size nmemb ⟨v, e, p, some chain⟩ ≤ e.size - p := by
    unfold effective_count
    exact Nat.min_le_right _ _
  obtain ⟨P, hP⟩ := file_read_loop_spec chain v
    (effective_count size nmemb ⟨v, e, p, some chain⟩) (by omega)
    (effective_count size nmemb ⟨v, e, p, some chain⟩) ⟨0, [], ⟨v, e, p, some chain⟩⟩
    (Nat.le_refl _) (Nat.zero_le _) (by simp only; omega) ⟨v.disk.pos, rfl⟩
    (fun q hq1 hq2 => hfree q hq1 hq2)
  refine ⟨P, ?_⟩
  rw [hP]
  simp only [true_and, Nat.sub_zero, Nat.zero_add, List.nil_append]
  split_ifs <;> rfl

theorem readable_run_of_fails (chain : clusters_chain_t) (v : volume_t) (n p : Nat)
    (h : first_fetch_fails chain v p = true) : readable_run chain v n p = [] := by
  cases n with
  | zero => rfl
  | succ n =>
    unfold first_fetch_fails at h
    rw [readable_run]
    split
    · rename_i buf hbuf
      rw [hbuf] at h
      simp at h
    · rfl

/-- The bytes stored and the handle left by `file_read`, whether it succeeds or returns -1,
where no sector fetch of the read depends on the position of the stream of the disk: the
readable run of the effective count, and the cursor advanced by its length. -/
theorem file_read_data_stream (size nmemb : Nat) (stream : file_t) (chain : clusters_chain_t)
    (hchain : stream.chain = some chain) (hcs : chain.size ≠ 0)
    (hp : stream.position ≤ stream.entry.size) (hS : stream.entry.size < 4294967296)
    (hfree : ∀ q, stream.position ≤ q →
      q < stream.position + effective_count size nmemb stream →
      ∀ p, fetch_sector chain (volume_at stream.volume p) q
        = fetch_sector chain stream.volume q) :
    ∃ P : Nat,
      (file_read size nmemb stream).data =
        readable_run chain stream.volume (effective_count size nmemb stream) stream.position ∧
      (file_read size nmemb stream).stream =
        { stream with
          position := stream.position +
            (readable_run chain stream.volume (effective_count size nmemb stream)
              stream.position).length
          volume := volume_at stream.volume P } := by
  obtain ⟨P, hP⟩ := file_read_spec size nmemb stream chain hchain hcs hp hS hfree
  refine ⟨P, ?_⟩
  rw [hP]
  split_ifs with hf
  · rw [readable_run_of_fails _ _ _ _ hf.2]
    exact ⟨rfl, rfl⟩
  · exact ⟨rfl, rfl⟩

/-- A sector that lies inside an image smaller than `2^31` bytes is read, wherever the
stream of the disk stands, and the buffer holds the bytes of the image at
`[512 S, 512 (S + n))`. -/
theorem disk_read_succeeds (d : disk_t) (S n : Nat) (hn : 0 < n)
    (hsize : d.size = d.file.length) (hsmall : d.file.length < 2147483648)
    (hin : (S + n) * 512 ≤ d.file.length) :
    disk_read d (S : Int) (n : Int)
      = .ok (((d.file.drop (S * 512)).take (n * 512)).map (· % 256)) := by
  unfold disk_read
  have e1 : to_int32 (to_int32 ((S : Int) + (n : Int)) * (SECTOR_SIZE : Nat))
      = (((S + n) * 512 : Nat) : Int) := by
    simp only [to_int32_eq, SECTOR_SIZE]
    push_cast
    omega
  have e2 : to_int32 ((d.size : Nat) : Int) = (d.file.length : Int) := by
    rw [to_int32_eq, hsize]
    omega
  have e3 : to_int32 ((S : Int) * (SECTOR_SIZE : Nat)) = ((S * 512 : Nat) : Int) := by
    simp only [to_int32_eq, SECTOR_SIZE]
    push_cast
    omega
  rw [if_neg (by omega), e1, e2, if_neg (by omega), e3]
  have hneg : ¬ (((S * 512 : Nat) : Int) < 0) := by omega
  have hitems : min n ((d.file.length - S * 512) / 512) = n := by
    have : n ≤ (d.file.length - S * 512) / 512 := by
      rw [Nat.le_div_iff_mul_le (by decide)]
      omega
    omega
  simp only [fread_at, seek_set, Int.toNat_ofNat, SECTOR_SIZE, hneg, if_false, hitems, ne_eq,
    not_true_eq_false]

theorem file_open_scan_position (fuel : Nat) (pvolume : volume_t) (root_buffer file_name : List Nat) :
    ∀ (n i : Nat) (f : file_t),
      file_open_scan fuel pvolume root_buffer file_name n i = some (.ok f) →
      f.position = 0 ∧ f.volume = pvolume := by
  intro n
  induction n with
  | zero => intro i f h; simp [file_open_scan] at h
  | succ n ih =>
    intro i f h
    rw [file_open_scan] at h
    split_ifs at h with h1 h2 h3 h4
    · simp at h
    · exact ih _ _ h
    · simp at h
    · split at h
      · simp at h
      · simp only [Option.some.injEq, Except.ok.injEq] at h
        rw [← h]
        exact ⟨rfl, rfl⟩
    · exact ih _ _ h

/-- The handle `file_open` returns is at position 0, on the volume as the read of the root
directory has left it. -/
theorem file_open_position (fuel : Nat) (pvolume : volume_t) (file_name : List Nat) (f : file_t)
    (h : file_open fuel pvolume file_name = some (.ok f)) :
    f.position = 0 ∧ f.volume = root_moved pvolume := by
  unfold file_open at h
  simp only at h
  split at h
  · simp at h
  · exact file_open_scan_position _ _ _ _ _ _ _ h

theorem root_moved_eq (pvolume : volume_t) :
    root_moved pvolume = volume_at pvolume (root_moved pvolume).disk.pos := by
  exact volume_disk_after pvolume (to_int32 (root_start pvolume))
    (to_int32 pvolume.root_dir_sectors)

theorem chain_count_none_iff (buffer : List Nat) (size : Nat) :
    ∀ (fuel c count : Nat),
      chain_count buffer size fuel (c * 2) (fat_entry buffer c) count = none ↔
        ∀ j, j < fuel → ¬ walk_stops buffer size (walk buffer c j) := by
  intro fuel
  induction fuel with
  | zero => intro c count; simp [chain_count]
  | succ fuel ih =>
    intro c count
    rw [chain_count]
    by_cases hs : walk_stops buffer size c
    · have hr : ¬ ∀ j, j < fuel + 1 → ¬ walk_stops buffer size (walk buffer c j) :=
        fun h => h 0 (by omega) hs
      simp only [hr, iff_false]
      unfold walk_stops is_link at hs
      split_ifs with h1 h2 h3
      · simp
      · simp
      · simp
      · exfalso
        rcases hs with hs | hs
        · exact h1 hs
        · exact hs ⟨h2, h3⟩
    · have hs' := hs
      unfold walk_stops is_link at hs
      have h1 : ¬ c * 2 + 2 > size := fun h => hs (Or.inl h)
      have h23 : ¬ (fat_entry buffer c = FAT16_BAD_CLUSTER ∨
          fat_entry buffer c = FAT16_FREE_CLUSTER ∨ fat_entry buffer c = 0x0001) ∧
          ¬ fat_entry buffer c ≥ FAT16_EOC_MIN := by
        by_contra h
        exact hs (Or.inr h)
      rw [if_neg h1, if_neg h23.1, if_neg h23.2]
      have e := ih (fat_entry buffer c) ((count + 1) % 65536)
      have e' : chain_count buffer size fuel (fat_entry buffer c * 2)
          (read_u16 buffer (fat_entry buffer c * 2)) ((count + 1) % 65536) = none ↔
          ∀ j, j < fuel → ¬ walk_stops buffer size (walk buffer (fat_entry buffer c) j) := e
      rw [e']
      constructor
      · intro h j hj
        cases j with
        | zero => exact hs'
        | succ j => exact h j (by omega)
      · intro h j hj
        exact h (j + 1) (by omega)

theorem get_chain_fat16_none_iff (fuel : Nat) (buffer : List Nat) (size s : Nat)
    (hg : ¬ (s < 2 ∨ size % 2 ≠ 0 ∨ size < 4)) :
    get_chain_fat16 fuel buffer size s = none ↔
      s * 2 + 2 ≤ size ∧ ∀ j, j < fuel → ¬ walk_stops buffer size (walk buffer s j) := by
  unfold get_chain_fat16
  rw [if_neg hg]
  simp only
  split_ifs with h2
  · simp only [false_iff, reduceCtorEq]
    omega
  · have e := chain_count_none_iff buffer size fuel s 1
    have e' : chain_count buffer size fuel (s * 2) (read_u16 buffer (s * 2)) 1 = none ↔
        ∀ j, j < fuel → ¬ walk_stops buffer size (walk buffer s j) := e
    rw [← e']
    split
    · rename_i h; simp [h]; omega
    · rename_i h; simp [h]
    · rename_i n h; simp [h]

theorem get_chain_fat16_members (fuel : Nat) (buffer : List Nat) (size s : Nat)
    (c : clusters_chain_t) (hs : s < 65536)
    (h : get_chain_fat16 fuel buffer size s = some (some c)) :
    2 ≤ s ∧ ∃ k, k < fuel ∧ ends_after buffer size s k ∧ c.size = k + 1 ∧
      c.clusters.length = k + 1 ∧ ∀ j, j ≤ k → c.clusters.getD j 0 = walk buffer s j := by
  unfold get_chain_fat16 at h
  split_ifs at h with h1
  · simp at h
  · simp only at h
    split_ifs at h with h2
    · simp at h
    have hs2 : 2 ≤ s := by omega
    split at h
    · simp at h
    · simp at h
    · rename_i count hcount
      simp only [Option.some.injEq] at h
      obtain ⟨k, hkf, hends, hn⟩ :=
        chain_count_some buffer size fuel s 1 count (by decide) hcount
      have hk := ends_after_short buffer size s k hs2 hs hends
      have hcnt : count = k + 1 := by omega
      subst h
      simp only
      refine ⟨hs2, k, hkf, hends, hcnt, ?_, ?_⟩
      · rw [chain_fill_length, hcnt]
      · intro j hj
        exact chain_fill_getD buffer count count 0 s j (by omega) (by omega)

theorem ends_after_stops (buffer : List Nat) (size c k : Nat)
    (h : ends_after buffer size c k) :
    (∀ j, j < k → ¬ walk_stops buffer size (walk buffer c j)) ∧
      walk_stops buffer size (walk buffer c k) := by
  constructor
  · intro j hj hst
    have := h.1 j hj
    rcases hst with hst | hst
    · omega
    · exact hst this.2
  · right
    intro hl
    exact hl.2 h.2.2

theorem first_stop_unique (buffer : List Nat) (size c k k' : Nat)
    (h1 : ∀ j, j < k → ¬ walk_stops buffer size (walk buffer c j))
    (h2 : walk_stops buffer size (walk buffer c k))
    (h1' : ∀ j, j < k' → ¬ walk_stops buffer size (walk buffer c j))
    (h2' : walk_stops buffer size (walk buffer c k')) : k = k' := by
  rcases Nat.lt_trichotomy k k' with h | h | h
  · exact absurd h2 (h1' k h)
  · exact h
  · exact absurd h2' (h1 k' h)

theorem first_stop_distinct (buffer : List Nat) (size c k : Nat)
    (h1 : ∀ j, j < k → ¬ walk_stops buffer size (walk buffer c j))
    (h2 : walk_stops buffer size (walk buffer c k)) (i j : Nat) (hij : i < j) (hj : j ≤ k) :
    walk buffer c i ≠ walk buffer c j := by
  intro heq
  have e1 : walk buffer c (i + (k - j)) = walk buffer c k := by
    rw [walk_add, heq, ← walk_add]
    congr 1
    omega
  have hl := h1 (i + (k - j)) (by omega)
  rw [e1] at hl
  exact hl h2

theorem first_stop_short (buffer : List Nat) (size c k : Nat) (hc : c < 65536)
    (h1 : ∀ j, j < k → ¬ walk_stops buffer size (walk buffer c j))
    (h2 : walk_stops buffer size (walk buffer c k)) : k + 1 ≤ 65536 := by
  have hcard := Finset.card_le_card_of_injOn (s := Finset.range (k + 1))
    (t := Finset.range 65536) (fun j => walk buffer c j)
    (by
      intro j _
      apply Finset.mem_coe.mpr
      apply Finset.mem_range.mpr
      cases j with
      | zero => exact hc
      | succ j => show walk buffer c (j + 1) < 65536; rw [walk_succ]; exact fat_entry_lt _ _)
    (by
      intro i hi j hj heq
      have hi' : i < k + 1 := Finset.mem_range.mp hi
      have hj' : j < k + 1 := Finset.mem_range.mp hj
      by_contra hne
      rcases Nat.lt_or_gt_of_ne hne with hlt | hgt
      · exact first_stop_distinct buffer size c k h1 h2 i j hlt (by omega) heq
      · exact first_stop_distinct buffer size c k h1 h2 j i hgt (by omega) heq.symm)
  simpa using hcard

theorem exists_first_stop (buffer : List Nat) (size c : Nat) :
    ∀ k, walk_stops buffer size (walk buffer c k) →
      ∃ m, m ≤ k ∧ (∀ j, j < m → ¬ walk_stops buffer size (walk buffer c j)) ∧
        walk_stops buffer size (walk buffer c m) := by
  intro k
  induction k using Nat.strong_induction_on with
  | _ k ih =>
    intro hk
    by_cases hex : ∃ j, j < k ∧ walk_stops buffer size (walk buffer c j)
    · obtain ⟨j, hj, hst⟩ := hex
      obtain ⟨m, hm, hm1, hm2⟩ := ih j hj hst
      exact ⟨m, by omega, hm1, hm2⟩
    · exact ⟨k, le_refl _, fun j hj hst => hex ⟨j, hj, hst⟩, hk⟩

theorem walk_cyclic_fat (j : Nat) :
    ∀ c, (c = 2 ∨ c = 3) → (walk cyclic_fat c j = 2 ∨ walk cyclic_fat c j = 3) := by
  induction j with
  | zero => intro c hc; exact hc
  | succ j ih =>
    intro c hc
    simp only [walk]
    apply ih
    rcases hc with rfl | rfl
    · right; decide
    · left; decide

theorem chain_count_marker (buffer : List Nat) (size : Nat) :
    ∀ (k fuel c count : Nat), k < fuel →
      (∀ j, j < k → is_link (fat_entry buffer (walk buffer c j))) →
      is_marker (fat_entry buffer (walk buffer c k)) →
      chain_count buffer size fuel (c * 2) (fat_entry buffer c) count = some none := by
  intro k
  induction k with
  | zero =>
    intro fuel c count hf _ hm
    obtain ⟨f, rfl⟩ : ∃ f, fuel = f + 1 := ⟨fuel - 1, by omega⟩
    rw [chain_count]
    have hm' : fat_entry buffer c = FAT16_BAD_CLUSTER ∨
        fat_entry buffer c = FAT16_FREE_CLUSTER ∨ fat_entry buffer c = 0x0001 := hm
    split_ifs with h1
    · rfl
    · rfl
  | succ k ih =>
    intro fuel c count hf hl hm
    obtain ⟨f, rfl⟩ : ∃ f, fuel = f + 1 := ⟨fuel - 1, by omega⟩
    rw [chain_count]
    have h0 : is_link (fat_entry buffer c) := hl 0 (by omega)
    split_ifs with h1 h2 h3
    · rfl
    · rfl
    · exact absurd h3 h0.2
    · exact ih f (fat_entry buffer c) ((count + 1) % 65536) (by omega)
        (fun j hj => hl (j + 1) (by omega)) hm

/-- C12. If following the links from a starting cluster `s` reaches, after `k` entries
that are links (so before any entry `≥ 0xFFF8`), an entry equal to `0x0000`, `0x0001` or
`0xFFF7`, then `get_chain_fat16` returns `NULL` as soon as `k + 1` loop iterations are
allowed; so it does on every table that encodes `5 → 6, 6 → 0x0000` and on every table that
encodes `5 → 6, 6 → 0x0001`, with start 5. -/
theorem get_chain_fat16_marker_fails :
    (∀ (fuel : Nat) (buffer : List Nat) (size s k : Nat), k < fuel →
      (∀ j, j < k → is_link (fat_entry buffer (walk buffer s j))) →
      is_marker (fat_entry buffer (walk buffer s k)) →
        get_chain_fat16 fuel buffer size s = some none) ∧
    (∀ (fuel : Nat) (buffer : List Nat) (size : Nat), 2 ≤ fuel →
      read_u16 buffer 10 = 6 → (read_u16 buffer 12 = 0x0000 ∨ read_u16 buffer 12 = 0x0001) →
        get_chain_fat16 fuel buffer size 5 = some none) := by
  have key : ∀ (fuel : Nat) (buffer : List Nat) (size s k : Nat), k < fuel →
      (∀ j, j < k → is_link (fat_entry buffer (walk buffer s j))) →
      is_marker (fat_entry buffer (walk buffer s k)) →
        get_chain_fat16 fuel buffer size s = some none := by
    intro fuel buffer size s k hf hl hm
    unfold get_chain_fat16
    split_ifs with h1
    · rfl
    · have e := chain_count_marker buffer size k fuel s 1 hf hl hm
      have e' : chain_count buffer size fuel (s * 2) (read_u16 buffer (s * 2)) 1
          = some none := e
      simp only [e']
      split_ifs <;> rfl
  refine ⟨key, ?_⟩
  intro fuel buffer size hf h5 h6
  have e5 : fat_entry buffer 5 = 6 := h5
  apply key fuel buffer size 5 1 (by omega)
  · intro j hj
    obtain rfl : j = 0 := by omega
    simp only [walk, e5]
    unfold is_link
    decide
  · simp only [walk, e5]
    unfold is_marker fat_entry
    rcases h6 with h6 | h6
    · right; left; exact h6
    · right; right; exact h6

/-- C12, at two concrete tables of eight entries: `5 → 6, 6 → 0x0000` and
`5 → 6, 6 → 0x0001`. -/
theorem get_chain_fat16_marker_fails_witness :
    get_chain_fat16 4 (fat_bytes [0xFFF8, 0xFFFF, 0, 0, 0, 6, 0, 0]) 16 5 = some none ∧
    get_chain_fat16 4 (fat_bytes [0xFFF8, 0xFFFF, 0, 0, 0, 6, 1, 0]) 16 5 = some none :=
  ⟨get_chain_fat16_marker_fails.1 4 (fat_bytes [0xFFF8, 0xFFFF, 0, 0, 0, 6, 0, 0]) 16 5 1
      (by decide)
      (fun j hj => by
        obtain rfl : j = 0 := by omega
        unfold is_link
        decide)
      (by unfold is_marker; decide),
   get_chain_fat16_marker_fails.2 4 (fat_bytes [0xFFF8, 0xFFFF, 0, 0, 0, 6, 1, 0]) 16
      (by decide) (by decide) (by decide)⟩

/-- C20. `get_chain_fat16` returns at once (`NULL`) when the starting cluster is below 2 or
the table length is odd or below 4.  On every other input it terminates exactly when the
link walk from the starting cluster reaches, after finitely many steps, a cluster at which
it stops: one whose entry lies outside the table or is an end of chain or a marker.  Such
a walk has a first cluster at which it stops; if that one is reached after `k` links, the
clusters visited are pairwise distinct, `k + 1 ≤ 65536`, `k + 1` loop iterations give the
result, and a chain that is returned has `k + 1` members, so the 16-bit counter has not
wrapped.  On the table `2 → 3, 3 → 2` with start 2 no number of iterations gives a
result. -/
theorem get_chain_fat16_termination :
    (∀ (buffer : List Nat) (size s : Nat), (s < 2 ∨ size % 2 ≠ 0 ∨ size < 4) →
      ∀ fuel, get_chain_fat16 fuel buffer size s = some none) ∧
    (∀ (buffer : List Nat) (size s : Nat), ¬ (s < 2 ∨ size % 2 ≠ 0 ∨ size < 4) →
      ((∃ fuel, get_chain_fat16 fuel buffer size s ≠ none) ↔
        ∃ k, walk_stops buffer size (walk buffer s k))) ∧
    (∀ (buffer : List Nat) (size s k : Nat), walk_stops buffer size (walk buffer s k) →
      ∃ m, m ≤ k ∧ (∀ j, j < m → ¬ walk_stops buffer size (walk buffer s j)) ∧
        walk_stops buffer size (walk buffer s m)) ∧
    (∀ (buffer : List Nat) (size s k : Nat), s < 65536 →
      (∀ j, j < k → ¬ walk_stops buffer size (walk buffer s j)) →
      walk_stops buffer size (walk buffer s k) →
        (∀ i j, i < j → j ≤ k → walk buffer s i ≠ walk buffer s j) ∧ k + 1 ≤ 65536 ∧
        ∀ fuel, k + 1 ≤ fuel → ∃ r, get_chain_fat16 fuel buffer size s = some r ∧
          ∀ c, r = some c → c.size = k + 1 ∧ c.clusters.length = k + 1) ∧
    (∀ fuel, get_chain_fat16 fuel cyclic_fat 8 2 = none) := by
  refine ⟨?_, ?_, fun buffer size s k hk => exists_first_stop buffer size s k hk, ?_, ?_⟩
  · intro buffer size s hg fuel
    unfold get_chain_fat16
    rw [if_pos hg]
  · intro buffer size s hg
    constructor
    · rintro ⟨fuel, hf⟩
      rw [Ne, get_chain_fat16_none_iff fuel buffer size s hg] at hf
      by_cases hin : s * 2 + 2 ≤ size
      · by_contra hex
        exact hf ⟨hin, fun j _ hst => hex ⟨j, hst⟩⟩
      · exact ⟨0, Or.inl (by simp only [walk]; omega)⟩
    · rintro ⟨k, hk⟩
      refine ⟨k + 1, ?_⟩
      rw [Ne, get_chain_fat16_none_iff (k + 1) buffer size s hg]
      intro h
      exact h.2 k (by omega) hk
  · intro buffer size s k hs h1 h2
    refine ⟨first_stop_distinct buffer size s k h1 h2,
      first_stop_short buffer size s k hs h1 h2, ?_⟩
    intro fuel hf
    by_cases hg : s < 2 ∨ size % 2 ≠ 0 ∨ size < 4
    · refine ⟨none, ?_, by simp⟩
      unfold get_chain_fat16
      rw [if_pos hg]
    · cases hr : get_chain_fat16 fuel buffer size s with
      | none =>
        rw [get_chain_fat16_none_iff fuel buffer size s hg] at hr
        exact absurd h2 (hr.2 k (by omega))
      | some r =>
        refine ⟨r, rfl, ?_⟩
        intro c hc
        subst hc
        obtain ⟨-, k', -, hends, hsz, hlen, -⟩ :=
          get_chain_fat16_members fuel buffer size s c hs hr
        have hst := ends_after_stops buffer size s k' hends
        have hk : k = k' := first_stop_unique buffer size s k k' h1 h2 hst.1 hst.2
        rw [hk]
        exact ⟨hsz, hlen⟩
  · intro fuel
    rw [get_chain_fat16_none_iff fuel cyclic_fat 8 2 (by decide)]
    refine ⟨by decide, ?_⟩
    intro j _
    have e2 : fat_entry cyclic_fat 2 = 3 := by decide
    have e3 : fat_entry cyclic_fat 3 = 2 := by decide
    rcases walk_cyclic_fat j 2 (Or.inl rfl) with h | h
    · rw [h]
      unfold walk_stops is_link
      rw [e2]
      decide
    · rw [h]
      unfold walk_stops is_link
      rw [e3]
      decide

/-- C20, at the table `2 → 3, 3 → 0xFFFF` with start 2: the walk first stops after one
link. -/
theorem get_chain_fat16_termination_witness :
    (∀ i j, i < j → j ≤ 1 → walk (fat_bytes [0xFFF8, 0xFFFF, 3, 0xFFFF]) 2 i
        ≠ walk (fat_bytes [0xFFF8, 0xFFFF, 3, 0xFFFF]) 2 j) ∧ 1 + 1 ≤ 65536 ∧
      ∀ fuel, 1 + 1 ≤ fuel →
        ∃ r, get_chain_fat16 fuel (fat_bytes [0xFFF8, 0xFFFF, 3, 0xFFFF]) 8 2 = some r ∧
          ∀ c, r = some c → c.size = 1 + 1 ∧ c.clusters.length = 1 + 1 :=
  get_chain_fat16_termination.2.2.2.1 (fat_bytes [0xFFF8, 0xFFFF, 3, 0xFFFF]) 8 2 1
    (by decide)
    (fun j hj => by
      obtain rfl : j = 0 := by omega
      have e2 : fat_entry (fat_bytes [0xFFF8, 0xFFFF, 3, 0xFFFF]) 2 = 3 := by decide
      unfold walk_stops is_link
      simp only [walk, e2]
      decide)
    (by
      have e2 : fat_entry (fat_bytes [0xFFF8, 0xFFFF, 3, 0xFFFF]) 2 = 3 := by decide
      have e3 : fat_entry (fat_bytes [0xFFF8, 0xFFFF, 3, 0xFFFF]) 3 = 0xFFFF := by decide
      unfold walk_stops is_link
      simp only [walk, e2, e3]
      decide)

theorem getD_replicate_append (n : Nat) (l : List Nat) (i : Nat) :
    (List.replicate n 0 ++ l).getD (n + i) 0 = l.getD i 0 := by
  induction n with
  | zero => simp
  | succ n ih =>
    have : n + 1 + i = (n + i) + 1 := by omega
    rw [this, List.replicate_succ, List.cons_append, List.getD_cons_succ]
    exact ih

theorem read_u16_replicate_append (n : Nat) (l : List Nat) :
    read_u16 (List.replicate n 0 ++ l) n = read_u16 l 0 := by
  have h0 := getD_replicate_append n l 0
  have h1 := getD_replicate_append n l 1
  rw [Nat.add_zero] at h0
  unfold read_u16 byteAt
  rw [h0, h1]

theorem read_u16_bad_start_fat : read_u16 bad_start_fat 131054 = 0xFFFF := by
  unfold bad_start_fat
  rw [read_u16_replicate_append]
  decide

/-- C11, as it fails: on a table of 131056 bytes in which the entry of cluster `0xFFF7` is an
end of chain, the call with starting cluster `0xFFF7` returns the chain `[0xFFF7]`, whose
member is the bad-cluster marker. -/
theorem get_chain_fat16_bad_start :
    get_chain_fat16 1 bad_start_fat 131056 0xFFF7 = some (some ⟨[0xFFF7], 1⟩) ∧
      0xFFF7 ∈ [0xFFF7] ∧ 0xFFF7 = FAT16_BAD_CLUSTER := by
  refine ⟨?_, by simp, rfl⟩
  unfold get_chain_fat16
  rw [if_neg (by decide)]
  simp only
  rw [if_neg (by decide)]
  have e2 : (65527 * 2 : Nat) = 131054 := by norm_num
  rw [e2, read_u16_bad_start_fat]
  simp [chain_count, chain_fill, FAT16_BAD_CLUSTER, FAT16_FREE_CLUSTER, FAT16_EOC_MIN]

/-- C11, amended. The first member of a chain returned by `get_chain_fat16` is the starting
cluster and is at least 2; every later member lies between 2 and `0xFFF6`.  So no member
equals `0x0000` or `0x0001`, no member after the first equals `0xFFF7`, and no member at all
equals `0xFFF7` when the starting cluster is not `0xFFF7`. -/
theorem get_chain_fat16_no_marker (fuel : Nat) (buffer : List Nat) (size s : Nat)
    (c : clusters_chain_t) (hs : s < 65536)
    (h : get_chain_fat16 fuel buffer size s = some (some c)) :
    c.clusters.head? = some s ∧ 2 ≤ s ∧
    (∀ x, x ∈ c.clusters.tail → 2 ≤ x ∧ x ≤ 0xFFF6) ∧
    (∀ x, x ∈ c.clusters → x ≠ FAT16_FREE_CLUSTER ∧ x ≠ 0x0001) ∧
    (∀ x, x ∈ c.clusters.tail → x ≠ FAT16_BAD_CLUSTER) ∧
    (s ≠ FAT16_BAD_CLUSTER → ∀ x, x ∈ c.clusters → x ≠ FAT16_BAD_CLUSTER) := by
  obtain ⟨hs2, k, -, hends, -, hlen, hget⟩ := get_chain_fat16_members fuel buffer size s c hs h
  obtain ⟨cl, sz⟩ := c
  simp only at hlen hget ⊢
  cases cl with
  | nil => simp at hlen
  | cons a rest =>
    have ha : a = s := by
      have := hget 0 (by omega)
      simpa [walk] using this
    have htail : ∀ x, x ∈ rest → 2 ≤ x ∧ x ≤ 0xFFF6 := by
      intro x hx
      obtain ⟨i, hi, rfl⟩ := List.getElem_of_mem hx
      have hik : i + 1 ≤ k := by
        simp only [List.length_cons] at hlen
        omega
      have e := hget (i + 1) hik
      simp only [List.getD_cons_succ] at e
      rw [List.getD_eq_getElem _ _ hi] at e
      rw [e, walk_succ]
      have hl := (hends.1 i (by omega)).2
      have hlt := fat_entry_lt buffer (walk buffer s i)
      unfold is_link at hl
      simp only [FAT16_FREE_CLUSTER, FAT16_BAD_CLUSTER, FAT16_EOC_MIN] at hl
      omega
    subst ha
    refine ⟨rfl, hs2, htail, ?_, ?_, ?_⟩
    · intro x hx
      simp only [FAT16_FREE_CLUSTER]
      rcases List.mem_cons.mp hx with rfl | hx
      · omega
      · have := htail x hx
        omega
    · intro x hx
      have := htail x hx
      simp only [List.tail_cons] at hx
      simp only [FAT16_BAD_CLUSTER]
      have := htail x hx
      omega
    · intro hne x hx
      rcases List.mem_cons.mp hx with rfl | hx
      · exact hne
      · have := htail x hx
        simp only [FAT16_BAD_CLUSTER]
        omega

/-- C11 (amended), at a concrete table of eight entries encoding `5 → 6 → 7 → 0xFFFF`. -/
theorem get_chain_fat16_no_marker_witness :
    get_chain_fat16 10 (fat_bytes [0xFFF8, 0xFFFF, 0, 0, 0, 6, 7, 0xFFFF]) 16 5
        = some (some ⟨[5, 6, 7], 3⟩) ∧
      ∀ x, x ∈ [5, 6, 7] → x ≠ FAT16_FREE_CLUSTER ∧ x ≠ 0x0001 :=
  ⟨by decide,
   (get_chain_fat16_no_marker 10 (fat_bytes [0xFFF8, 0xFFFF, 0, 0, 0, 6, 7, 0xFFFF]) 16 5
      ⟨[5, 6, 7], 3⟩ (by decide) (by decide)).2.2.2.1⟩

/-! ## `disk_read`: the range check -/

theorem disk_read_out_of_range (pdisk : disk_t) (first_sector sectors_to_read : Int)
    (h0 : 0 ≤ first_sector) (h1 : 0 < sectors_to_read)
    (hfit : (first_sector + sectors_to_read) * 512 ≤ 2147483647)
    (hout : (first_sector + sectors_to_read) * 512 > pdisk.size) :
    disk_read pdisk first_sector sectors_to_read = .error Errno.ERANGE := by
  unfold disk_read
  rw [if_neg (by omega)]
  have hgt : to_int32 (to_int32 (first_sector + sectors_to_read) * SECTOR_SIZE)
      > to_int32 pdisk.size := by
    obtain ⟨k1, hk1, hb1, hb1'⟩ := to_int32_spec (first_sector + sectors_to_read)
    obtain ⟨k3, hk3, hb3, hb3'⟩ := to_int32_spec (pdisk.size : Int)
    generalize to_int32 (first_sector + sectors_to_read) = a at *
    have ha : a = first_sector + sectors_to_read := by omega
    subst ha
    obtain ⟨k2, hk2, hb2, hb2'⟩ :=
      to_int32_spec ((first_sector + sectors_to_read) * (SECTOR_SIZE : Nat))
    generalize to_int32 ((first_sector + sectors_to_read) * (SECTOR_SIZE : Nat)) = b at *
    generalize to_int32 (pdisk.size : Int) = c at *
    have hsz : (0 : Int) ≤ (pdisk.size : Int) := Int.ofNat_nonneg _
    generalize (pdisk.size : Int) = sz at *
    simp only [SECTOR_SIZE, Nat.cast_ofNat] at hk2
    omega
  rw [if_pos hgt]

/-- C17, at the input where it fails: on the sample image (3072 bytes) the call
`disk_read(pdisk, 8388608, buffer, 1)` has `(8388608 + 1) * 512 = 2^32 + 512 > 3072`, yet it
succeeds and delivers the 512 bytes of sector 0: the product wraps to 512 in `int`, and so
does the `fseek` offset `8388608 * 512`, to 0. -/
theorem disk_read_range_check_wraps :
    (8388608 + 1) * 512 > sample_disk.size ∧
      disk_read sample_disk 8388608 1 = .ok (sample_boot 2 6) ∧
      disk_read sample_disk 8388608 1 = disk_read sample_disk 0 1 := by
  set_option maxRecDepth 100000 in
  decide!

/-! ## `dir_open`: the path test -/

/-- C16, as it fails: on the sample volume `dir_open` returns for the paths `\SUBDIR` and
`\A\B` the very cursor on the root directory that it returns for `\`. -/
theorem dir_open_accepts_subdir_path :
    sample_dir ≠ none ∧
      (sample_volume.bind fun v => (dir_open v path_SUBDIR).toOption) = sample_dir ∧
      (sample_volume.bind fun v => (dir_open v path_A_B).toOption) = sample_dir := by
  set_option maxRecDepth 100000 in
  decide!

/-- C16, amended. `dir_open` looks at the first character of the path only: it fails with
`ENOENT` when that character is not a backslash (so on the empty path), and on every path
that starts with a backslash it returns the cursor it returns for `\`: entry 0 of the first
root-directory sector of the volume. -/
theorem dir_open_first_character (pvolume : volume_t) (dir_path : List Nat) :
    (dir_path.getD 0 0 ≠ 92 → dir_open pvolume dir_path = .error Errno.ENOENT) ∧
    (dir_path.getD 0 0 = 92 →
      dir_open pvolume dir_path = dir_open pvolume [92] ∧
      ∃ d, dir_open pvolume dir_path = .ok d ∧ d.volume = pvolume ∧ d.current_entry = 0 ∧
        d.max_entries = pvolume.super_sector.root_dir_capacity) := by
  constructor
  · intro h
    unfold dir_open
    rw [if_pos h]
  · intro h
    unfold dir_open
    have h1 : ¬ dir_path.getD 0 0 ≠ 92 := fun hne => hne h
    have h2 : ¬ [92].getD 0 0 ≠ 92 := fun hne => hne rfl
    rw [if_neg h1, if_neg h2]
    exact ⟨rfl, _, rfl, rfl, rfl, rfl⟩

/-- C16 (amended), at the paths `SUBDIR` (no leading backslash) and `\SUBDIR` on the volume
of the sample handle. -/
theorem dir_open_first_character_witness :
    dir_open (sample_handle 0 0).volume [83, 85, 66, 68, 73, 82] = .error Errno.ENOENT ∧
      dir_open (sample_handle 0 0).volume path_SUBDIR
        = dir_open (sample_handle 0 0).volume [92] :=
  ⟨(dir_open_first_character (sample_handle 0 0).volume [83, 85, 66, 68, 73, 82]).1
      (by decide),
   ((dir_open_first_character (sample_handle 0 0).volume path_SUBDIR).2 (by decide)).1⟩

/-! ## `fat_open`: the geometry of the volume -/

theorem read_u32_lt (buf : List Nat) (off : Nat) : read_u32 buf off < 4294967296 := by
  have h1 := read_u16_lt buf off
  have h2 := read_u16_lt buf (off + 2)
  unfold read_u32
  omega

theorem disk_read_first_nonneg (d : disk_t) (a n : Int) (buf : List Nat)
    (h : disk_read d a n = .ok buf) : 0 ≤ a := by
  unfold disk_read at h
  split_ifs at h with h1
  omega

theorem fat_open_first_sector (pdisk : disk_t) (first_sector : Nat) (v : volume_t)
    (hfs : first_sector < 4294967296) (h : fat_open pdisk first_sector = .ok v) :
    first_sector < 2147483648 := by
  obtain ⟨sector, fat, d, hsec, -, -, -, -, -, -⟩ := fat_open_ok_inv pdisk first_sector v h
  have h0 := disk_read_first_nonneg _ _ _ _ hsec
  obtain ⟨k, hk, hb, hb'⟩ := to_int32_spec (first_sector : Int)
  generalize to_int32 (first_sector : Int) = a at *
  omega

/-- C13, as it fails: the sample image with a boot sector that records one sector in total
mounts, with `total_sectors = 1`, `first_data_sector = 4` and
`data_sectors = 4294967293 = (1 - 4) mod 2^32`, which is above `total_sectors`. -/
theorem fat_open_data_sectors_wrap :
    (fat_open sample_disk_short 0).toOption.map
        (fun v => (v.first_sector, v.total_sectors, v.first_data_sector, v.data_sectors,
          v.total_clusters))
      = some (0, 1, 4, 4294967293, 4294967293) := by
  set_option maxRecDepth 100000 in
  decide!

/-- C13, amended. For every volume `fat_open` returns (`first_sector` a `uint32_t`):
`fat_size`, `root_dir_sectors`, `first_data_sector`, `total_sectors` and `total_clusters`
equal the formulas evaluated in exact non-negative integers, and so does `data_sectors`
when the recorded total is at least the `first_data_sector - first_sector` sectors in front
of the data region; when the total is smaller, `data_sectors` is the difference plus `2^32`
and is above `total_sectors`. -/
theorem fat_open_geometry (pdisk : disk_t) (first_sector : Nat) (v : volume_t)
    (hfs : first_sector < 4294967296) (h : fat_open pdisk first_sector = .ok v) :
    v.fat_size = v.super_sector.sectors_per_fat * 512 ∧
    v.root_dir_sectors = ⌈((v.super_sector.root_dir_capacity * 32 : Nat) : ℚ) / 512⌉₊ ∧
    v.first_data_sector = first_sector + v.super_sector.reserved_sectors
      + v.super_sector.fat_count * v.super_sector.sectors_per_fat + v.root_dir_sectors ∧
    ((v.super_sector.logical_sectors16 ≠ 0 ∧ v.super_sector.logical_sectors32 = 0 ∧
        v.total_sectors = v.super_sector.logical_sectors16) ∨
      (v.super_sector.logical_sectors16 = 0 ∧ v.super_sector.logical_sectors32 ≠ 0 ∧
        v.total_sectors = v.super_sector.logical_sectors32)) ∧
    (v.first_data_sector - first_sector ≤ v.total_sectors →
      v.data_sectors = v.total_sectors - (v.first_data_sector - first_sector) ∧
      v.data_sectors ≤ v.total_sectors) ∧
    (v.total_sectors < v.first_data_sector - first_sector →
      v.data_sectors = v.total_sectors + 4294967296 - (v.first_data_sector - first_sector) ∧
      v.total_sectors < v.data_sectors) ∧
    v.total_clusters = v.data_sectors / v.super_sector.sectors_per_cluster := by
  have hfs31 := fat_open_first_sector pdisk first_sector v hfs h
  obtain ⟨sector, fat, d, -, hrej, -, -, -, -, rfl⟩ := fat_open_ok_inv pdisk first_sector v h
  obtain ⟨-, -, hfc, ⟨q, hq⟩, hls, -, -, -⟩ := (super_rejected_iff _).mp hrej
  have hres : (read_super sector).reserved_sectors < 65536 := read_u16_lt _ _
  have hspf : (read_super sector).sectors_per_fat < 65536 := read_u16_lt _ _
  have hcap : (read_super sector).root_dir_capacity < 65536 := read_u16_lt _ _
  have hl16 : (read_super sector).logical_sectors16 < 65536 := read_u16_lt _ _
  have hl32 : (read_super sector).logical_sectors32 < 4294967296 := read_u32_lt _ _
  generalize read_super sector = s at *
  have hrds : (s.root_dir_capacity * 32 + (512 - 1)) / 512 = q := by
    omega
  have hmul : s.fat_count * s.sectors_per_fat < 131072 := by
    rcases hfc with e | e <;> rw [e] <;> omega
  have hfds : (first_sector + s.reserved_sectors + s.fat_count * s.sectors_per_fat + q)
      % 4294967296
      = first_sector + s.reserved_sectors + s.fat_count * s.sectors_per_fat + q := by
    apply Nat.mod_eq_of_lt
    omega
  simp only [mk_volume, SECTOR_SIZE]
  simp only [hrds, hfds]
  generalize s.fat_count * s.sectors_per_fat = m at *
  obtain ⟨k1, hk1, hb1⟩ := to_uint32_spec
    (((first_sector + s.reserved_sectors + m + q : Nat) : Int) - (first_sector : Int))
  generalize to_uint32
    (((first_sector + s.reserved_sectors + m + q : Nat) : Int) - (first_sector : Int))
    = ov at *
  have hov : ov = s.reserved_sectors + m + q := by omega
  subst hov
  refine ⟨trivial, ?_, trivial, ?_, ?_, ?_, trivial⟩
  · rw [hq]
    push_cast
    rw [mul_div_cancel_left₀ _ (by norm_num : (512 : ℚ) ≠ 0)]
    exact (Nat.ceil_natCast q).symm
  · rcases hls with ⟨h16, h32⟩ | ⟨h16, h32⟩
    · left; exact ⟨h16, h32, by rw [if_pos h16]⟩
    · right; exact ⟨h16, h32, by rw [if_neg (by omega)]⟩
  · intro hle
    obtain ⟨k2, hk2, hb2⟩ := to_uint32_spec
      (((if s.logical_sectors16 ≠ 0 then s.logical_sectors16 else s.logical_sectors32 : Nat)
        : Int) - ((s.reserved_sectors + m + q : Nat) : Int))
    have htot : (if s.logical_sectors16 ≠ 0 then s.logical_sectors16
        else s.logical_sectors32) < 4294967296 := by
      split_ifs <;> omega
    generalize (if s.logical_sectors16 ≠ 0 then s.logical_sectors16
        else s.logical_sectors32) = tot at *
    generalize to_uint32 ((tot : Int) - ((s.reserved_sectors + m + q : Nat) : Int)) = ds at *
    omega
  · intro hlt
    obtain ⟨k2, hk2, hb2⟩ := to_uint32_spec
      (((if s.logical_sectors16 ≠ 0 then s.logical_sectors16 else s.logical_sectors32 : Nat)
        : Int) - ((s.reserved_sectors + m + q : Nat) : Int))
    have htot : (if s.logical_sectors16 ≠ 0 then s.logical_sectors16
        else s.logical_sectors32) < 4294967296 := by
      split_ifs <;> omega
    generalize (if s.logical_sectors16 ≠ 0 then s.logical_sectors16
        else s.logical_sectors32) = tot at *
    generalize to_uint32 ((tot : Int) - ((s.reserved_sectors + m + q : Nat) : Int)) = ds at *
    omega

/-- C13 (amended), at the sample image mounted at sector 0: four sectors lie in front of the
data region and two of the six recorded sectors are data sectors. -/
theorem fat_open_geometry_witness :
    fat_open sample_disk 0 = .ok sample_mounted ∧
      (sample_mounted.first_data_sector - 0 ≤ sample_mounted.total_sectors →
        sample_mounted.data_sectors
          = sample_mounted.total_sectors - (sample_mounted.first_data_sector - 0) ∧
        sample_mounted.data_sectors ≤ sample_mounted.total_sectors) ∧
      sample_mounted.data_sectors = 2 :=
  ⟨by
    set_option maxRecDepth 100000 in
    decide!,
   (fat_open_geometry sample_disk 0 sample_mounted (by decide)
      (by
        set_option maxRecDepth 100000 in
        decide!)).2.2.2.2.1,
   by
    set_option maxRecDepth 100000 in
    decide!⟩

/-! ## `file_open`: the scan of the root directory -/

theorem file_open_scan_skip (fuel : Nat) (pvolume : volume_t) (root_buffer file_name : List Nat) :
    ∀ (k n i : Nat), (∀ j, j < k → scan_skips root_buffer file_name (i + j)) →
      file_open_scan fuel pvolume root_buffer file_name (n + k) i
        = file_open_scan fuel pvolume root_buffer file_name n (i + k) := by
  intro k
  induction k with
  | zero => intro n i _; rfl
  | succ k ih =>
    intro n i hs
    have h0 := hs 0 (by omega)
    unfold scan_skips at h0
    rw [Nat.add_zero] at h0
    have e : n + (k + 1) = (n + k) + 1 := by omega
    rw [e, file_open_scan]
    rw [if_neg h0.1]
    have hnext : file_open_scan fuel pvolume root_buffer file_name (n + k) (i + 1)
        = file_open_scan fuel pvolume root_buffer file_name n (i + (k + 1)) := by
      rw [ih n (i + 1) (fun j hj => by
        have := hs (j + 1) (by omega)
        rwa [show i + (j + 1) = i + 1 + j by omega] at this)]
      congr 1
      omega
    rcases h0.2 with hd | hne
    · rw [if_pos hd]
      exact hnext
    · split_ifs with h2
      · exact hnext
      · exact hnext

theorem file_open_scan_end_marker (fuel : Nat) (pvolume : volume_t)
    (root_buffer file_name : List Nat) (n k : Nat) (hk : k < n)
    (hs : ∀ j, j < k → scan_skips root_buffer file_name j)
    (h0 : (read_entry root_buffer (k * 32)).name.getD 0 0 = 0x00) :
    file_open_scan fuel pvolume root_buffer file_name n 0 = some (.error none) := by
  obtain ⟨m, rfl⟩ : ∃ m, n = (m + 1) + k := ⟨n - k - 1, by omega⟩
  rw [file_open_scan_skip fuel pvolume root_buffer file_name k (m + 1) 0
    (fun j hj => by rw [Nat.zero_add]; exact hs j hj), Nat.zero_add, file_open_scan]
  rw [if_pos h0]

theorem file_open_scan_exhausted (fuel : Nat) (pvolume : volume_t)
    (root_buffer file_name : List Nat) (n : Nat)
    (hs : ∀ j, j < n → scan_skips root_buffer file_name j) :
    file_open_scan fuel pvolume root_buffer file_name n 0
      = some (.error (some Errno.ENOENT)) := by
  have e := file_open_scan_skip fuel pvolume root_buffer file_name n 0 0
    (fun j hj => by rw [Nat.zero_add]; exact hs j hj)
  rw [Nat.zero_add] at e
  rw [e, file_open_scan]

/-- C14, at the input where it fails: on the sample volume, whose root directory holds three
records followed by the end marker, `file_open` for the absent name `NOFILE.TXT` returns
`NULL` at the end marker without assigning `errno` (the result `.error none`), not with
`ENOENT`. -/
theorem file_open_end_marker_no_errno :
    (sample_volume.bind fun v => file_open 8 v name_NOFILE_TXT) = some (.error none) ∧
      (sample_volume.bind fun v => file_open 8 v name_NOFILE_TXT)
        ≠ some (.error (some Errno.ENOENT)) := by
  set_option maxRecDepth 100000 in
  decide!

theorem get_chain_fat16_marker (fuel : Nat) (buffer : List Nat) (size s k : Nat)
    (hf : k < fuel) (hl : ∀ j, j < k → is_link (fat_entry buffer (walk buffer s j)))
    (hm : is_marker (fat_entry buffer (walk buffer s k))) :
    get_chain_fat16 fuel buffer size s = some none := by
  unfold get_chain_fat16
  split_ifs with h1
  · rfl
  · have e := chain_count_marker buffer size k fuel s 1 hf hl hm
    have e' : chain_count buffer size fuel (s * 2) (read_u16 buffer (s * 2)) 1
        = some none := e
    simp only [e']
    split_ifs <;> rfl

theorem file_open_eq (fuel : Nat) (pvolume : volume_t) (file_name : List Nat) :
    file_open fuel pvolume file_name =
      match disk_read pvolume.disk (to_int32 (root_start pvolume))
        (to_int32 pvolume.root_dir_sectors) with
      | .error e => some (.error (some e))
      | .ok root_buffer =>
        file_open_scan fuel (root_moved pvolume) root_buffer file_name
          pvolume.super_sector.root_dir_capacity 0 := rfl

/-- C15. On a volume whose root directory is read, let record `i` (below
`root_dir_capacity`) be the first record the scan does not pass over, let it decode to
`file_name` and be neither a directory nor a volume label, and let `get_chain_fat16` return
`NULL` on its first cluster.  Then `file_open` returns a handle with that record, position 0
and the `NULL` chain (on the volume as the read of the root directory has left it), and
`file_read` on this handle, at whatever position it has been moved to, returns 0, stores
nothing and leaves the handle as it is.  `get_chain_fat16` returns `NULL` in particular when
the first cluster is 0 or 1, and when the walk from the first cluster meets a free, reserved
or bad-cluster marker after `k < fuel` links. -/
theorem file_open_null_chain (fuel : Nat) (pvolume : volume_t)
    (root_buffer file_name : List Nat) (i : Nat)
    (hroot : disk_read pvolume.disk (to_int32 (root_start pvolume))
      (to_int32 pvolume.root_dir_sectors) = .ok root_buffer)
    (hi : i < pvolume.super_sector.root_dir_capacity)
    (hskip : ∀ j, j < i → scan_skips root_buffer file_name j)
    (hmatch : scan_matches root_buffer file_name i)
    (hattr : ¬ ((read_entry root_buffer (i * 32)).attr &&& 0x10 ≠ 0 ∨
      (read_entry root_buffer (i * 32)).attr &&& 0x08 ≠ 0))
    (hchain : get_chain_fat16 fuel pvolume.fat_table pvolume.fat_size
      (read_entry root_buffer (i * 32)).first_cluster_y = some none) :
    file_open fuel pvolume file_name
      = some (.ok ⟨root_moved pvolume, read_entry root_buffer (i * 32), 0, none⟩) ∧
    (∀ size nmemb position,
      file_read size nmemb ⟨root_moved pvolume, read_entry root_buffer (i * 32), position, none⟩
        = ⟨.ok 0, [],
            ⟨root_moved pvolume, read_entry root_buffer (i * 32), position, none⟩⟩) ∧
    (∀ (buffer : List Nat) (size s : Nat), s < 2 →
      get_chain_fat16 fuel buffer size s = some none) ∧
    (∀ (buffer : List Nat) (size s k : Nat), k < fuel →
      (∀ j, j < k → is_link (fat_entry buffer (walk buffer s j))) →
      is_marker (fat_entry buffer (walk buffer s k)) →
        get_chain_fat16 fuel buffer size s = some none) := by
  refine ⟨?_, ?_, ?_, get_chain_fat16_marker fuel⟩
  · rw [file_open_eq, hroot]
    simp only
    obtain ⟨m, hm⟩ : ∃ m, pvolume.super_sector.root_dir_capacity = (m + 1) + i :=
      ⟨pvolume.super_sector.root_dir_capacity - i - 1, by omega⟩
    have hchain2 : get_chain_fat16 fuel (root_moved pvolume).fat_table
        (root_moved pvolume).fat_size (read_entry root_buffer (i * 32)).first_cluster_y
        = some none := hchain
    rw [hm, file_open_scan_skip fuel (root_moved pvolume) root_buffer file_name i (m + 1) 0
      (fun j hj => by rw [Nat.zero_add]; exact hskip j hj), Nat.zero_add, file_open_scan]
    rw [if_neg hmatch.1, if_neg hmatch.2.1, if_pos hmatch.2.2, if_neg hattr, hchain2]
  · intro size nmemb position
    exact file_read_no_chain size nmemb _ (Or.inl rfl)
  · intro buffer size s hs
    unfold get_chain_fat16
    rw [if_pos (Or.inl hs)]

/-- C15, on the sample volume: its first record decodes to `A.TXT` and has first cluster 0;
`file_open` returns a handle without a chain, and a read of 10 bytes returns 0. -/
theorem file_open_null_chain_witness :
    file_open 8 sample_mounted name_A_TXT
        = some (.ok ⟨root_moved sample_mounted, read_entry sample_root (0 * 32), 0, none⟩) ∧
      file_read 1 10 ⟨root_moved sample_mounted, read_entry sample_root (0 * 32), 0, none⟩
        = ⟨.ok 0, [], ⟨root_moved sample_mounted, read_entry sample_root (0 * 32), 0, none⟩⟩ ∧
      root_moved sample_mounted = (sample_handle 0 0).volume :=
  have h := file_open_null_chain 8 sample_mounted sample_root name_A_TXT 0
    (by
      set_option maxRecDepth 100000 in
      decide!)
    (by decide)
    (fun j hj => absurd hj (Nat.not_lt_zero j))
    (by
      unfold scan_matches
      set_option maxRecDepth 100000 in
      decide!)
    (by
      set_option maxRecDepth 100000 in
      decide!)
    (by
      set_option maxRecDepth 100000 in
      decide!)
  ⟨h.1, h.2.1 1 10 0, by
    set_option maxRecDepth 100000 in
    decide!⟩

/-! ## `file_read`: the value returned, and the cursor invariant -/

/-- C18, as it fails: a read of 5 items of 2 bytes at the start of a 100-byte file copies 10
bytes and advances the position by 10, and returns 5. -/
theorem file_read_returns_item_count :
    (file_read 2 5 (sample_handle 100 0)).ret = .ok 5 ∧
      (file_read 2 5 (sample_handle 100 0)).data.length = 10 ∧
      (file_read 2 5 (sample_handle 100 0)).stream.position
        = (sample_handle 100 0).position + 10 := by
  set_option maxRecDepth 100000 in
  decide!

/-- C18, amended. On a handle with `position ≤ entry.size`, for `size ≥ 1`, a call of
`file_read` that does not fail returns the number of bytes copied divided by `size`, rounded
down (the number of complete items); the number of bytes copied is the amount by which the
position has advanced; and for `size = 1` the value returned is the number of bytes
copied. -/
theorem file_read_return_value (size nmemb : Nat) (stream : file_t) (n : Nat)
    (hsize : 1 ≤ size)
    (hp : stream.position ≤ stream.entry.size) (hS : stream.entry.size < 4294967296)
    (hret : (file_read size nmemb stream).ret = .ok n) :
    n = (file_read size nmemb stream).data.length / size ∧
    n * size ≤ (file_read size nmemb stream).data.length ∧
    (file_read size nmemb stream).data.length < n * size + size ∧
    (file_read size nmemb stream).stream.position
      = stream.position + (file_read size nmemb stream).data.length ∧
    (size = 1 → n = (file_read size nmemb stream).data.length) := by
  obtain ⟨P, ⟨he, -, -⟩ | ⟨hok, hst, -⟩⟩ := file_read_outcome size nmemb stream hp hS
  · rw [he] at hret
    cases hret
  · rw [hok] at hret
    have hn : n = (file_read size nmemb stream).data.length / size := by
      cases hret
      rfl
    refine ⟨hn, ?_, ?_, ?_, ?_⟩
    · rw [hn]
      exact Nat.div_mul_le_self _ _
    · rw [hn]
      exact Nat.lt_div_mul_add (by omega)
    · rw [hst]
    · intro h1
      rw [hn, h1, Nat.div_one]

/-- C18 (amended), at the read of 5 items of 2 bytes at the start of a 100-byte file. -/
theorem file_read_return_value_witness :
    5 = (file_read 2 5 (sample_handle 100 0)).data.length / 2 ∧
      (file_read 2 5 (sample_handle 100 0)).stream.position
        = (sample_handle 100 0).position + (file_read 2 5 (sample_handle 100 0)).data.length :=
  have h := file_read_return_value 2 5 (sample_handle 100 0) 5 (by decide) (by decide)
    (by decide)
    (by
      set_option maxRecDepth 100000 in
      decide!)
  ⟨h.1, h.2.2.2.1⟩

theorem file_open_scan_entry_size (fuel : Nat) (pvolume : volume_t)
    (root_buffer file_name : List Nat) :
    ∀ (n i : Nat) (f : file_t),
      file_open_scan fuel pvolume root_buffer file_name n i = some (.ok f) →
      f.entry.size < 4294967296 := by
  intro n
  induction n with
  | zero => intro i f h; simp [file_open_scan] at h
  | succ n ih =>
    intro i f h
    rw [file_open_scan] at h
    split_ifs at h with h1 h2 h3 h4
    · simp at h
    · exact ih _ _ h
    · simp at h
    · split at h
      · simp at h
      · simp only [Option.some.injEq, Except.ok.injEq] at h
        rw [← h]
        exact read_u32_lt _ _
    · exact ih _ _ h

theorem file_open_entry_size (fuel : Nat) (pvolume : volume_t) (file_name : List Nat)
    (f : file_t) (h : file_open fuel pvolume file_name = some (.ok f)) :
    f.entry.size < 4294967296 := by
  unfold file_open at h
  simp only at h
  split at h
  · simp at h
  · exact file_open_scan_entry_size _ _ _ _ _ _ _ h

theorem seek_to_invariant (stream : file_t) (pos : Int)
    (hp : stream.position ≤ stream.entry.size) (hS : stream.entry.size < 4294967296) :
    (seek_to stream pos).2.entry = stream.entry ∧
      (seek_to stream pos).2.position ≤ stream.entry.size := by
  unfold seek_to
  split_ifs with h
  · exact ⟨rfl, hp⟩
  · refine ⟨rfl, ?_⟩
    show to_uint32 pos ≤ stream.entry.size
    obtain ⟨k1, hk1, hb1, hb1'⟩ := to_int32_spec (stream.entry.size : Int)
    obtain ⟨k2, hk2, hb2⟩ := to_uint32_spec pos
    generalize to_int32 (stream.entry.size : Int) = a at *
    generalize to_uint32 pos = b at *
    omega

theorem file_seek_invariant (stream : file_t) (offset whence : Int)
    (hp : stream.position ≤ stream.entry.size) (hS : stream.entry.size < 4294967296) :
    (file_seek stream offset whence).2.entry = stream.entry ∧
      (file_seek stream offset whence).2.position ≤ stream.entry.size := by
  unfold file_seek
  split_ifs
  · exact seek_to_invariant stream _ hp hS
  · exact seek_to_invariant stream _ hp hS
  · exact seek_to_invariant stream _ hp hS
  · exact ⟨rfl, hp⟩

theorem file_read_invariant (size nmemb : Nat) (stream : file_t)
    (hp : stream.position ≤ stream.entry.size) (hS : stream.entry.size < 4294967296) :
    (file_read size nmemb stream).stream.entry = stream.entry ∧
      (file_read size nmemb stream).stream.position ≤ stream.entry.size := by
  obtain ⟨P, ⟨-, -, hst⟩ | ⟨-, hst, hle⟩⟩ := file_read_outcome size nmemb stream hp hS
  · rw [hst]
    exact ⟨rfl, hp⟩
  · rw [hst]
    exact ⟨rfl, hle⟩

/-- C19. Every handle that can arise satisfies `0 ≤ position ≤ entry.size` (the position is
a natural number, and `entry.size` is a 32-bit value).  The handle `file_open` returns has
position 0; and on a handle with `position ≤ entry.size`, every call of `file_read` and
every call of `file_seek`, successful or failing, with any arguments, leaves the record of
the handle as it is and a position that is again at most `entry.size`. -/
theorem cursor_invariant :
    (∀ f : file_t, reachable_handle f →
      0 ≤ f.position ∧ f.position ≤ f.entry.size ∧ f.entry.size < 4294967296) ∧
    (∀ (fuel : Nat) (pvolume : volume_t) (file_name : List Nat) (f : file_t),
      file_open fuel pvolume file_name = some (.ok f) →
        f.position = 0 ∧ f.entry.size < 4294967296) ∧
    (∀ (size nmemb : Nat) (f : file_t),
      f.position ≤ f.entry.size → f.entry.size < 4294967296 →
        (file_read size nmemb f).stream.entry = f.entry ∧
        (file_read size nmemb f).stream.position ≤ (file_read size nmemb f).stream.entry.size) ∧
    (∀ (offset whence : Int) (f : file_t),
      f.position ≤ f.entry.size → f.entry.size < 4294967296 →
        (file_seek f offset whence).2.entry = f.entry ∧
        (file_seek f offset whence).2.position ≤ (file_seek f offset whence).2.entry.size) := by
  refine ⟨?_, ?_, ?_, ?_⟩
  · intro f h
    refine ⟨Nat.zero_le _, ?_⟩
    induction h with
    | opened fuel pvolume file_name f hopen =>
      rw [(file_open_position fuel pvolume file_name f hopen).1]
      exact ⟨Nat.zero_le _, file_open_entry_size fuel pvolume file_name f hopen⟩
    | read size nmemb f _ ih =>
      have hinv := file_read_invariant size nmemb f ih.1 ih.2
      rw [hinv.1]
      exact ⟨hinv.2, ih.2⟩
    | seek offset whence f _ ih =>
      have hinv := file_seek_invariant f offset whence ih.1 ih.2
      rw [hinv.1]
      exact ⟨hinv.2, ih.2⟩
    | moved p f _ ih => exact ih
  · intro fuel pvolume file_name f hopen
    exact ⟨(file_open_position fuel pvolume file_name f hopen).1,
      file_open_entry_size fuel pvolume file_name f hopen⟩
  · intro size nmemb f hp hS
    have hinv := file_read_invariant size nmemb f hp hS
    rw [hinv.1]
    exact ⟨rfl, hinv.2⟩
  · intro offset whence f hp hS
    have hinv := file_seek_invariant f offset whence hp hS
    rw [hinv.1]
    exact ⟨rfl, hinv.2⟩

/-- C19, at the handle left on the sample volume by opening `README.TXT`, reading 30 bytes
and seeking 5 bytes forward. -/
theorem cursor_invariant_witness :
    file_open 8 sample_mounted name_README_TXT = some (.ok (sample_handle 100 0)) ∧
      (file_seek (file_read 1 30 (sample_handle 100 0)).stream 5 SEEK_CUR).2.position
        ≤ (file_seek (file_read 1 30 (sample_handle 100 0)).stream 5 SEEK_CUR).2.entry.size :=
  have hopen : file_open 8 sample_mounted name_README_TXT
      = some (.ok (sample_handle 100 0)) := by
    set_option maxRecDepth 100000 in
    decide!
  ⟨hopen,
   (cursor_invariant.1 _
      (reachable_handle.seek 5 SEEK_CUR _
        (reachable_handle.read 1 30 _
          (reachable_handle.opened 8 sample_mounted name_README_TXT
            (sample_handle 100 0) hopen)))).2.1⟩

/-! ## `get_chain_fat16`: the loads from the table -/

theorem chain_count_some_offset (buffer : List Nat) (size fuel offset current count n : Nat)
    (h : chain_count buffer size fuel offset current count = some (some n)) :
    offset + 2 ≤ size := by
  cases fuel with
  | zero => simp [chain_count] at h
  | succ fuel =>
    rw [chain_count] at h
    split_ifs at h with h1
    · simp at h
    all_goals omega

theorem chain_count_reads_in_table (buffer : List Nat) (size : Nat) :
    ∀ (fuel offset current count n : Nat),
      chain_count buffer size fuel offset current count = some (some n) →
      ∀ o, o ∈ chain_count_reads buffer size fuel offset current → o + 2 ≤ size := by
  intro fuel
  induction fuel with
  | zero => intro offset current count n h; simp [chain_count] at h
  | succ fuel ih =>
    intro offset current count n h o ho
    rw [chain_count] at h
    rw [chain_count_reads] at ho
    split_ifs at h ho with h1 h2 h3
    · simp at ho
    · simp at ho
    · simp at ho
    · rcases List.mem_cons.mp ho with rfl | ho
      · exact chain_count_some_offset buffer size fuel _ _ _ n h
      · exact ih _ _ _ n h o ho

theorem chain_fill_reads_walk (buffer : List Nat) (count : Nat) :
    ∀ (n i curr o : Nat), o ∈ chain_fill_reads buffer count n i curr →
      ∃ j, i + j + 1 < count ∧ o = walk buffer curr j * 2 := by
  intro n
  induction n with
  | zero => intro i curr o ho; simp [chain_fill_reads] at ho
  | succ n ih =>
    intro i curr o ho
    rw [chain_fill_reads] at ho
    split_ifs at ho with h1
    · rcases List.mem_cons.mp ho with rfl | ho
      · exact ⟨0, by omega, rfl⟩
      · obtain ⟨j, hj, rfl⟩ := ih (i + 1) _ o ho
        exact ⟨j + 1, by omega, rfl⟩
    · obtain ⟨j, hj, -⟩ := ih (i + 1) _ o ho
      omega

/-- When `get_chain_fat16` returns a chain, every load it has made lies inside the table. -/
theorem get_chain_fat16_reads_in_table (fuel : Nat) (buffer : List Nat) (size s : Nat)
    (c : clusters_chain_t) (hs : s < 65536)
    (h : get_chain_fat16 fuel buffer size s = some (some c)) :
    ∀ o, o ∈ get_chain_fat16_reads fuel buffer size s → o + 2 ≤ size := by
  intro o ho
  unfold get_chain_fat16 at h
  unfold get_chain_fat16_reads at ho
  split_ifs at h ho with h1
  · simp at h
  · simp only at h ho
    split_ifs at h ho with h2
    · simp at h
    cases hc : chain_count buffer size fuel (s * 2) (read_u16 buffer (s * 2)) 1 with
    | none => rw [hc] at h; simp at h
    | some r =>
      cases r with
      | none => rw [hc] at h; simp at h
      | some count =>
        rw [hc] at ho
        simp only at ho
        rcases List.mem_cons.mp ho with rfl | ho
        · omega
        · rcases List.mem_append.mp ho with ho | ho
          · exact chain_count_reads_in_table buffer size fuel _ _ _ count hc o ho
          · obtain ⟨k, -, hends, hn⟩ :=
              chain_count_some buffer size fuel s 1 count (by decide) hc
            have hk := ends_after_short buffer size s k (by omega) hs hends
            obtain ⟨j, hj, rfl⟩ := chain_fill_reads_walk buffer count count 0 s o ho
            have := (hends.1 j (by omega)).1
            omega

/-- C21, at the input where it fails: on the 8-byte table whose entry for cluster 2 is the
link 100, the call with starting cluster 2 loads the entry at offset 4 and then, in the first
iteration of the counting loop, the entry at offset 200, outside the table; only the next
iteration compares that offset with the table length, and the call returns `NULL`. -/
theorem get_chain_fat16_reads_outside_table :
    link_out_fat.length = 8 ∧
      get_chain_fat16_reads 4 link_out_fat 8 2 = [4, 200] ∧
      ¬ (200 + 2 ≤ 8) ∧
      get_chain_fat16 4 link_out_fat 8 2 = some none := by
  decide

/-! ## `dir_read`: the end of the directory -/

theorem dir_read_loop_fresh_sector (pdir : dir_t) (fuel current_entry : Nat)
    (stack : List Nat) (disk : disk_t) (h : current_entry % (SECTOR_SIZE / 32) = 0) :
    dir_read_loop pdir fuel current_entry stack disk
      = dir_read_loop pdir fuel current_entry [] disk := by
  cases fuel with
  | zero => rfl
  | succ fuel =>
    rw [dir_read_loop, dir_read_loop]
    simp only [h, if_true]

/-- A call of `dir_read` that starts at the first record of a sector does not depend on what
its automatic array holds. -/
theorem dir_read_fresh_sector (pdir : dir_t) (stack : List Nat)
    (h : pdir.current_entry % 16 = 0) : dir_read pdir stack = dir_read pdir [] := by
  unfold dir_read
  rw [dir_read_loop_fresh_sector pdir _ _ stack _ h]

/-- Once `current_entry` has reached `max_entries`, `dir_read` reports end-of-directory and
leaves the cursor as it is. -/
theorem dir_read_at_capacity (pdir : dir_t) (stack : List Nat)
    (h : pdir.max_entries ≤ pdir.current_entry) :
    dir_read pdir stack = (.end_of_dir, pdir) := by
  unfold dir_read
  have e : pdir.max_entries - pdir.current_entry = 0 := by omega
  rw [e]
  rfl

/-- C22, at the input where it fails: an image whose first root sector holds fifteen deleted
records and then the end marker (record 15), and whose second root sector starts with the
record `STALE.TXT`.  On the cursor `dir_open` returns, the first `dir_read` reports
end-of-directory and leaves `current_entry = 16`, past the marker; the second `dir_read`
returns the entry `STALE.TXT`, whatever the automatic array of either call holds.  (The
second argument of `stale_dir` is where the stream of the disk stands: behind the second FAT
copy, then behind each root sector read.) -/
theorem dir_read_after_end_marker :
    fat_open stale_disk 0 = .ok stale_volume ∧
      dir_open stale_volume [92] = .ok (stale_dir 0 1536) ∧
      (read_entry stale_root_0 (15 * 32)).name.getD 0 0 = 0x00 ∧
      ∀ stack1 stack2 : List Nat,
        dir_read (stale_dir 0 1536) stack1 = (.end_of_dir, stale_dir 16 2048) ∧
        dir_read (stale_dir 16 2048) stack2
          = (.entry ⟨name_STALE_TXT, 100, 1, 0, 0, 0, 0⟩, stale_dir 17 2560) := by
  refine ⟨?_, ?_, ?_, ?_⟩
  · set_option maxRecDepth 100000 in
    decide!
  · set_option maxRecDepth 100000 in
    decide!
  · set_option maxRecDepth 100000 in
    decide!
  · intro stack1 stack2
    rw [dir_read_fresh_sector (stale_dir 0 1536) stack1 (by decide),
      dir_read_fresh_sector (stale_dir 16 2048) stack2 (by decide)]
    constructor
    · set_option maxRecDepth 100000 in
      decide!
    · set_option maxRecDepth 100000 in
      decide!

/-! ## Listing and opening -/

theorem to_int32_small (x : Nat) (h : x < 2147483648) : to_int32 (x : Int) = (x : Int) := by
  obtain ⟨k, hk, hb, hb'⟩ := to_int32_spec (x : Int)
  generalize to_int32 (x : Int) = a at *
  omega

theorem read_u16_slice (file : List Nat) (a len i : Nat) (hi : i + 2 ≤ len) :
    read_u16 (((file.drop a).take len).map (· % 256)) i = read_u16 file (a + i) := by
  unfold read_u16
  rw [byteAt_slice file a len i (by omega), byteAt_slice file a len (i + 1) (by omega)]
  rfl

theorem read_u32_slice (file : List Nat) (a len i : Nat) (hi : i + 4 ≤ len) :
    read_u32 (((file.drop a).take len).map (· % 256)) i = read_u32 file (a + i) := by
  unfold read_u32
  rw [read_u16_slice file a len i (by omega), read_u16_slice file a len (i + 2) (by omega)]
  rfl

theorem bytes_at_slice (file : List Nat) (a len off n : Nat) (h : off + n ≤ len) :
    bytes_at (((file.drop a).take len).map (· % 256)) off n = bytes_at file (a + off) n := by
  unfold bytes_at
  apply List.map_congr_left
  intro i hi
  have hi' : i < n := List.mem_range.mp hi
  rw [byteAt_slice file a len (off + i) (by omega), Nat.add_assoc]

theorem read_entry_slice (file : List Nat) (a len off : Nat) (h : off + 32 ≤ len) :
    read_entry (((file.drop a).take len).map (· % 256)) off = read_entry file (a + off) := by
  unfold read_entry
  rw [bytes_at_slice file a len off 8 (by omega),
    bytes_at_slice file a len (off + 8) 3 (by omega),
    byteAt_slice file a len (off + 11) (by omega),
    byteAt_slice file a len (off + 12) (by omega),
    byteAt_slice file a len (off + 13) (by omega),
    read_u16_slice file a len (off + 14) (by omega),
    read_u16_slice file a len (off + 16) (by omega),
    read_u16_slice file a len (off + 18) (by omega),
    read_u16_slice file a len (off + 20) (by omega),
    read_u16_slice file a len (off + 22) (by omega),
    read_u16_slice file a len (off + 24) (by omega),
    read_u16_slice file a len (off + 26) (by omega),
    read_u32_slice file a len (off + 28) (by omega)]
  simp only [Nat.add_assoc]

/-- An entry returned by the loop of `dir_read`, when the sector buffer the loop starts with
is the sector of its `current_entry` (or is filled at once) and every root sector is read
from the image as it is, wherever the stream of the disk stands: the entry is the decoding
of a record `i` at or after `current_entry` that is neither the end marker nor deleted, a
label or a long-name record, and the loop leaves `current_entry = i + 1`. -/
theorem dir_read_loop_record (pdir : dir_t) (file : List Nat) (S : Nat)
    (hmax : pdir.max_entries ≤ 65536)
    (hdisk : ∀ d s, same_medium d pdir.volume.disk → s < pdir.volume.root_dir_sectors →
      disk_read d (to_int32 ((pdir.current_sector + s) % 4294967296 : Nat)) 1
        = .ok (sector_at file (S + s))) :
    ∀ (fuel current_entry : Nat) (sector_buffer : List Nat) (disk : disk_t)
      (pentry : dir_entry_t) (ce : Nat) (disk2 : disk_t),
      same_medium disk pdir.volume.disk →
      (current_entry % 16 ≠ 0 → sector_buffer = sector_at file (S + current_entry / 16)) →
      dir_read_loop pdir fuel current_entry sector_buffer disk = (.entry pentry, ce, disk2) →
      ∃ i, current_entry ≤ i ∧ i < pdir.max_entries ∧ ce = i + 1 ∧
        (i % 16 = 0 → i / 16 < pdir.volume.root_dir_sectors) ∧
        pentry = fill_entry (read_entry (sector_at file (S + i / 16)) (i % 16 * 32)) ∧
        (read_entry (sector_at file (S + i / 16)) (i % 16 * 32)).name.getD 0 0 ≠ 0x00 ∧
        ¬ ((read_entry (sector_at file (S + i / 16)) (i % 16 * 32)).name.getD 0 0 = 0xE5 ∨
          (read_entry (sector_at file (S + i / 16)) (i % 16 * 32)).attr &&& 0x08 ≠ 0 ∨
          (read_entry (sector_at file (S + i / 16)) (i % 16 * 32)).attr = 0x0F) := by
  have e16 : SECTOR_SIZE / 32 = 16 := rfl
  intro fuel
  induction fuel with
  | zero =>
    intro current_entry sector_buffer disk pentry ce disk2 _ _ h
    simp [dir_read_loop] at h
  | succ fuel ih =>
    intro current_entry sector_buffer disk pentry ce disk2 hmed hinv h
    rw [dir_read_loop] at h
    by_cases h1 : current_entry < pdir.max_entries
    swap
    · rw [if_pos h1] at h
      simp at h
    rw [if_neg (not_not.mpr h1)] at h
    simp only at h
    by_cases h2 : current_entry % (SECTOR_SIZE / 32) = 0 ∧
        current_entry / (SECTOR_SIZE / 32) ≥ pdir.volume.root_dir_sectors
    · rw [if_pos h2] at h
      simp at h
    rw [if_neg h2] at h
    rw [e16] at h h2
    have hbuf : (if current_entry % 16 = 0 then
          disk_read disk
            (to_int32 ((pdir.current_sector + current_entry / 16) % 4294967296 : Nat)) 1
        else .ok sector_buffer) = .ok (sector_at file (S + current_entry / 16)) := by
      by_cases h3 : current_entry % 16 = 0
      · rw [if_pos h3]
        exact hdisk disk _ hmed (by
          by_contra hge
          exact h2 ⟨h3, by omega⟩)
      · rw [if_neg h3, hinv h3]
    have hmed2 : same_medium (if current_entry % 16 = 0 then
          disk_after disk
            (to_int32 ((pdir.current_sector + current_entry / 16) % 4294967296 : Nat)) 1
        else disk) pdir.volume.disk := by
      split_ifs
      · exact same_medium_trans _ _ _ (disk_after_medium _ _ _) hmed
      · exact hmed
    rw [hbuf] at h
    simp only at h
    have hnext : (current_entry + 1) % 4294967296 = current_entry + 1 :=
      Nat.mod_eq_of_lt (by omega)
    rw [hnext] at h
    by_cases h4 : (read_entry (sector_at file (S + current_entry / 16))
        (current_entry % 16 * 32)).name.getD 0 0 = 0x00
    · rw [if_pos h4] at h
      simp at h
    rw [if_neg h4] at h
    by_cases h5 : (read_entry (sector_at file (S + current_entry / 16))
          (current_entry % 16 * 32)).name.getD 0 0 = 0xE5 ∨
        (read_entry (sector_at file (S + current_entry / 16))
          (current_entry % 16 * 32)).attr &&& 0x08 ≠ 0 ∨
        (read_entry (sector_at file (S + current_entry / 16))
          (current_entry % 16 * 32)).attr = 0x0F
    · rw [if_pos h5] at h
      obtain ⟨i, hi1, hi2, hi3, hi4, hi5⟩ := ih (current_entry + 1) _ _ pentry ce disk2 hmed2
        (fun hne => by
          have : (current_entry + 1) / 16 = current_entry / 16 := by omega
          rw [this]) h
      exact ⟨i, by omega, hi2, hi3, hi4, hi5⟩
    · rw [if_neg h5] at h
      simp only [Prod.mk.injEq, dir_read_ret.entry.injEq] at h
      refine ⟨current_entry, le_refl _, h1, h.2.1.symm, ?_, h.1.symm, h4, h5⟩
      intro h3
      by_contra hge
      exact h2 ⟨h3, by omega⟩

/-- On an image smaller than `2^31` bytes whose recorded size is its length, a successful
read of `n` sectors at a sector `S` delivers the bytes `[512 S, 512 (S + n))` of the image,
the read gives the same wherever the stream of the disk stands, and each of these sectors is
read singly as it is. -/
theorem root_sectors_read (d : disk_t) (S n : Nat) (root_buffer : List Nat)
    (hsize : d.size = d.file.length) (hsmall : d.file.length < 2147483648)
    (hS : S + n < 4194304)
    (hroot : disk_read d (to_int32 (S : Int)) (to_int32 (n : Int)) = .ok root_buffer) :
    root_buffer = ((d.file.drop (S * 512)).take (n * 512)).map (· % 256) ∧
      S * 512 + n * 512 ≤ d.file.length ∧
      (∀ d2, same_medium d2 d →
        disk_read d2 (to_int32 (S : Int)) (to_int32 (n : Int)) = .ok root_buffer) ∧
      ∀ d2, same_medium d2 d → ∀ s, s < n →
        disk_read d2 (to_int32 (((S + s) % 4294967296 : Nat) : Int)) 1
          = .ok (sector_at d.file (S + s)) := by
  rw [to_int32_small S (by omega), to_int32_small n (by omega)] at hroot
  obtain ⟨hn, hlen, hbuf⟩ := disk_read_ok d S n root_buffer (by omega) hroot
  refine ⟨hbuf, hlen, ?_, ?_⟩
  · intro d2 hm
    rw [to_int32_small S (by omega), to_int32_small n (by omega)]
    have h1 := disk_read_succeeds d2 S n hn (by rw [hm.1, hm.2]; exact hsize)
      (by rw [hm.1]; exact hsmall) (by rw [hm.1]; omega)
    rw [h1, hbuf, hm.1]
  · intro d2 hm s hs
    have hmod : (S + s) % 4294967296 = S + s := Nat.mod_eq_of_lt (by omega)
    rw [hmod, to_int32_small (S + s) (by omega)]
    have h1 := disk_read_succeeds d2 (S + s) 1 (by omega) (by rw [hm.1, hm.2]; exact hsize)
      (by rw [hm.1]; exact hsmall) (by rw [hm.1]; omega)
    simp only [Nat.one_mul, Nat.cast_one] at h1
    unfold sector_at
    rw [← hm.1]
    exact h1

theorem fat_open_root_geometry (pdisk : disk_t) (first_sector : Nat) (v : volume_t)
    (h : fat_open pdisk first_sector = .ok v) :
    v.super_sector.root_dir_capacity < 65536 ∧
      v.super_sector.root_dir_capacity ≤ v.root_dir_sectors * 16 ∧
      same_medium v.disk pdisk := by
  obtain ⟨sector, fat, d, -, -, -, -, hfile, hsz, rfl⟩ := fat_open_ok_inv pdisk first_sector v h
  have hcap : (read_super sector).root_dir_capacity < 65536 := read_u16_lt _ _
  refine ⟨hcap, ?_, ⟨hfile, hsz⟩⟩
  simp only [mk_volume, SECTOR_SIZE]
  omega

theorem read_entry_sector_at (file : List Nat) (S i : Nat) :
    read_entry (sector_at file (S + i / 16)) (i % 16 * 32) = read_entry file (S * 512 + i * 32) := by
  unfold sector_at
  have e : (S + i / 16) * 512 + i % 16 * 32 = S * 512 + i * 32 := by omega
  rw [read_entry_slice file _ 512 _ (by omega), e]

/-- C23, as it fails: on an image whose root directory holds the volume label `DATA` followed
by the file `DATA` (100 bytes), the first `dir_read` passes over the label and yields `DATA`
with `is_directory = 0` and size 100, whatever its automatic array holds; `file_open` with
the name `DATA` compares the name of the label record first and fails with `EISDIR`, on the
volume as `fat_open` returns it and on the volume as the `dir_read` leaves it (the stream of
the disk behind the root sector, at byte 2048). -/
theorem file_open_listed_name_fails :
    fat_open label_disk 0 = .ok label_volume ∧
      dir_open label_volume [92] = .ok label_dir ∧
      (∀ stack : List Nat,
        dir_read label_dir stack
          = (.entry ⟨name_DATA, 100, 1, 0, 0, 0, 0⟩,
              { label_dir with current_entry := 2, volume := volume_at label_volume 2048 })) ∧
      file_open 8 label_volume name_DATA = some (.error (some Errno.EISDIR)) ∧
      file_open 8 (volume_at label_volume 2048) name_DATA
        = some (.error (some Errno.EISDIR)) := by
  refine ⟨?_, ?_, ?_, ?_, ?_⟩
  · set_option maxRecDepth 100000 in
    decide!
  · set_option maxRecDepth 100000 in
    decide!
  · intro stack
    rw [dir_read_fresh_sector label_dir stack (by decide)]
    set_option maxRecDepth 100000 in
    decide!
  · set_option maxRecDepth 100000 in
    decide!
  · set_option maxRecDepth 100000 in
    decide!

/-- C23, amended. Let a volume be mounted from an image smaller than `2^31` bytes whose
recorded size is its length, let its root region lie below sector `2^22` and be read by
`file_open` in one `disk_read`, and let a cursor of `dir_open`, moved to `current_entry`,
start a `dir_read` whose automatic array holds the root sector of `current_entry` (or
`current_entry` is the first record of a sector).  If that `dir_read` yields an entry with
`is_directory = 0`, the entry is the decoding of a root record `i` at or after
`current_entry`.  If moreover every record before `i` is passed over by the scan of
`file_open` for that name (it is not the end marker, and it is deleted or decodes to another
name) and `get_chain_fat16` returns on the first cluster of record `i`, then `file_open`
with that name returns a handle whose entry is record `i`: it decodes to the name and has
the size `dir_read` reported.  The stream of the disk may stand anywhere when `dir_read`
starts (`p`) and when `file_open` starts (`q`). -/
theorem dir_read_then_file_open (fuel : Nat) (pdisk : disk_t) (first_sector : Nat)
    (pvolume : volume_t) (dir_path : List Nat) (d0 : dir_t) (current_entry : Nat)
    (stack : List Nat) (pentry : dir_entry_t) (pdir2 : dir_t) (root_buffer : List Nat)
    (p q : Nat)
    (hmount : fat_open pdisk first_sector = .ok pvolume)
    (hopen : dir_open pvolume dir_path = .ok d0)
    (hsize : pvolume.disk.size = pvolume.disk.file.length)
    (hsmall : pvolume.disk.file.length < 2147483648)
    (hS : root_start pvolume + pvolume.root_dir_sectors < 4194304)
    (hroot : disk_read pvolume.disk (to_int32 (root_start pvolume))
      (to_int32 pvolume.root_dir_sectors) = .ok root_buffer)
    (hstack : current_entry % 16 ≠ 0 →
      stack = sector_at pvolume.disk.file (root_start pvolume + current_entry / 16))
    (hread : dir_read
      { d0 with current_entry := current_entry, volume := volume_at d0.volume p } stack
        = (.entry pentry, pdir2))
    (hfile : pentry.is_directory = 0) :
    ∃ i, current_entry ≤ i ∧ i < pvolume.super_sector.root_dir_capacity ∧
      pdir2.current_entry = i + 1 ∧
      pentry = fill_entry (root_record pvolume i) ∧
      read_entry root_buffer (i * 32) = root_record pvolume i ∧
      ((∀ j, j < i → scan_skips root_buffer pentry.name j) →
        ∀ r, get_chain_fat16 fuel pvolume.fat_table pvolume.fat_size
            (root_record pvolume i).first_cluster_y = some r →
          file_open fuel (volume_at pvolume q) pentry.name
            = some (.ok ⟨root_moved (volume_at pvolume q), root_record pvolume i, 0, r⟩) ∧
          c_string (decode_name (root_record pvolume i)) = c_string pentry.name ∧
          (root_record pvolume i).size = pentry.size) := by
  obtain ⟨hcap, hgeo, -⟩ := fat_open_root_geometry pdisk first_sector pvolume hmount
  obtain ⟨hbuf, hlen, hagain, hdisk⟩ := root_sectors_read pvolume.disk (root_start pvolume)
    pvolume.root_dir_sectors root_buffer hsize hsmall hS hroot
  unfold dir_open at hopen
  split_ifs at hopen with hpath
  simp only [Except.ok.injEq] at hopen
  subst hopen
  unfold dir_read at hread
  simp only at hread
  generalize hres : dir_read_loop _ _ _ _ _ = res at hread
  obtain ⟨ret, ce, disk2⟩ := res
  simp only [Prod.mk.injEq] at hread
  obtain ⟨hr1, hr2⟩ := hread
  subst hr1
  obtain ⟨i, hi1, hi2, hi3, -, hi5, hi6, hi7⟩ :=
    dir_read_loop_record
      { volume := volume_at pvolume p, current_sector := root_start pvolume,
        current_entry := current_entry,
        max_entries := pvolume.super_sector.root_dir_capacity }
      pvolume.disk.file (root_start pvolume) (Nat.le_of_lt hcap)
      (fun d s hm hs => hdisk d hm s hs)
      _ current_entry stack _ pentry ce disk2 ⟨rfl, rfl⟩ hstack hres
  have hrr : read_entry pvolume.disk.file (root_start pvolume * 512 + i * 32)
      = root_record pvolume i := rfl
  rw [read_entry_sector_at, hrr] at hi5 hi6 hi7
  have hrec : read_entry root_buffer (i * 32) = root_record pvolume i := by
    rw [hbuf, read_entry_slice _ _ _ _ (by
      have : i < pvolume.super_sector.root_dir_capacity := hi2
      omega)]
    rfl
  have hi2' : i < pvolume.super_sector.root_dir_capacity := hi2
  refine ⟨i, hi1, hi2', ?_, hi5, hrec, ?_⟩
  · rw [← hr2]
    exact hi3
  · intro hskip r hchain
    have hname : pentry.name = decode_name (root_record pvolume i) := by rw [hi5]; rfl
    have hattr : ¬ ((root_record pvolume i).attr &&& 0x10 ≠ 0 ∨
        (root_record pvolume i).attr &&& 0x08 ≠ 0) := by
      rintro (h10 | h08)
      · rw [hi5] at hfile
        simp only [fill_entry, if_pos h10] at hfile
        exact absurd hfile (by decide)
      · exact hi7 (Or.inr (Or.inl h08))
    refine ⟨?_, by rw [hname], by rw [hi5]; rfl⟩
    have hroot2 : disk_read (volume_at pvolume q).disk
        (to_int32 (root_start (volume_at pvolume q)))
        (to_int32 (volume_at pvolume q).root_dir_sectors) = .ok root_buffer :=
      hagain (disk_at pvolume.disk q) ⟨rfl, rfl⟩
    have hchain2 : get_chain_fat16 fuel (root_moved (volume_at pvolume q)).fat_table
        (root_moved (volume_at pvolume q)).fat_size (root_record pvolume i).first_cluster_y
        = some r := hchain
    rw [file_open_eq, hroot2]
    simp only
    obtain ⟨m, hm⟩ : ∃ m, (volume_at pvolume q).super_sector.root_dir_capacity = (m + 1) + i :=
      ⟨pvolume.super_sector.root_dir_capacity - i - 1, by
        show pvolume.super_sector.root_dir_capacity = _
        omega⟩
    rw [hm, file_open_scan_skip fuel _ root_buffer pentry.name i (m + 1) 0
      (fun j hj => by rw [Nat.zero_add]; exact hskip j hj), Nat.zero_add, file_open_scan,
      hrec]
    rw [if_neg hi6, if_neg (fun h => hi7 (Or.inl h)), if_pos (by rw [hname]), if_neg hattr,
      hchain2]

/-- C23 (amended), on the sample image: the first `dir_read` yields the decoding of record 0
(`A.TXT`, first cluster 0) and leaves the stream of the disk behind the root sector, at byte
2048; `file_open` with that name, started there, returns the handle of record 0, without a
chain. -/
theorem dir_read_then_file_open_witness :
    dir_read { sample_cursor with current_entry := 0, volume := volume_at sample_mounted 1536 } []
        = (.entry (fill_entry (read_entry sample_root 0)),
            { sample_cursor with
              current_entry := 1, volume := volume_at sample_mounted 2048 }) ∧
      file_open 8 (volume_at sample_mounted 2048) (fill_entry (read_entry sample_root 0)).name
        = some (.ok ⟨root_moved (volume_at sample_mounted 2048),
            root_record sample_mounted 0, 0, none⟩) := by
  have hread : dir_read
      { sample_cursor with current_entry := 0, volume := volume_at sample_cursor.volume 1536 } []
      = (.entry (fill_entry (read_entry sample_root 0)),
          { sample_cursor with
            current_entry := 1, volume := volume_at sample_mounted 2048 }) := by
    set_option maxRecDepth 100000 in
    decide!
  refine ⟨hread, ?_⟩
  obtain ⟨i, -, -, h3, -, -, hopen⟩ :=
    dir_read_then_file_open 8 sample_disk 0 sample_mounted [92] sample_cursor 0 []
      (fill_entry (read_entry sample_root 0))
      { sample_cursor with current_entry := 1, volume := volume_at sample_mounted 2048 }
      sample_root 1536 2048
      (by
        set_option maxRecDepth 100000 in
        decide!)
      (by
        set_option maxRecDepth 100000 in
        decide!)
      (by
        set_option maxRecDepth 100000 in
        decide!)
      (by
        set_option maxRecDepth 100000 in
        decide!)
      (by
        set_option maxRecDepth 100000 in
        decide!)
      (by
        set_option maxRecDepth 100000 in
        decide!)
      (fun h => absurd rfl h)
      hread
      (by
        set_option maxRecDepth 100000 in
        decide!)
  have hi : i = 0 := by
    have h3' : 1 = i + 1 := h3
    omega
  subst hi
  exact (hopen (fun j hj => absurd hj (Nat.not_lt_zero j)) none
    (by
      set_option maxRecDepth 100000 in
      decide!)).1

/-! ## `file_read`: two reads against one -/

theorem fetch_sector_eq (chain : clusters_chain_t) (v : volume_t) (q : Nat) :
    fetch_sector chain v q =
      if q / (v.super_sector.sectors_per_cluster * SECTOR_SIZE) ≥ chain.size then none
      else some (disk_read v.disk (fetch_arg chain v q) 1) := rfl

/-- A sector fetch whose `fseek` offset is not negative as an `int` does not depend on the
position of the stream of the disk. -/
theorem fetch_sector_free (chain : clusters_chain_t) (v : volume_t) (q p : Nat)
    (h : 0 ≤ to_int32 (fetch_arg chain v q * SECTOR_SIZE)) :
    fetch_sector chain (volume_at v p) q = fetch_sector chain v q := by
  rw [fetch_sector_eq, fetch_sector_eq]
  have e : disk_read (volume_at v p).disk (fetch_arg chain (volume_at v p) q) 1
      = disk_read v.disk (fetch_arg chain v q) 1 :=
    disk_read_pos_free v.disk (disk_at v.disk p) _ _ ⟨rfl, rfl⟩ h
  rw [e]
  rfl

theorem readable_run_congr (chain : clusters_chain_t) (v1 v2 : volume_t) :
    ∀ (n p : Nat),
      (∀ q, p ≤ q → q < p + n → fetch_sector chain v1 q = fetch_sector chain v2 q) →
      readable_run chain v1 n p = readable_run chain v2 n p := by
  intro n
  induction n with
  | zero => intro p _; rfl
  | succ n ih =>
    intro p h
    rw [readable_run, readable_run, h p (Nat.le_refl _) (by omega),
      ih (p + 1) (fun q hq1 hq2 => h q (by omega) (by omega))]

/-- Where C4 holds.  On a handle at position 0 whose sectors all have a byte offset that is
not negative as an `int` (the `fseek` of `disk_read` is then not refused), for
`a + b = entry.size`, reading `a` bytes and then `b` bytes (`size = 1`) stores, concatenated,
the same bytes as one read of `entry.size` bytes, and leaves the same handle up to the
position of the stream of the disk (the same final position of the cursor). -/
theorem file_read_split (stream : file_t) (a b : Nat)
    (hpos : stream.position = 0) (hS : stream.entry.size < 4294967296)
    (hab : a + b = stream.entry.size)
    (hseek : ∀ chain, stream.chain = some chain → ∀ q, q < stream.entry.size →
      0 ≤ to_int32 (fetch_arg chain stream.volume q * SECTOR_SIZE)) :
    (file_read 1 a stream).data ++ (file_read 1 b (file_read 1 a stream).stream).data
        = (file_read 1 stream.entry.size stream).data ∧
      ∃ P : Nat, (file_read 1 b (file_read 1 a stream).stream).stream
        = { (file_read 1 stream.entry.size stream).stream with
            volume := volume_at stream.volume P } := by
  by_cases hch : stream.chain = none ∨ ∃ c, stream.chain = some c ∧ c.size = 0
  · rw [file_read_no_chain 1 a stream hch, file_read_no_chain 1 b stream hch,
      file_read_no_chain 1 _ stream hch]
    exact ⟨rfl, stream.volume.disk.pos, rfl⟩
  · obtain ⟨chain, hchain, hcs⟩ : ∃ c, stream.chain = some c ∧ c.size ≠ 0 := by
      cases hc : stream.chain with
      | none => exact absurd (Or.inl hc) hch
      | some c =>
        refine ⟨c, rfl, fun h0 => hch (Or.inr ⟨c, hc, h0⟩)⟩
    have hfree0 := hseek chain hchain
    obtain ⟨v, e, p, c⟩ := stream
    simp only at hchain hpos hS hab hfree0
    subst hchain hpos
    have hfree : ∀ q, q < e.size → ∀ p, fetch_sector chain (volume_at v p) q
        = fetch_sector chain v q :=
      fun q hq p => fetch_sector_free chain v q p (hfree0 q hq)
    have ea : effective_count 1 a ⟨v, e, 0, some chain⟩ = a := by
      unfold effective_count
      simp only
      omega
    have efull : effective_count 1 e.size ⟨v, e, 0, some chain⟩ = a + b := by
      unfold effective_count
      simp only
      omega
    obtain ⟨P1, h1⟩ := file_read_data_stream 1 a ⟨v, e, 0, some chain⟩ chain rfl hcs
      (Nat.zero_le _) hS (fun q _ hq2 p => hfree q (by rw [ea] at hq2; simp only at hq2; omega) p)
    obtain ⟨P3, hfull⟩ := file_read_data_stream 1 e.size ⟨v, e, 0, some chain⟩ chain rfl hcs
      (Nat.zero_le _) hS
      (fun q _ hq2 p => hfree q (by rw [efull] at hq2; simp only at hq2; omega) p)
    rw [ea] at h1
    rw [efull] at hfull
    simp only [Nat.zero_add] at h1 hfull
    have hla := readable_run_length_le chain v a 0
    have eb : effective_count 1 b
        ⟨volume_at v P1, e, (readable_run chain v a 0).length, some chain⟩ = b := by
      unfold effective_count
      simp only
      omega
    obtain ⟨P2, h2⟩ := file_read_data_stream 1 b
      ⟨volume_at v P1, e, (readable_run chain v a 0).length, some chain⟩ chain rfl hcs
      (by simp only; omega) hS
      (fun q _ hq2 p => by
        rw [eb] at hq2
        simp only at hq2
        show fetch_sector chain (volume_at v p) q = fetch_sector chain (volume_at v P1) q
        rw [hfree q (by omega) p, hfree q (by omega) P1])
    rw [eb] at h2
    simp only at h2
    have hrun : readable_run chain (volume_at v P1) b (readable_run chain v a 0).length
        = readable_run chain v b (readable_run chain v a 0).length :=
      readable_run_congr chain _ _ b _ (fun q _ hq2 => hfree q (by omega) P1)
    rw [hrun] at h2
    rw [h1.2, h1.1, h2.1, h2.2, hfull.1, hfull.2, readable_run_add chain v a b 0]
    by_cases hfulla : (readable_run chain v a 0).length = a
    · simp only [hfulla, if_true, Nat.zero_add, List.length_append]
      exact ⟨trivial, P2, rfl⟩
    · have hstop := readable_run_stop chain v a 0 (by omega) b
      simp only [Nat.zero_add] at hstop
      simp only [hfulla, if_false, hstop, List.append_nil, List.length_nil, Nat.add_zero]
      exact ⟨trivial, P2, rfl⟩

set_option maxRecDepth 100000 in
/-- On the sample volume: 30 bytes and then 70 bytes of a 100-byte file against one read of
100 bytes, which stores 100 bytes. -/
theorem file_read_split_witness :
    ((file_read 1 30 (sample_handle 100 0)).data
          ++ (file_read 1 70 (file_read 1 30 (sample_handle 100 0)).stream).data
        = (file_read 1 (sample_handle 100 0).entry.size (sample_handle 100 0)).data ∧
      ∃ P : Nat, (file_read 1 70 (file_read 1 30 (sample_handle 100 0)).stream).stream
        = { (file_read 1 (sample_handle 100 0).entry.size (sample_handle 100 0)).stream with
            volume := volume_at (sample_handle 100 0).volume P }) ∧
    (file_read 1 100 (sample_handle 100 0)).data.length = 100 :=
  ⟨file_read_split (sample_handle 100 0) 30 70 rfl (by decide) (by decide)
      (fun chain hchain q hq => by
        have hc : chain = ⟨[2], 1⟩ := by
          have h : some (⟨[2], 1⟩ : clusters_chain_t) = some chain := hchain
          exact (Option.some.inj h).symm
        subst hc
        have hq100 : q < 100 := hq
        have e : fetch_arg ⟨[2], 1⟩ (sample_handle 100 0).volume q = 4 := by
          unfold fetch_arg
          have h1 : (sample_handle 100 0).volume.super_sector.sectors_per_cluster = 1 := by
            decide!
          have h2 : (sample_handle 100 0).volume.first_data_sector = 4 := by decide!
          rw [h1, h2]
          simp only [SECTOR_SIZE, Nat.one_mul]
          rw [Nat.div_eq_of_lt (show q < 512 by omega), Nat.mod_eq_of_lt (show q < 512 by omega),
            Nat.div_eq_of_lt (show q < 512 by omega)]
          decide
        rw [e]
        decide),
    by decide!⟩

set_option maxRecDepth 100000 in
/-- C4, at the input where it fails: the sample image mounted at `first_sector = 2^22`.
`fat_open` and `file_open` succeed and give the handle of `README.TXT` (100 bytes, one
cluster) at position 0.  Every sector of the volume has a byte offset of `2^31` or more,
which wraps to a negative `int`; the `fseek` of `disk_read` is refused, its result is not
tested, and `fread` delivers the sector at which the stream stands.  One read of 100 bytes
returns 100 and stores the first 100 bytes of data sector 1.  A read of 40 bytes returns 40
and stores the first 40 of these, and the read of 60 bytes that follows returns 60 and
stores bytes 40 to 99 of data sector 2, the next sector of the stream: the bytes of the two
reads, concatenated, are not the bytes of the single read, while the final position is 100
either way. -/
theorem file_read_split_differs :
    fat_open sample_disk 4194304 = .ok far_volume ∧
    file_open 8 far_volume name_README_TXT = some (.ok far_handle) ∧
    far_handle.position = 0 ∧ far_handle.entry.size = 100 ∧
    (file_read 1 100 far_handle).ret = .ok 100 ∧
    (file_read 1 100 far_handle).data = (sample_data 1).take 100 ∧
    (file_read 1 40 far_handle).ret = .ok 40 ∧
    (file_read 1 40 far_handle).data = (sample_data 1).take 40 ∧
    (file_read 1 60 (file_read 1 40 far_handle).stream).ret = .ok 60 ∧
    (file_read 1 60 (file_read 1 40 far_handle).stream).data
      = ((sample_data 2).drop 40).take 60 ∧
    (file_read 1 40 far_handle).data ++ (file_read 1 60 (file_read 1 40 far_handle).stream).data
      ≠ (file_read 1 far_handle.entry.size far_handle).data ∧
    (file_read 1 60 (file_read 1 40 far_handle).stream).stream.position = 100 ∧
    (file_read 1 far_handle.entry.size far_handle).stream.position = 100 := by
  decide!

/-! ## `fat_open`: the comparison of the FAT copies -/

theorem fread_at_append (A R : List Nat) (start n : Nat) (h : start + n * 512 ≤ A.length) :
    fread_at (A ++ R) start n = (n, ((A.drop start).take (n * 512)).map (· % 256)) := by
  unfold fread_at
  have hitems : min n (((A ++ R).length - start) / SECTOR_SIZE) = n := by
    have : n ≤ ((A ++ R).length - start) / SECTOR_SIZE := by
      rw [Nat.le_div_iff_mul_le (by decide), List.length_append]
      simp only [SECTOR_SIZE]
      omega
    omega
  simp only [SECTOR_SIZE] at hitems ⊢
  rw [hitems, List.drop_append_of_le_length (by omega),
    List.take_append_of_le_length (by rw [List.length_drop]; omega)]

theorem fread_end_append (A R : List Nat) (start n : Nat) (h : start + n * 512 ≤ A.length) :
    fread_end (A ++ R) start n = start + n * 512 := by
  unfold fread_end
  rw [List.length_append]
  simp only [SECTOR_SIZE]
  omega

/-- A `disk_read` that passes the two tests and whose sectors, from where the `fseek` puts
the stream, lie in the first part `A` of the image: what it delivers and where it leaves the
stream. -/
theorem disk_read_prefix (d : disk_t) (A R : List Nat) (s n : Int) (sz start cnt : Nat)
    (hfile : d.file = A ++ R) (hsize : d.size = sz)
    (hguard : ¬ (s < 0 ∨ n ≤ 0))
    (hrange : ¬ (to_int32 (to_int32 (s + n) * (SECTOR_SIZE : Nat)) > to_int32 sz))
    (hstart : seek_set d.pos (to_int32 (s * (SECTOR_SIZE : Nat))) = start)
    (hn : n = (cnt : Int)) (hin : start + cnt * 512 ≤ A.length) :
    disk_read d s n = .ok (((A.drop start).take (cnt * 512)).map (· % 256)) ∧
      disk_after d s n = disk_at d (start + cnt * 512) := by
  subst hn
  unfold disk_read disk_after
  rw [if_neg hguard, if_neg hguard, hsize, if_neg hrange, if_neg hrange, hstart, hfile,
    Int.toNat_ofNat, fread_end_append A R start cnt hin]
  simp only [fread_at_append A R start cnt hin, ne_eq, not_true_eq_false, if_false, and_self]

/-- How `fat_open` succeeds on a boot record with two FAT copies. -/
theorem fat_open_two_copies (pdisk : disk_t) (first_sector : Nat) (sector fat fat2 : List Nat)
    (h1 : disk_read pdisk (to_int32 first_sector) 1 = .ok sector)
    (hrej : super_rejected (read_super sector) = false)
    (h2 : disk_read (disk_after_boot pdisk first_sector)
      (to_int32 ((first_sector + (read_super sector).reserved_sectors) % 4294967296 : Nat))
      (read_super sector).sectors_per_fat = .ok fat)
    (hc : (read_super sector).fat_count = 2)
    (h3 : disk_read (disk_after_fat pdisk first_sector (read_super sector))
      (to_int32 (((first_sector + (read_super sector).reserved_sectors) % 4294967296
        + (read_super sector).sectors_per_fat) % 4294967296 : Nat))
      (read_super sector).sectors_per_fat = .ok fat2)
    (heq : fat.take ((read_super sector).sectors_per_fat * SECTOR_SIZE)
      = fat2.take ((read_super sector).sectors_per_fat * SECTOR_SIZE)) :
    fat_open pdisk first_sector
      = .ok (mk_volume (disk_after_fat_2 pdisk first_sector (read_super sector)) first_sector
          (read_super sector) fat) := by
  unfold fat_open
  rw [h1]
  simp only [hrej, Bool.false_eq_true, if_false]
  rw [h2]
  simp only [hc, if_true]
  rw [h3]
  simp only [heq, ne_eq, not_true_eq_false, if_false]

theorem sample_image_length : sample_image.length = 3072 := by
  set_option maxRecDepth 100000 in
  decide!

theorem wrap_image_length : wrap_image.length = 4294970368 := by
  have h2 : sample_disk_mismatch.file.length = 3072 := by
    set_option maxRecDepth 100000 in
    decide!
  unfold wrap_image wrap_gap
  rw [List.length_append, List.length_append, List.length_replicate, sample_image_length, h2]

theorem wrap_image_drop : wrap_image.drop 4294967296 = sample_disk_mismatch.file := by
  unfold wrap_image
  apply List.drop_left'
  unfold wrap_gap
  rw [List.length_append, List.length_replicate, sample_image_length]

theorem wrap_image_byte (i : Nat) :
    byteAt wrap_image (4294967296 + i) = byteAt sample_disk_mismatch.file i := by
  unfold byteAt
  rw [← wrap_image_drop, List.getD_eq_getElem?_getD, List.getD_eq_getElem?_getD,
    List.getElem?_drop]

/-- C8, at the input where it fails: an image of `2^32 + 3072` bytes that holds, at sector
`2^23`, a volume whose boot record declares two FAT copies and whose copies differ in byte 4,
and `fat_open` at `first_sector = 2^23`.  The `int` products of `disk_read` wrap: the range
check compares 512, 1024 and 1536 with `(int32_t)size = 3072` and passes, the `fseek`
offsets are 0, 512 and 1024, and the three reads deliver sectors 0, 1 and 2 of the image,
the boot sector and the two equal FAT copies of the volume at sector 0.  `fat_open` returns
a volume. -/
theorem fat_open_fat_mismatch_mounts :
    (boot_record wrap_disk 8388608).fat_count = 2 ∧
    (∃ i, i < (boot_record wrap_disk 8388608).sectors_per_fat * 512 ∧
      byteAt wrap_disk.file
          ((8388608 + (boot_record wrap_disk 8388608).reserved_sectors) * 512 + i)
        ≠ byteAt wrap_disk.file
          ((8388608 + (boot_record wrap_disk 8388608).reserved_sectors
            + (boot_record wrap_disk 8388608).sectors_per_fat) * 512 + i)) ∧
    fat_open wrap_disk 8388608 = .ok wrap_volume ∧
    ¬ ∃ e, fat_open wrap_disk 8388608 = .error e := by
  have hboot : boot_record wrap_disk 8388608 = read_super sample_disk_mismatch.file := by
    unfold boot_record
    show read_super (wrap_image.drop (8388608 * SECTOR_SIZE)) = _
    rw [show 8388608 * SECTOR_SIZE = 4294967296 from rfl, wrap_image_drop]
  have hfc : (read_super sample_disk_mismatch.file).fat_count = 2 := by
    set_option maxRecDepth 100000 in
    decide!
  have hres : (read_super sample_disk_mismatch.file).reserved_sectors = 1 := by
    set_option maxRecDepth 100000 in
    decide!
  have hspf : (read_super sample_disk_mismatch.file).sectors_per_fat = 1 := by
    set_option maxRecDepth 100000 in
    decide!
  have hfile : wrap_disk.file = sample_image ++ (wrap_gap ++ sample_disk_mismatch.file) := by
    show wrap_image = _
    unfold wrap_image
    rw [List.append_assoc]
  have hsize : wrap_disk.size = 4294970368 := wrap_image_length
  have hopen : fat_open wrap_disk 8388608 = .ok wrap_volume := by
    have hsup : read_super (((sample_image.drop 0).take (1 * 512)).map (· % 256))
        = read_super (sample_boot 2 6) := by
      set_option maxRecDepth 100000 in
      decide!
    have hres0 : (read_super (sample_boot 2 6)).reserved_sectors = 1 := by
      set_option maxRecDepth 100000 in
      decide!
    have hspf0 : (read_super (sample_boot 2 6)).sectors_per_fat = 1 := by
      set_option maxRecDepth 100000 in
      decide!
    have hfc0 : (read_super (sample_boot 2 6)).fat_count = 2 := by
      set_option maxRecDepth 100000 in
      decide!
    have hrej0 : super_rejected (read_super (sample_boot 2 6)) = false := by
      set_option maxRecDepth 100000 in
      decide!
    have hfat1 : ((sample_image.drop 512).take (1 * 512)).map (· % 256) = sample_fat := by
      set_option maxRecDepth 100000 in
      decide!
    have hfat2 : ((sample_image.drop 1024).take (1 * 512)).map (· % 256) = sample_fat := by
      set_option maxRecDepth 100000 in
      decide!
    have r1 := disk_read_prefix wrap_disk sample_image _ (to_int32 (8388608 : Nat)) 1
      4294970368 0 1 hfile hsize (by decide) (by decide) (by decide) rfl
      (by rw [sample_image_length]; decide)
    have r2 := disk_read_prefix (disk_at wrap_disk 512) sample_image _
      (to_int32 ((8388608 + 1) % 4294967296 : Nat)) ((1 : Nat) : Int)
      4294970368 512 1 hfile hsize (by decide) (by decide) (by decide) rfl
      (by rw [sample_image_length]; decide)
    have r3 := disk_read_prefix (disk_at wrap_disk 1024) sample_image _
      (to_int32 (((8388608 + 1) % 4294967296 + 1) % 4294967296 : Nat)) ((1 : Nat) : Int)
      4294970368 1024 1 hfile hsize (by decide) (by decide) (by decide) rfl
      (by rw [sample_image_length]; decide)
    have hb : disk_after_boot wrap_disk 8388608 = disk_at wrap_disk 512 := r1.2
    have hf : disk_after_fat wrap_disk 8388608 (read_super (sample_boot 2 6))
        = disk_at wrap_disk 1024 := by
      unfold disk_after_fat
      rw [hb, hres0, hspf0]
      exact r2.2
    have hf2 : disk_after_fat_2 wrap_disk 8388608 (read_super (sample_boot 2 6))
        = disk_at wrap_disk 1536 := by
      unfold disk_after_fat_2
      rw [hf, hres0, hspf0]
      exact r3.2
    have h := fat_open_two_copies wrap_disk 8388608
      (((sample_image.drop 0).take (1 * 512)).map (· % 256)) sample_fat sample_fat r1.1
      (by rw [hsup]; exact hrej0)
      (by
        rw [hsup, hb, hres0, hspf0, ← hfat1]
        exact r2.1)
      (by rw [hsup]; exact hfc0)
      (by
        rw [hsup, hf, hres0, hspf0, ← hfat2]
        exact r3.1)
      rfl
    rw [h, hsup, hf2]
    rfl
  refine ⟨by rw [hboot]; exact hfc, ⟨4, ?_, ?_⟩, hopen, ?_⟩
  · rw [hboot, hspf]
    decide
  · rw [hboot, hres, hspf]
    show byteAt wrap_image ((8388608 + 1) * 512 + 4)
      ≠ byteAt wrap_image ((8388608 + 1 + 1) * 512 + 4)
    rw [show (8388608 + 1) * 512 + 4 = 4294967296 + 516 from rfl,
      show (8388608 + 1 + 1) * 512 + 4 = 4294967296 + 1028 from rfl,
      wrap_image_byte, wrap_image_byte]
    set_option maxRecDepth 100000 in
    decide!
  · rintro ⟨e, he⟩
    rw [hopen] at he
    cases he

end Fat16
